import Mathlib

/-!
# Verification of the kantui terminal kanban board

A shallow embedding, in Lean 4, of the core of the `kantui` repository:

* the board file codec (`src/ops/crud.rs`: `Board::save_to_file`,
  `Board::load_from_file`, `Priority::computed`),
* the in-memory board model (`src/kanban/models.rs`: `App` and its
  operations), and
* the modal input state machine (`src/kanban/ui/input_handler.rs`:
  `run_app`).

Text is modelled as `List Char` (one list per line; the codec works line by
line exactly as the Rust code does via `BufReader::lines`).  Rust `usize` /
`u8` arithmetic is modelled on `Nat` with explicit `% 2^64` wrapping where the
source can overflow or underflow.  Fallible code (string slicing that can
panic, I/O) is modelled with `Option` / explicit error values.
-/

set_option maxRecDepth 10000

namespace Kantui

/-- Lines of text are lists of characters. -/
abbrev Str := List Char

/-- Whitespace test used by Rust `str::trim` (restricted to the ASCII
whitespace characters that can actually appear here). -/
def isWs (c : Char) : Bool :=
  c = ' ' || c = '\t' || c = '\n' || c = '\r'

/-- `str::trim_start`. -/
def trimLeft (s : Str) : Str := s.dropWhile isWs

/-- `str::trim_end`. -/
def trimRight (s : Str) : Str := (s.reverse.dropWhile isWs).reverse

/-- `str::trim`. -/
def trim (s : Str) : Str := trimRight (trimLeft s)

/-- Bool test: `pat` is a prefix of `s` (Rust `str::starts_with`). -/
def isPre : Str → Str → Bool
  | [], _ => true
  | _ :: _, [] => false
  | p :: ps, c :: cs => p = c && isPre ps cs

/-- Bool test: `pat` is a suffix of `s` (Rust `str::ends_with`). -/
def isSuf (pat s : Str) : Bool := isPre pat.reverse s.reverse

/-- Index of the first occurrence of the substring `pat` in `s`
(Rust `str::find` with a string pattern). -/
def findSub (pat : Str) : Str → Option Nat
  | [] => if isPre pat [] then some 0 else none
  | c :: cs => if isPre pat (c :: cs) then some 0 else (findSub pat cs).map (· + 1)

/-- Rust `str::contains` with a string pattern. -/
def containsSub (pat s : Str) : Bool := (findSub pat s).isSome

/-- Index of the first occurrence of the character `c` in `s`
(Rust `str::find` with a char pattern). -/
def findChar (c : Char) : Str → Option Nat
  | [] => none
  | a :: as' => if a = c then some 0 else (findChar c as').map (· + 1)

/-- Does `s` contain the character `c`? -/
def hasChar (c : Char) (s : Str) : Bool := (findChar c s).isSome

/-- Rust `str::split(sep)` collected to a list: always at least one chunk;
an empty input yields `[[]]`. -/
def splitOnChar (sep : Char) : Str → List Str
  | [] => [[]]
  | a :: rest =>
    let r := splitOnChar sep rest
    if a = sep then [] :: r
    else
      match r with
      | h :: t => (a :: h) :: t
      | [] => [[a]]

/-- Rust `str::trim_matches('=')`: strip all leading and trailing `'='`. -/
def trimEq (s : Str) : Str :=
  ((s.dropWhile (fun c => c = '=')).reverse.dropWhile (fun c => c = '=')).reverse

/-- Checked slice `s[a..b]` (by character index): `none` models the Rust
byte-index panic when `a > b` or `b > s.length`. -/
def slice (a b : Nat) (s : Str) : Option Str :=
  if a ≤ b ∧ b ≤ s.length then some ((s.drop a).take (b - a)) else none

/-- Checked slice `s[a..]`: `none` models the Rust panic when `a > s.length`. -/
def sliceFrom (a : Nat) (s : Str) : Option Str :=
  if a ≤ s.length then some (s.drop a) else none

/-- The decimal digit character for `n < 10`. -/
def digitChar (n : Nat) : Char := Char.ofNat (48 + n)

/-- Fuel-based digit expansion; the fuel only needs to exceed the number of
digits, so `natRepr` below always supplies enough. -/
def natReprAux : Nat → Nat → Str
  | 0, _ => []
  | fuel + 1, n =>
    if n < 10 then [digitChar n]
    else natReprAux fuel (n / 10) ++ [digitChar (n % 10)]

/-- Decimal representation of a natural number (Rust `format!` of an
unsigned integer). -/
def natRepr (n : Nat) : Str := natReprAux (n + 1) n

/-- Is `c` a decimal digit? -/
def isDigitCh (c : Char) : Bool := 48 ≤ c.toNat && c.toNat ≤ 57

/-- Numeric value of a digit list. -/
def digitsVal (s : Str) : Nat := s.foldl (fun acc c => acc * 10 + (c.toNat - 48)) 0

/-- Parse a non-empty all-digit string. -/
def parseDigits (s : Str) : Option Nat :=
  if s ≠ [] ∧ s.all isDigitCh then some (digitsVal s) else none

/-- Rust `str::parse` for an unsigned integer type, before the range check:
accepts an optional leading `'+'` followed by one or more digits. -/
def parseUnsigned : Str → Option Nat
  | '+' :: rest => parseDigits rest
  | s => parseDigits s

/-- Rust `str::parse::<usize>()`: fails (with a range error) above
`usize::MAX`. -/
def parseUsize (s : Str) : Option Nat :=
  (parseUnsigned s).filter (fun n => n < 2 ^ 64)

/-- Rust `str::parse::<u8>()`: fails above `u8::MAX`. -/
def parseU8 (s : Str) : Option Nat :=
  (parseUnsigned s).filter (fun n => n < 2 ^ 8)

/-- `Vec::join(",")` on a list of strings. -/
def joinComma : List Str → Str
  | [] => []
  | [t] => t
  | t :: rest => t ++ ',' :: joinComma rest

end Kantui

namespace Kantui

/-! ## A model of IEEE-754 binary32 arithmetic

`Priority::computed` works in `f32`.  Every `f32` value is a dyadic rational;
we represent it exactly as `m / 2 ^ s` (`F32` below) and model each `f32`
arithmetic operation as the exact rational operation followed by rounding to
24 significant bits with round-to-nearest, ties-to-even.  The values arising
in this program are tiny, so overflow and subnormals are irrelevant and not
modelled.  (Plain `Rat` would state this just as well, but its kernel
arithmetic does not reduce, so witnesses could not be checked by `decide`.) -/

/-- Bit length of a natural number (`0` for `0`); fuel-based so that it is
structural and kernel-reducible. -/
def bitLenAux : Nat → Nat → Nat
  | 0, _ => 0
  | fuel + 1, n => if n = 0 then 0 else bitLenAux fuel (n / 2) + 1

/-- Bit length: `2 ^ (bitLen n - 1) ≤ n < 2 ^ bitLen n` for `n ≥ 1`. -/
def bitLen (n : Nat) : Nat := bitLenAux n n

/-- Round `a / b` (with `b ≠ 0`) to the nearest natural, ties to even. -/
def roundRatHE (a b : Nat) : Nat :=
  let q := a / b
  let r := a % b
  if 2 * r < b then q
  else if b < 2 * r then q + 1
  else if q % 2 = 0 then q else q + 1

/-- The integer mantissa of `a / b` at exponent `e`:
round-half-even of `(a / b) * 2 ^ (-e)`. -/
def mantAt (a b : Nat) (e : Int) : Nat :=
  if 0 ≤ e then roundRatHE a (b * 2 ^ e.toNat) else roundRatHE (a * 2 ^ (-e).toNat) b

/-- Mantissa (24 bits) and exponent of the binary32 rounding of the positive
rational `a / b` (`a, b ≥ 1`). -/
def froundParts (a b : Nat) : Nat × Int :=
  let e0 : Int := (bitLen a : Int) - (bitLen b : Int) - 24
  let m0 := mantAt a b e0
  if m0 < 2 ^ 24 then (m0, e0) else (mantAt a b (e0 + 1), e0 + 1)

/-- An `f32` value, represented exactly as the dyadic rational `m / 2 ^ s`. -/
structure F32 where
  m : Int
  s : Nat
  deriving DecidableEq, Repr

/-- Build the `F32` of value `(±mag) * 2 ^ e`. -/
def mkF32 (mag : Nat) (e : Int) (neg : Bool) : F32 :=
  let mm : Int := if neg then -(mag : Int) else (mag : Int)
  match e with
  | Int.ofNat n => ⟨mm * ((2 ^ n : Nat) : Int), 0⟩
  | Int.negSucc n => ⟨mm, n + 1⟩

/-- Binary32 round-to-nearest-even of the rational `n / d` (`d ≥ 1`). -/
def froundRat (n : Int) (d : Nat) : F32 :=
  if n = 0 then ⟨0, 0⟩
  else
    let p := froundParts n.natAbs d
    mkF32 p.1 p.2 (decide (n < 0))

/-- `f32` conversion of an unsigned integer (`n as f32`; exact below `2^24`,
as all values here are). -/
def natF32 (n : Nat) : F32 := froundRat (n : Int) 1

/-- `f32` addition. -/
def F32.add (x y : F32) : F32 :=
  froundRat (x.m * ((2 ^ y.s : Nat) : Int) + y.m * ((2 ^ x.s : Nat) : Int)) (2 ^ x.s * 2 ^ y.s)

/-- `f32` subtraction. -/
def F32.sub (x y : F32) : F32 :=
  froundRat (x.m * ((2 ^ y.s : Nat) : Int) - y.m * ((2 ^ x.s : Nat) : Int)) (2 ^ x.s * 2 ^ y.s)

/-- `f32` multiplication. -/
def F32.mul (x y : F32) : F32 :=
  froundRat (x.m * y.m) (2 ^ x.s * 2 ^ y.s)

/-- `f32` division (the divisor is never zero where this is used). -/
def F32.div (x y : F32) : F32 :=
  froundRat (x.m * ((2 ^ y.s : Nat) : Int) * (if y.m < 0 then -1 else 1))
    (y.m.natAbs * 2 ^ x.s)

/-- Round `a / b` (`b ≥ 1`) to the nearest integer, ties to even (used for
the `{:.2}` decimal formatting of the computed priority). -/
def rheInt (a : Int) (b : Nat) : Int :=
  let q := a.fdiv b
  let r := a - q * b
  if 2 * r < (b : Int) then q
  else if (b : Int) < 2 * r then q + 1
  else if q % 2 = 0 then q else q + 1

/-- Two-digit zero-padded decimal. -/
def pad2 (n : Nat) : Str := if n < 10 then '0' :: natRepr n else natRepr n

/-- Format a non-negative hundredth count as `int.frac`. -/
def fmtHundredths (n : Nat) : Str := natRepr (n / 100) ++ '.' :: pad2 (n % 100)

/-- Rust `format!` with `{:.2}`: two decimal places, correctly rounded. -/
def fmtF2 (x : F32) : Str :=
  let n := rheInt (x.m * 100) (2 ^ x.s)
  if n < 0 then '-' :: fmtHundredths (-n).toNat else fmtHundredths n.toNat

end Kantui

namespace Kantui.Crud

/-! ## The board file codec (`src/ops/crud.rs`) -/

/-- `Priority` (impact / urgency / effort, each a `u8`). -/
structure Priority where
  impact : Nat
  urgency : Nat
  effort : Nat
  deriving DecidableEq, Repr

/-- The `f32` literal `0.2` (not exactly representable). -/
def lit02 : F32 := froundRat 1 5

/-- The `f32` literal `19.8` (not exactly representable). -/
def lit198 : F32 := froundRat 99 5

/-- The `f32` literal `1.0` (exact). -/
def lit1 : F32 := froundRat 1 1

/-- The `f32` literal `9.0` (exact). -/
def lit9 : F32 := froundRat 9 1

/-- `Priority::computed`: `None` when `effort == 0`, otherwise the normalized
score computed in `f32` exactly as the source does:
`base_score = (impact as f32 + urgency as f32) / effort as f32`,
`normalized_score = (base_score - 0.2) / 19.8`, result
`1.0 + 9.0 * normalized_score`. -/
def Priority.computed (p : Priority) : Option F32 :=
  if p.effort = 0 then none
  else
    let base_score := ((natF32 p.impact).add (natF32 p.urgency)).div (natF32 p.effort)
    let normalized_score := (base_score.sub lit02).div lit198
    some (lit1.add (lit9.mul normalized_score))

/-- A task record of the codec (`id` is a `usize`). -/
structure Task where
  id : Nat
  title : Str
  priority : Option Priority
  tags : List Str
  created : Option Str
  deriving DecidableEq, Repr

/-- A column record of the codec. -/
structure Column where
  name : Str
  tasks : List Task
  deriving DecidableEq, Repr

/-- A board record of the codec. -/
structure Board where
  name : Str
  date : Str
  description : Str
  columns : List Column
  deriving DecidableEq, Repr

/-- The task line written by `Board::save_to_file`:
`* [ID:<id>] <title>` followed by the optional priority breakdown
(with `Computed:` only when defined), the optional `Tags:` segment
(only when the tag list is non-empty) and the optional `Created:` segment. -/
def taskLine (t : Task) : Str :=
  ("* [ID:").data ++ natRepr t.id ++ ("] ").data ++ t.title
    ++ (match t.priority with
        | some p =>
          (" | Impact: ").data ++ natRepr p.impact
            ++ (" | Urgency: ").data ++ natRepr p.urgency
            ++ (" | Effort: ").data ++ natRepr p.effort
            ++ (match p.computed with
                | some f => (" | Computed: ").data ++ fmtF2 f
                | none => [])
        | none => [])
    ++ (if t.tags = [] then [] else (" | Tags: ").data ++ joinComma t.tags)
    ++ (match t.created with
        | some c => (" | Created: ").data ++ c
        | none => [])

/-- `Board::save_to_file`, as the list of lines written: a `#` header line
with the name, `Date:` and `Description:` lines, a blank line, and for every
column a `== name ==` line, its task lines, and a blank line. -/
def Board.saveToFile (b : Board) : List Str :=
  [("# TUI Kanban Board: ").data ++ b.name,
   ("Date: ").data ++ b.date,
   ("Description: ").data ++ b.description,
   []]
  ++ b.columns.flatMap fun c =>
      (("== ").data ++ c.name ++ (" ==").data) :: c.tasks.map taskLine ++ [[]]

/-- Accumulator of the `for part in parts` loop of `load_from_file`. -/
structure SegAcc where
  impact : Option Nat
  urgency : Option Nat
  effort : Option Nat
  tags : List Str
  created : Option Str
  deriving DecidableEq, Repr

/-- One iteration of the segment loop: match the trimmed segment by prefix
(`Impact:` / `Urgency:` / `Effort:` / `Tags:` / `Created:`); anything else
(including `Computed:`) is ignored. -/
def segStep (acc : SegAcc) (part : Str) : SegAcc :=
  if isPre (("Impact:").data) part then
    { acc with impact := parseU8 (trim (part.drop 7)) }
  else if isPre (("Urgency:").data) part then
    { acc with urgency := parseU8 (trim (part.drop 8)) }
  else if isPre (("Effort:").data) part then
    { acc with effort := parseU8 (trim (part.drop 7)) }
  else if isPre (("Tags:").data) part then
    { acc with tags := (splitOnChar ',' (trim (part.drop 5))).map trim }
  else if isPre (("Created:").data) part then
    { acc with created := some (trim (part.drop 8)) }
  else acc

/-- Parse one (already trimmed) task line.  `none` models the two Rust
slice panics: `first_part[id_start..id_end]` with `id_start > id_end`, and
`first_part[id_end + 1..]` when the line contains no `]` at all
(`id_end` defaults to the length). -/
def parseTaskLine (trimmed : Str) : Option Task :=
  let parts := (splitOnChar '|' trimmed).map trim
  let first_part := parts.headD []
  let id_start := match findSub (("[ID:").data) first_part with
    | some i => i + 4
    | none => 0
  let id_end := match findChar ']' first_part with
    | some i => i
    | none => first_part.length
  match slice id_start id_end first_part with
  | none => none
  | some id_str =>
    let id := (parseUsize id_str).getD 0
    match sliceFrom (id_end + 1) first_part with
    | none => none
    | some titleStr =>
      let title := trim titleStr
      let acc := parts.tail.foldl segStep ⟨none, none, none, [], none⟩
      let priority : Option Priority :=
        match acc.impact, acc.urgency, acc.effort with
        | some i, some u, some e => some ⟨i, u, e⟩
        | _, _, _ => none
      some ⟨id, title, priority, acc.tags, acc.created⟩

/-- Parser state: the board built so far and the column being filled. -/
structure LoadSt where
  board : Board
  current : Option Column
  deriving DecidableEq, Repr

/-- Processing of a single line of the file by `Board::load_from_file`. -/
def processLine (st : LoadSt) (line : Str) : Option LoadSt :=
  let trimmed := trim line
  if trimmed = [] then some st
  else if isPre (("#").data) trimmed then
    if containsSub (("TUI Kanban Board:").data) trimmed then
      match findSub (("TUI Kanban Board:").data) trimmed with
      | some idx =>
        some { st with board := { st.board with name := trim (trimmed.drop (idx + 17)) } }
      | none => some st
    else some st
  else if isPre (("Date:").data) trimmed then
    some { st with board := { st.board with date := trim (trimmed.drop 5) } }
  else if isPre (("Description:").data) trimmed then
    some { st with board := { st.board with description := trim (trimmed.drop 12) } }
  else if isPre (("==").data) trimmed && isSuf (("==").data) trimmed then
    let flushed := match st.current with
      | some col => { st.board with columns := st.board.columns ++ [col] }
      | none => st.board
    some { board := flushed, current := some ⟨trim (trimEq trimmed), []⟩ }
  else if isPre (("*").data) trimmed then
    match parseTaskLine trimmed with
    | none => none
    | some task =>
      match st.current with
      | some col => some { st with current := some { col with tasks := col.tasks ++ [task] } }
      | none => some st
  else some st

/-- Fold `processLine` over the lines, propagating a panic as `none`. -/
def runLines : LoadSt → List Str → Option LoadSt
  | st, [] => some st
  | st, l :: ls =>
    match processLine st l with
    | none => none
    | some st' => runLines st' ls

/-- `Board::load_from_file` on the lines of a file: run the line loop from an
empty board and flush the last open column. -/
def Board.loadFromFile (lines : List Str) : Option Board :=
  (runLines ⟨⟨[], [], [], []⟩, none⟩ lines).map fun st =>
    match st.current with
    | some col => { st.board with columns := st.board.columns ++ [col] }
    | none => st.board

end Kantui.Crud

namespace Kantui.Models

/-! ## The in-memory board model (`src/kanban/models.rs`, `src/kanban/storage.rs`)

Operations that call `self.save_board()` are modelled as returning
`App × Bool`, the boolean recording whether `save_board` was invoked (i.e.
whether the backing file is rewritten; the call's own `io::Result` is always
discarded by the callers in the source).  File-system and environment access
is modelled by an explicit `Env` value. -/

/-- A frontend task. -/
structure Task where
  title : Str
  description : Option Str
  priority : Option Nat
  deriving DecidableEq, Repr

/-- A frontend column. -/
structure Column where
  title : Str
  tasks : List Task
  selected_task : Option Nat
  deriving DecidableEq, Repr

/-- The `InputMode` enum exactly as declared in `models.rs` (ten variants;
the renderer in `popups.rs` mentions two further renaming variants that this
enum does not declare). -/
inductive InputMode
  | Normal
  | AddingColumn
  | AddingTask
  | MoveMode
  | ConfirmDeleteColumn
  | BoardSelection
  | AddingBoard
  | ColumnSelectionMode
  | JumpToColumnMode
  | JumpToTaskMode
  deriving DecidableEq, Repr, Fintype

/-- The application state.  `space_pressed` is a field the input handler
reads and writes on `self`; it is part of the application state even though
the `struct App` block in `models.rs` omits its declaration. -/
structure App where
  title : Str
  columns : List Column
  active_column : Nat
  scroll_offset : Nat
  input_mode : InputMode
  input_text : Str
  start_index : Nat
  file_path : Option Str
  available_boards : List Str
  selected_board_index : Option Nat
  space_pressed : Bool
  deriving DecidableEq, Repr

/-- The environment: the optional `KANBAN_DIR` setting, the file entries of
that directory, and the contents (as lines) of readable files by path. -/
structure Env where
  kanbanDir : Option Str
  dirFiles : List Str
  files : List (Str × List Str)
  deriving DecidableEq, Repr

/-- `Vec::get_mut(i)` followed by a mutation: update index `i` if present. -/
def updAt (i : Nat) (f : α → α) : List α → List α
  | [] => []
  | a :: as' =>
    match i with
    | 0 => f a :: as'
    | n + 1 => a :: updAt n f as'

/-- `usize::MAX + 1`. -/
def U64 : Nat := 2 ^ 64

/-- `Path::join`. -/
def pathJoin (dir name : Str) : Str := dir ++ '/' :: name

/-- Index of the last `'.'` of a file name. -/
def lastDotIdx (s : Str) : Option Nat :=
  (findChar '.' s.reverse).map fun i => s.length - 1 - i

/-- Rust `Path::extension`: the part after the last `'.'`, unless there is
no `'.'` or the only `'.'` leads a hidden file name. -/
def extOf (s : Str) : Option Str :=
  match lastDotIdx s with
  | none => none
  | some 0 => none
  | some i => some (s.drop (i + 1))

/-- Rust `Path::file_stem`. -/
def stemOf (s : Str) : Str :=
  match lastDotIdx s with
  | none => s
  | some 0 => s
  | some i => s.take i

/-- Byte-lexicographic order on strings (Rust `Ord` for `String`). -/
def strLe : Str → Str → Bool
  | [], _ => true
  | _ :: _, [] => false
  | a :: as', b :: bs => if a < b then true else if b < a then false else strLe as' bs

/-- Insert into a sorted list. -/
def insertSorted (x : Str) : List Str → List Str
  | [] => [x]
  | y :: ys => if strLe x y then x :: y :: ys else y :: insertSorted x ys

/-- `Vec::sort` on strings.  (Any correct sort gives the same result here:
the order is total and antisymmetric, so the sorted permutation is unique.) -/
def sortStrs : List Str → List Str
  | [] => []
  | x :: xs => insertSorted x (sortStrs xs)

/-- `str::replace('_', ' ')` / `str::replace(' ', '_')` are per-char maps. -/
def replaceCh (a b : Char) (s : Str) : Str :=
  s.map fun c => if c = a then b else c

/-- The error value of the board scan (`io::ErrorKind::NotFound`,
"KANBAN_DIR environment variable not set"). -/
inductive ScanErr
  | NotFound
  deriving DecidableEq, Repr

/-- The sentinel entry appended after the sorted board names. -/
def sentinel : Str := ("[Create New Board]").data

/-- `App::scan_available_boards`: clear the list; fail with `NotFound` when
`KANBAN_DIR` is not set (leaving the cleared list and the old selection in
place); otherwise collect the display names of the `*.txt` files, sort them,
append the sentinel, and reset the selection. -/
def scanAvailableBoards (env : Env) (app : App) : App × Option ScanErr :=
  let app := { app with available_boards := [] }
  match env.kanbanDir with
  | none => (app, some ScanErr.NotFound)
  | some _ =>
    let stems := env.dirFiles.filterMap fun name =>
      if extOf name = some (("txt").data) then some (stemOf name) else none
    let displays := stems.map (replaceCh '_' ' ')
    let boards := sortStrs displays ++ [sentinel]
    let app := { app with available_boards := boards }
    if boards ≠ [] then ({ app with selected_board_index := some 0 }, none)
    else ({ app with selected_board_index := none }, none)

/-- `App::new`: the seeded single-column state, starting in board selection
with `selected_board_index = Some(0)`, after running the initial scan (whose
`Result` is ignored). -/
def appNew (env : Env) (title : Str) : App :=
  let app : App :=
    { title := title
      columns := [⟨("To Do").data,
                   [⟨("Implement UI").data, none, some 5⟩,
                    ⟨("Add task functionality").data, none, some 5⟩],
                   some 0⟩]
      active_column := 0
      scroll_offset := 0
      input_mode := InputMode.BoardSelection
      input_text := []
      start_index := 0
      file_path := none
      available_boards := []
      selected_board_index := some 0
      space_pressed := false }
  (scanAvailableBoards env app).1

/-- The final indexed loop of `update_from_backend_board`: select the first
task of the active column when it has tasks; clear every other selection. -/
def selectOnlyFrom (ac i : Nat) : List Column → List Column
  | [] => []
  | c :: rest =>
    (if i = ac ∧ c.tasks.isEmpty = false then { c with selected_task := some 0 }
     else { c with selected_task := none })
      :: selectOnlyFrom ac (i + 1) rest

/-- `update_from_backend_board` (`storage.rs`): rebuild the columns from a
codec board (keeping only `impact` as the task priority), re-locate the
previously active column by title, clamp the index, and select the first
task of the (non-empty) active column only. -/
def updateFromBackendBoard (app : App) (b : Crud.Board) : App :=
  let activeName := (app.columns.get? app.active_column).map (·.title)
  let cols : List Column := b.columns.map fun bc =>
    ⟨bc.name, bc.tasks.map fun bt => ⟨bt.title, none, bt.priority.map (·.impact)⟩, none⟩
  let ac0 :=
    match activeName with
    | some n =>
      match cols.findIdx? (fun c => c.title = n) with
      | some i => i
      | none => app.active_column
    | none => app.active_column
  let ac :=
    if cols.isEmpty then 0
    else if ac0 ≥ cols.length then cols.length - 1
    else ac0
  let cols := selectOnlyFrom ac 0 cols
  { app with columns := cols, active_column := ac }

/-- `App::load_board`: read and parse the backing file, then rebuild the
model.  `false` stands for any failure (no path, unreadable file, or the
parser panic modelled by `Crud.Board.loadFromFile = none`). -/
def loadBoard (env : Env) (app : App) : App × Bool :=
  match app.file_path with
  | none => (app, false)
  | some p =>
    match (env.files.find? (fun f => f.1 = p)).map (·.2) with
    | none => (app, false)
    | some lines =>
      match Crud.Board.loadFromFile lines with
      | none => (app, false)
      | some b => (updateFromBackendBoard app b, true)

/-- `App::save_board` succeeds exactly when a file path is set; the model
records only whether the backing file is rewritten. -/
def saveBoardOk (app : App) : Bool := app.file_path.isSome

/-- `App::create_new_board`: reset title/columns, then require `KANBAN_DIR`
to build the file path and save.  On failure the reset fields keep their new
values but no file path is set. -/
def createNewBoard (env : Env) (title : Str) (app : App) : App × Bool :=
  let app := { app with
    title := title
    columns := [⟨("To Do").data, [], none⟩]
    active_column := 0 }
  match env.kanbanDir with
  | none => (app, false)
  | some dir =>
    let fileName := replaceCh ' ' '_' (title.map Char.toLower) ++ (".txt").data
    let app := { app with file_path := some (pathJoin dir fileName) }
    (app, true)

/-- `App::load_selected_board`: the sentinel index (computed with the
wrapping `len - 1`, which underflows on an empty list in release builds and
panics in debug builds) switches to `AddingBoard`; otherwise resolve the
display name to a path, load it, and enter `Normal` mode on success. -/
def loadSelectedBoard (env : Env) (app : App) : App × Bool :=
  match app.selected_board_index with
  | none => (app, true)
  | some index =>
    if index = (app.available_boards.length + U64 - 1) % U64 then
      ({ app with input_mode := InputMode.AddingBoard, input_text := [] }, true)
    else
      match app.available_boards.get? index with
      | none => (app, true)
      | some boardName =>
        let fileName := replaceCh ' ' '_' (boardName.map Char.toLower) ++ (".txt").data
        match env.kanbanDir with
        | none => (app, false)
        | some dir =>
          let app := { app with
            file_path := some (pathJoin dir fileName)
            title := boardName }
          match loadBoard env app with
          | (app', true) => ({ app' with input_mode := InputMode.Normal }, true)
          | (app', false) => (app', false)

end Kantui.Models

namespace Kantui.Models

/-- The indexed loop shared by the column-switching operations: clear
`selected_task` on every column whose index differs from `active`. -/
def clearNonActiveFrom (active i : Nat) : List Column → List Column
  | [] => []
  | c :: rest =>
    (if i ≠ active then { c with selected_task := none } else c)
      :: clearNonActiveFrom active (i + 1) rest

/-- Clear `selected_task` on every column other than `active` (the loop all
the column-switching operations share). -/
def clearNonActive (active : Nat) (cols : List Column) : List Column :=
  clearNonActiveFrom active 0 cols

/-- The `while` loop of `App::add_column`, which appends ` (n)` for
`n = 1, 2, ...` until the candidate title is unused.  The candidates are
pairwise distinct, so `columns.length + 1` rounds of fuel always suffice
and the fuel-exhaustion branch is unreachable. -/
def uniqueNameLoop : Nat → Str → Str → Nat → List Column → Str
  | 0, _, current, _, _ => current
  | fuel + 1, base, current, counter, cols =>
    if cols.any (fun col => col.title = current) then
      uniqueNameLoop fuel base
        (base ++ (" (").data ++ natRepr counter ++ (")").data) (counter + 1) cols
    else current

/-- `App::add_column`: append an empty column under a de-duplicated title,
save, and return to `Normal` clearing the input buffer. -/
def addColumn (title : Str) (app : App) : App × Bool :=
  let unique := uniqueNameLoop (app.columns.length + 1) title title 1 app.columns
  let app := { app with columns := app.columns ++ [(⟨unique, [], none⟩ : Column)] }
  ({ app with input_mode := InputMode.Normal, input_text := [] }, true)

/-- `App::add_task`: append to the active column, select the new task, save,
and return to `Normal`; a no-op when the active column does not exist. -/
def addTask (title : Str) (app : App) : App × Bool :=
  match app.columns.get? app.active_column with
  | none => (app, false)
  | some _ =>
    let app := { app with
      columns := updAt app.active_column
        (fun col =>
          let tasks := col.tasks ++ [(⟨title, none, some 5⟩ : Task)]
          { col with tasks := tasks, selected_task := some (tasks.length - 1) })
        app.columns }
    ({ app with input_mode := InputMode.Normal, input_text := [] }, true)

/-- `App::delete_current_task`: remove the selected task of the active
column, re-clamp the selection, and save; otherwise do nothing. -/
def deleteCurrentTask (app : App) : App × Bool :=
  match app.columns.get? app.active_column with
  | none => (app, false)
  | some col =>
    match col.selected_task with
    | none => (app, false)
    | some ti =>
      if ti < col.tasks.length then
        let app := { app with
          columns := updAt app.active_column
            (fun c =>
              let tasks := c.tasks.eraseIdx ti
              let sel :=
                if tasks.isEmpty then none
                else if ti ≥ tasks.length then some (tasks.length - 1)
                else c.selected_task
              { c with tasks := tasks, selected_task := sel })
            app.columns }
        (app, true)
      else (app, false)

/-- `App::delete_current_column`: remove the active column (a no-op on an
empty board), clamp `active_column`, and save.  (`Vec::remove` would panic
for `active_column ≥ columns.len()`; the claims about this operation are
stated for in-range active columns, where `eraseIdx` agrees with it.) -/
def deleteCurrentColumn (app : App) : App × Bool :=
  if app.columns.isEmpty then (app, false)
  else
    let cols := app.columns.eraseIdx app.active_column
    let ac :=
      if app.active_column ≥ cols.length ∧ cols.isEmpty = false then cols.length - 1
      else app.active_column
    ({ app with columns := cols, active_column := ac }, true)

/-- `App::select_prev_column` (no save). -/
def selectPrevColumn (app : App) : App :=
  if 0 < app.active_column then
    let a := app.active_column - 1
    { app with active_column := a, columns := clearNonActive a app.columns }
  else app

/-- `App::select_next_column` (no save); the bound uses `saturating_sub`,
which is exactly `Nat` subtraction. -/
def selectNextColumn (app : App) : App :=
  if app.active_column < app.columns.length - 1 then
    let a := app.active_column + 1
    { app with active_column := a, columns := clearNonActive a app.columns }
  else app

/-- `App::select_prev_board` (no save). -/
def selectPrevBoard (app : App) : App :=
  match app.selected_board_index with
  | none => app
  | some index =>
    if 0 < index then { app with selected_board_index := some (index - 1) } else app

/-- `App::select_next_board` (no save).  The bound is the wrapping
`available_boards.len() - 1`: on an empty list this underflows to
`2^64 - 1` in release builds (and panics in debug builds). -/
def selectNextBoard (app : App) : App :=
  match app.selected_board_index with
  | none => app
  | some index =>
    if index < (app.available_boards.length + U64 - 1) % U64 then
      { app with selected_board_index := some (index + 1) }
    else app

/-- `App::select_prev_task` (no save). -/
def selectPrevTask (app : App) : App :=
  match app.columns.get? app.active_column with
  | none => app
  | some col =>
    if col.tasks.isEmpty then
      { app with columns := updAt app.active_column (fun c => { c with selected_task := none }) app.columns }
    else
      match col.selected_task with
      | some current =>
        if 0 < current then
          { app with columns := updAt app.active_column (fun c => { c with selected_task := some (current - 1) }) app.columns }
        else app
      | none =>
        { app with columns := updAt app.active_column (fun c => { c with selected_task := some (c.tasks.length - 1) }) app.columns }

/-- `App::select_next_task` (no save). -/
def selectNextTask (app : App) : App :=
  match app.columns.get? app.active_column with
  | none => app
  | some col =>
    if col.tasks.isEmpty then
      { app with columns := updAt app.active_column (fun c => { c with selected_task := none }) app.columns }
    else
      match col.selected_task with
      | some current =>
        if current < col.tasks.length - 1 then
          { app with columns := updAt app.active_column (fun c => { c with selected_task := some (current + 1) }) app.columns }
        else app
      | none =>
        { app with columns := updAt app.active_column (fun c => { c with selected_task := some 0 }) app.columns }

/-- `App::jump_to_column`: key `0` targets column 0, keys `1..9` target
columns `0..8`; on a valid target switch, clear other selections, return to
`Normal`, and save. -/
def jumpToColumn (index : Nat) (app : App) : App × Bool :=
  let target := if index = 0 then 0 else index - 1
  if target < app.columns.length then
    ({ app with
        active_column := target
        columns := clearNonActive target app.columns
        input_mode := InputMode.Normal }, true)
  else (app, false)

/-- `App::move_task_to_column`: guarded by a valid, distinct target; remove
the selected task from the active column (re-clamping its selection), append
it to the target, reselect in the target only in the dead
`active_column == target` branch (kept as written), and save. -/
def moveTaskToColumn (targetIdx : Nat) (app : App) : App × Bool :=
  if targetIdx ≥ app.columns.length ∨ targetIdx = app.active_column then (app, false)
  else
    match app.columns.get? app.active_column with
    | none => (app, false)
    | some src =>
      match src.selected_task with
      | none => (app, false)
      | some ti =>
        if ti < src.tasks.length then
          let task := (src.tasks.get? ti).getD ⟨[], none, none⟩
          let cols1 := updAt app.active_column
            (fun c =>
              let tasks := c.tasks.eraseIdx ti
              let sel :=
                if tasks.isEmpty then none
                else if ti ≥ tasks.length then some (tasks.length - 1)
                else c.selected_task
              { c with tasks := tasks, selected_task := sel })
            app.columns
          let cols2 := updAt targetIdx
            (fun c =>
              let tasks := c.tasks ++ [task]
              if app.active_column = targetIdx then
                { c with tasks := tasks, selected_task := some (tasks.length - 1) }
              else { c with tasks := tasks })
            cols1
          ({ app with columns := cols2 }, true)
        else (app, false)

/-- `App::total_task_count`. -/
def totalTaskCount (app : App) : Nat :=
  (app.columns.map (fun col => col.tasks.length)).sum

/-- The 24 unambiguous lowercase labels. -/
def lowerLabels : List Char := ("abcdefghijkmnpqrstuvwxyz").data

/-- The 26 uppercase labels. -/
def upperLabels : List Char := ("ABCDEFGHIJKLMNOPQRSTUVWXYZ").data

/-- `App::get_jump_labels`: the lowercase alphabet, extended with the
uppercase one when there are more tasks than lowercase labels. -/
def getJumpLabels (app : App) : List Char :=
  let labels := lowerLabels
  if totalTaskCount app > labels.length then labels ++ upperLabels else labels

/-- The doubly nested counting loop of `get_jump_label_for_task`, over one
column's tasks: returns the global index on a hit, or the advanced counter. -/
def labelScanTasks (numTasks : Nat) (cIdx colIdx tIdx taskIdx g : Nat) : Option Nat × Nat :=
  match numTasks with
  | 0 => (none, g)
  | n + 1 =>
    if cIdx = colIdx ∧ tIdx = taskIdx then (some g, g)
    else labelScanTasks n cIdx colIdx (tIdx + 1) taskIdx (g + 1)

/-- The outer loop of `get_jump_label_for_task` over the columns. -/
def labelScanCols : List Column → Nat → Nat → Nat → Nat → Option Nat
  | [], _, _, _, _ => none
  | c :: rest, cIdx, colIdx, taskIdx, g =>
    match labelScanTasks c.tasks.length cIdx colIdx 0 taskIdx g with
    | (some gi, _) => some gi
    | (none, g') => labelScanCols rest (cIdx + 1) colIdx taskIdx g'

/-- `App::get_jump_label_for_task`: the label of the task at
`(colIdx, taskIdx)` in column-major enumeration order, when the position is
enumerated and its global index is within the label list. -/
def getJumpLabelForTask (app : App) (colIdx taskIdx : Nat) : Option Char :=
  let labels := getJumpLabels app
  match labelScanCols app.columns 0 colIdx taskIdx 0 with
  | some g => if g < labels.length then labels.get? g else none
  | none => none

/-- The inner loop of `get_task_by_jump_label` over one column's tasks:
stop when the global counter reaches the label index. -/
def taskScanTasks (numTasks : Nat) (colIdx tIdx g labelIdx : Nat) :
    Option (Nat × Nat) × Nat :=
  match numTasks with
  | 0 => (none, g)
  | n + 1 =>
    if g = labelIdx then (some (colIdx, tIdx), g)
    else taskScanTasks n colIdx (tIdx + 1) (g + 1) labelIdx

/-- The outer loop of `get_task_by_jump_label` over the columns. -/
def taskScanCols : List Column → Nat → Nat → Nat → Option (Nat × Nat)
  | [], _, _, _ => none
  | c :: rest, cIdx, g, labelIdx =>
    match taskScanTasks c.tasks.length cIdx 0 g labelIdx with
    | (some p, _) => some p
    | (none, g') => taskScanCols rest (cIdx + 1) g' labelIdx

/-- `Vec::iter().position(...)` for a character. -/
def posOf (c : Char) : List Char → Option Nat
  | [] => none
  | a :: as' => if a = c then some 0 else (posOf c as').map (· + 1)

/-- `App::get_task_by_jump_label`: invert the enumeration. -/
def getTaskByJumpLabel (app : App) (label : Char) : Option (Nat × Nat) :=
  let labels := getJumpLabels app
  match posOf label labels with
  | none => none
  | some labelIdx => taskScanCols app.columns 0 0 labelIdx

/-- `App::jump_to_task`: switch to the column if it exists, clear the other
columns' selections, select the task if it exists, return to `Normal`, and
save. -/
def jumpToTask (colIdx taskIdx : Nat) (app : App) : App × Bool :=
  if colIdx < app.columns.length then
    let app := { app with active_column := colIdx }
    let cols1 := clearNonActive colIdx app.columns
    let cols2 :=
      match cols1.get? colIdx with
      | some col =>
        if taskIdx < col.tasks.length then
          updAt colIdx (fun c => { c with selected_task := some taskIdx }) cols1
        else cols1
      | none => cols1
    ({ app with columns := cols2, input_mode := InputMode.Normal }, true)
  else (app, false)

end Kantui.Models

namespace Kantui.Input

open Kantui.Models

/-! ## The modal input state machine (`src/kanban/ui/input_handler.rs`)

`run_app` is modelled as a function consuming a list of key events.  The
`'g'` prefix arm performs a nested blocking `event::read()`, consuming the
next event of the list; when the list runs out, the loop is blocked waiting
for input and the current state is returned.  An explicit quit
(`return Ok(())`) also stops consuming events.  The recursion is fuel-based
(fuel = number of events) so that everything reduces in the kernel. -/

/-- The key codes the handler distinguishes. -/
inductive KeyCode
  | Char (c : Char)
  | Esc
  | Enter
  | Backspace
  | Up
  | Down
  deriving DecidableEq, Repr

/-- A key event; of the modifiers only CONTROL is ever consulted
(`is_empty()` ⟷ `ctrl = false` in this model). -/
structure KeyEvent where
  code : KeyCode
  ctrl : Bool
  deriving DecidableEq, Repr

/-- The loop state: the application plus the two local variables of
`run_app` (`last_key` and `space_combo`). -/
structure LoopState where
  app : App
  lastKey : Option KeyCode
  spaceCombo : Option Str
  deriving DecidableEq, Repr

/-- Digit value of a character. -/
def digitVal (c : Char) : Nat := c.toNat - 48

/-- The event loop with explicit fuel; `fuel ≥ events.length` never reaches
the fuel-exhaustion branch because every step consumes at least one event. -/
def runAppAux (env : Env) : Nat → LoopState → List KeyEvent → LoopState
  | 0, st, _ => st
  | _ + 1, st, [] => st
  | fuel + 1, st, e :: rest =>
    let app := st.app
    match app.input_mode with
    | InputMode.BoardSelection =>
      match e.code with
      | KeyCode.Esc =>
        if 0 < app.columns.length then
          runAppAux env fuel { st with app := { app with input_mode := InputMode.Normal } } rest
        else st
      | KeyCode.Char c =>
        if c = ' ' then
          runAppAux env fuel
            { st with app := { app with space_pressed := true }, spaceCombo := some [] } rest
        else if c = 'b' ∧ app.space_pressed then
          runAppAux env fuel
            { st with
              app := { app with space_pressed := false, input_mode := InputMode.Normal },
              spaceCombo := none } rest
        else if c = 'q' then st
        else if c = 'k' then
          runAppAux env fuel { st with app := selectPrevBoard app } rest
        else if c = 'j' then
          runAppAux env fuel { st with app := selectNextBoard app } rest
        else
          runAppAux env fuel
            { st with app := { app with space_pressed := false }, spaceCombo := none } rest
      | KeyCode.Up => runAppAux env fuel { st with app := selectPrevBoard app } rest
      | KeyCode.Down => runAppAux env fuel { st with app := selectNextBoard app } rest
      | KeyCode.Enter =>
        runAppAux env fuel { st with app := (loadSelectedBoard env app).1 } rest
      | KeyCode.Backspace =>
        runAppAux env fuel
          { st with app := { app with space_pressed := false }, spaceCombo := none } rest
    | InputMode.AddingBoard =>
      match e.code with
      | KeyCode.Enter =>
        let boardName := if app.input_text.isEmpty then ("My Kanban Board").data else app.input_text
        let created := createNewBoard env boardName app
        let app' := if created.2 then { created.1 with input_mode := InputMode.Normal } else created.1
        runAppAux env fuel { st with app := { app' with input_text := [] } } rest
      | KeyCode.Esc =>
        runAppAux env fuel
          { st with app := { app with input_mode := InputMode.BoardSelection, input_text := [] } } rest
      | KeyCode.Char c =>
        runAppAux env fuel { st with app := { app with input_text := app.input_text ++ [c] } } rest
      | KeyCode.Backspace =>
        runAppAux env fuel { st with app := { app with input_text := app.input_text.dropLast } } rest
      | _ => runAppAux env fuel st rest
    | InputMode.Normal =>
      if app.space_pressed = false ∧ e.ctrl = false ∧ e.code = KeyCode.Char 'd' then
        if st.lastKey = some (KeyCode.Char 'd') then
          runAppAux env fuel
            { st with
              lastKey := none
              app := { app with input_mode := InputMode.ConfirmDeleteColumn } } rest
        else
          runAppAux env fuel { st with lastKey := some (KeyCode.Char 'd') } rest
      else
        let st := { st with lastKey := none }
        let app := st.app
        match e.code with
        | KeyCode.Char c =>
          if c = 'q' then st
          else if c = ' ' then
            runAppAux env fuel
              { st with app := { app with space_pressed := true }, spaceCombo := some [] } rest
          else if app.space_pressed then
            match st.spaceCombo with
            | none => runAppAux env fuel st rest
            | some combo0 =>
              let combo := combo0 ++ [c]
              if combo = ('b' :: []) then
                let scanned := (scanAvailableBoards env app).1
                runAppAux env fuel
                  { st with
                    app := { scanned with
                      input_mode := InputMode.BoardSelection, space_pressed := false },
                    spaceCombo := none } rest
              else if combo = ('g' :: 'c' :: []) then
                runAppAux env fuel
                  { st with
                    app := { app with input_mode := InputMode.JumpToColumnMode, space_pressed := false },
                    spaceCombo := none } rest
              else if combo = ('g' :: 't' :: []) then
                runAppAux env fuel
                  { st with
                    app := { app with input_mode := InputMode.JumpToTaskMode, space_pressed := false },
                    spaceCombo := none } rest
              else if combo = ('a' :: 'c' :: []) then
                runAppAux env fuel
                  { st with
                    app := { app with input_mode := InputMode.AddingColumn, space_pressed := false },
                    spaceCombo := none } rest
              else if combo = ('a' :: 't' :: []) then
                runAppAux env fuel
                  { st with
                    app := { app with input_mode := InputMode.AddingTask, space_pressed := false },
                    spaceCombo := none } rest
              else if combo = ('d' :: 't' :: []) then
                let app' :=
                  match app.columns.get? app.active_column with
                  | some col => if col.selected_task.isSome then (deleteCurrentTask app).1 else app
                  | none => app
                runAppAux env fuel
                  { st with app := { app' with space_pressed := false }, spaceCombo := none } rest
              else if combo = ('d' :: 'c' :: []) then
                let app' :=
                  if app.columns.isEmpty = false then
                    { app with input_mode := InputMode.ConfirmDeleteColumn }
                  else app
                runAppAux env fuel
                  { st with app := { app' with space_pressed := false }, spaceCombo := none } rest
              else if 2 ≤ combo.length then
                runAppAux env fuel
                  { st with app := { app with space_pressed := false }, spaceCombo := none } rest
              else
                runAppAux env fuel { st with spaceCombo := some combo } rest
          else if c = 'g' then
            match rest with
            | [] => st
            | e2 :: rest2 =>
              match e2.code with
              | KeyCode.Char c2 =>
                if c2 = 'c' then
                  runAppAux env fuel
                    { st with app := { app with input_mode := InputMode.JumpToColumnMode } } rest2
                else if c2 = 't' then
                  runAppAux env fuel
                    { st with app := { app with input_mode := InputMode.JumpToTaskMode } } rest2
                else runAppAux env fuel st rest2
              | _ => runAppAux env fuel st rest2
          else if c = 'm' then
            let app' :=
              match app.columns.get? app.active_column with
              | some col =>
                if col.selected_task.isSome then
                  { app with input_mode := InputMode.ColumnSelectionMode }
                else app
              | none => app
            runAppAux env fuel { st with app := app' } rest
          else if c = 'h' then runAppAux env fuel { st with app := selectPrevColumn app } rest
          else if c = 'l' then runAppAux env fuel { st with app := selectNextColumn app } rest
          else if c = 'j' then runAppAux env fuel { st with app := selectNextTask app } rest
          else if c = 'k' then runAppAux env fuel { st with app := selectPrevTask app } rest
          else if c = 's' ∧ e.ctrl then
            runAppAux env fuel st rest
          else
            runAppAux env fuel
              { st with app := { app with space_pressed := false }, spaceCombo := none } rest
        | _ =>
          runAppAux env fuel
            { st with app := { app with space_pressed := false }, spaceCombo := none } rest
    | InputMode.AddingColumn =>
      match e.code with
      | KeyCode.Enter =>
        let columnName := if app.input_text.isEmpty then ("New Column").data else app.input_text
        runAppAux env fuel { st with app := (addColumn columnName app).1 } rest
      | KeyCode.Esc =>
        runAppAux env fuel
          { st with app := { app with input_mode := InputMode.Normal, input_text := [] } } rest
      | KeyCode.Char c =>
        runAppAux env fuel { st with app := { app with input_text := app.input_text ++ [c] } } rest
      | KeyCode.Backspace =>
        runAppAux env fuel { st with app := { app with input_text := app.input_text.dropLast } } rest
      | _ => runAppAux env fuel st rest
    | InputMode.AddingTask =>
      match e.code with
      | KeyCode.Enter =>
        let taskName := if app.input_text.isEmpty then ("New Task").data else app.input_text
        runAppAux env fuel { st with app := (addTask taskName app).1 } rest
      | KeyCode.Esc =>
        runAppAux env fuel
          { st with app := { app with input_mode := InputMode.Normal, input_text := [] } } rest
      | KeyCode.Char c =>
        runAppAux env fuel { st with app := { app with input_text := app.input_text ++ [c] } } rest
      | KeyCode.Backspace =>
        runAppAux env fuel { st with app := { app with input_text := app.input_text.dropLast } } rest
      | _ => runAppAux env fuel st rest
    | InputMode.MoveMode =>
      match e.code with
      | KeyCode.Esc =>
        runAppAux env fuel { st with app := { app with input_mode := InputMode.Normal } } rest
      | KeyCode.Char c =>
        if '0' ≤ c ∧ c ≤ '9' then
          runAppAux env fuel { st with app := (jumpToColumn (digitVal c) app).1 } rest
        else runAppAux env fuel st rest
      | _ => runAppAux env fuel st rest
    | InputMode.ConfirmDeleteColumn =>
      match e.code with
      | KeyCode.Char c =>
        if c = 'y' then
          let app' := if app.columns.isEmpty = false then (deleteCurrentColumn app).1 else app
          runAppAux env fuel
            { st with app := { app' with input_mode := InputMode.Normal } } rest
        else if c = 'n' then
          runAppAux env fuel { st with app := { app with input_mode := InputMode.Normal } } rest
        else runAppAux env fuel st rest
      | KeyCode.Esc =>
        runAppAux env fuel { st with app := { app with input_mode := InputMode.Normal } } rest
      | _ => runAppAux env fuel st rest
    | InputMode.ColumnSelectionMode =>
      match e.code with
      | KeyCode.Esc =>
        runAppAux env fuel { st with app := { app with input_mode := InputMode.Normal } } rest
      | KeyCode.Char c =>
        if '1' ≤ c ∧ c ≤ '9' then
          let targetIdx := digitVal c - 1
          let app' :=
            if targetIdx < app.columns.length ∧ targetIdx ≠ app.active_column then
              (moveTaskToColumn targetIdx app).1
            else app
          runAppAux env fuel
            { st with app := { app' with input_mode := InputMode.Normal } } rest
        else runAppAux env fuel st rest
      | _ => runAppAux env fuel st rest
    | InputMode.JumpToColumnMode =>
      match e.code with
      | KeyCode.Esc =>
        runAppAux env fuel { st with app := { app with input_mode := InputMode.Normal } } rest
      | KeyCode.Char c =>
        if '1' ≤ c ∧ c ≤ '9' then
          let targetIdx := digitVal c - 1
          let app' :=
            if targetIdx < app.columns.length then
              { app with active_column := targetIdx, columns := clearNonActive targetIdx app.columns }
            else app
          runAppAux env fuel
            { st with app := { app' with input_mode := InputMode.Normal } } rest
        else
          runAppAux env fuel { st with app := { app with input_mode := InputMode.Normal } } rest
      | _ =>
        runAppAux env fuel { st with app := { app with input_mode := InputMode.Normal } } rest
    | InputMode.JumpToTaskMode =>
      match e.code with
      | KeyCode.Esc =>
        runAppAux env fuel { st with app := { app with input_mode := InputMode.Normal } } rest
      | KeyCode.Char c =>
        match getTaskByJumpLabel app c with
        | some p => runAppAux env fuel { st with app := (jumpToTask p.1 p.2 app).1 } rest
        | none => runAppAux env fuel st rest
      | _ => runAppAux env fuel st rest

/-- `run_app` on a list of key events from a given loop state. -/
def runApp (env : Env) (st : LoopState) (events : List KeyEvent) : LoopState :=
  runAppAux env events.length st events

/-- The loop state at process start: `App::new` (in `BoardSelection` mode)
with `last_key = None` and no pending space chord. -/
def initState (env : Env) : LoopState :=
  ⟨appNew env (("Kanban Board").data), none, none⟩

end Kantui.Input

namespace Kantui

open Kantui.Models Kantui.Input

/-! ## Fixtures, spec-side definitions and invariant predicates -/

/-- An environment with no `KANBAN_DIR` configured. -/
def envNoDir : Env := ⟨none, [], []⟩

/-- An environment whose kanban directory holds two board files. -/
def envTwoBoards : Env :=
  ⟨some (("/k").data), [("work_board.txt").data, ("home_board.txt").data], []⟩

/-- The spec formula `1.0 + 9.0 * (((impact+urgency)/effort − 0.2) / 19.8)`,
written from the spec's words, each operation evaluated in 32-bit floating
point; for comparison against the source's `Priority.computed`. -/
def specPriorityFormula (impact urgency effort : Nat) : F32 :=
  Crud.lit1.add (Crud.lit9.mul
    ((((natF32 impact).add (natF32 urgency)).div (natF32 effort)).sub Crud.lit02 |>.div
      Crud.lit198))

/-- The per-column observable a pure navigation operation must preserve:
the title and the task list (everything except the selection). -/
def colData (c : Column) : Str × List Task := (c.title, c.tasks)

/-- `scopeAllFrom a i cols`: every column of `cols` (numbered from `i`)
whose index differs from `a` has no selected task. -/
def scopeAllFrom (active : Nat) : Nat → List Column → Bool
  | _, [] => true
  | i, c :: rest =>
    (decide (i = active) || decide (c.selected_task = none)) && scopeAllFrom active (i + 1) rest

/-- The selection-scoping invariant: only the active column may have
`selected_task = Some`. -/
def scopeInvB (app : App) : Bool := scopeAllFrom app.active_column 0 app.columns

/-- The claimed active-selection invariant: if the active column exists and
has tasks, exactly one (in-range) task of it is selected. -/
def activeSelB (app : App) : Bool :=
  match app.columns.get? app.active_column with
  | some col =>
    col.tasks.isEmpty ||
      (match col.selected_task with
       | some i => decide (i < col.tasks.length)
       | none => false)
  | none => true

/-- A two-column state satisfying both selection invariants, with the second
column active and its only task selected. -/
def appTwoCols : App :=
  { title := ("B").data
    columns := [⟨("A").data, [⟨("t1").data, none, some 5⟩], none⟩,
                ⟨("C").data, [⟨("t2").data, none, some 5⟩], some 0⟩]
    active_column := 1
    scroll_offset := 0
    input_mode := InputMode.Normal
    input_text := []
    start_index := 0
    file_path := some (("/k/b.txt").data)
    available_boards := []
    selected_board_index := none
    space_pressed := false }

/-- Total number of tasks in the columns before index `c`. -/
def sumLen (cols : List Column) : Nat := (cols.map fun c => c.tasks.length).sum

/-- A one-column board holding 30 identical tasks (for the jump-label
scenario). -/
def app30 : App :=
  { title := []
    columns := [⟨("C").data, List.replicate 30 ⟨("t").data, none, none⟩, some 0⟩]
    active_column := 0
    scroll_offset := 0
    input_mode := InputMode.Normal
    input_text := []
    start_index := 0
    file_path := none
    available_boards := []
    selected_board_index := none
    space_pressed := false }

/-! ### Helpers and fixtures for the board-file round trip -/

/-- Append `w` to the last chunk of a split result (used to relate the split
of a line to the split of its right-trimmed form). -/
def appLast (w : Str) : List Str → List Str
  | [] => [w]
  | [h] => [h ++ w]
  | h :: t => h :: appLast w t

/-- The raw texts of the `" | "`-separated segments that `save_to_file`
writes after the first part of a task line. -/
def segsOf (t : Crud.Task) : List Str :=
  (match t.priority with
   | some p =>
     (("Impact: ").data ++ natRepr p.impact)
       :: (("Urgency: ").data ++ natRepr p.urgency)
         :: (("Effort: ").data ++ natRepr p.effort)
           :: (match p.computed with
               | some f => [("Computed: ").data ++ fmtF2 f]
               | none => [])
   | none => [])
  ++ (if t.tags = [] then [] else [("Tags: ").data ++ joinComma t.tags])
  ++ (match t.created with
      | some c => [("Created: ").data ++ c]
      | none => [])

/-- The first part of a task line (everything before the first `|`). -/
def taskHead (t : Crud.Task) : Str :=
  ("* [ID:").data ++ natRepr t.id ++ ("] ").data ++ t.title

/-- The lines `save_to_file` writes for one column. -/
def colBlock (c : Crud.Column) : List Str :=
  ((("== ").data ++ c.name ++ (" ==").data) :: c.tasks.map Crud.taskLine ++ [[]])

/-- The final column flush of `load_from_file`. -/
def flushCur (b : Crud.Board) : Option Crud.Column → Crud.Board
  | some col => { b with columns := b.columns ++ [col] }
  | none => b

/-- A string field that survives the round trip: no surrounding whitespace
(the loader trims every field it reads), no `|` (the unescaped segment
separator) and no newline (the unescaped line separator). -/
def goodStr (s : Str) : Bool :=
  decide (trim s = s) && !hasChar '|' s && !hasChar (Char.ofNat 10) s

/-- A task the codec can round-trip: good strings throughout, comma-free
tags (the tag list is joined with a bare `,`), an id within `usize` and
priority fields within `u8` (automatic in Rust, where the fields have those
types). -/
def goodTask (t : Crud.Task) : Bool :=
  goodStr t.title
    && t.tags.all (fun s => goodStr s && !hasChar ',' s)
    && (match t.created with | some c => goodStr c | none => true)
    && decide (t.id < 2 ^ 64)
    && (match t.priority with
        | some p =>
          decide (p.impact < 2 ^ 8) && decide (p.urgency < 2 ^ 8)
            && decide (p.effort < 2 ^ 8)
        | none => true)

/-- A column the codec can round-trip. -/
def goodColumn (c : Crud.Column) : Bool := goodStr c.name && c.tasks.all goodTask

/-- A board the codec can round-trip. -/
def goodBoard (b : Crud.Board) : Bool :=
  goodStr b.name && goodStr b.date && goodStr b.description
    && b.columns.all goodColumn

/-- The original original precondition of the claim, from the words of the spec: the field
contains none of the substrings `|`, `==`, or a newline. -/
def specCleanStr (s : Str) : Bool :=
  !hasChar '|' s && !containsSub (("==").data) s && !hasChar (Char.ofNat 10) s

/-- The original precondition of the claim on a whole board record. -/
def specCleanBoard (b : Crud.Board) : Bool :=
  specCleanStr b.name && specCleanStr b.date && specCleanStr b.description
    && b.columns.all fun c =>
      specCleanStr c.name && c.tasks.all fun t =>
        specCleanStr t.title && t.tags.all specCleanStr
          && (match t.created with | some cr => specCleanStr cr | none => true)

/-- A board satisfying the original precondition of the claim whose single tag
contains a comma. -/
def cexBoard : Crud.Board :=
  ⟨("b").data, ("d").data, ("e").data,
    [⟨("c").data, [⟨1, ("t").data, none, [("x,y").data], none⟩]⟩]⟩

/-- A representative well-formed board exercising every optional field. -/
def rtBoard : Crud.Board :=
  ⟨("My Board").data, ("2024-01-01").data, ("demo board").data,
    [⟨("To Do").data,
      [⟨7, ("Fix the bug").data, some ⟨3, 4, 2⟩,
        [("urgent").data, ("home").data], some (("2024-01-02").data)⟩]⟩,
     ⟨("Done").data, []⟩]⟩

end Kantui


namespace Kantui

open Kantui.Models Kantui.Input

/-! ## Concrete fixtures used by counterexamples and witnesses -/

/-! ## C4: `Priority::computed` -/

/-- C4: `computed()` returns `None` exactly when `effort = 0`, and otherwise
`Some` of exactly the spec formula evaluated in 32-bit floating point; in
particular `computed {impact:=8, urgency:=5, effort:=0} = None` and
`computed {impact:=8, urgency:=12, effort:=1}` equals the formula exactly. -/
theorem C4_priority_computed :
    (∀ p : Crud.Priority, p.computed = none ↔ p.effort = 0)
    ∧ (∀ p : Crud.Priority, p.effort ≠ 0 →
        p.computed = some (specPriorityFormula p.impact p.urgency p.effort))
    ∧ Crud.Priority.computed ⟨8, 5, 0⟩ = none
    ∧ Crud.Priority.computed ⟨8, 12, 1⟩ = some (specPriorityFormula 8 12 1) := by
  refine ⟨fun p => ?_, fun p hp => ?_, by decide, ?_⟩
  · unfold Crud.Priority.computed
    by_cases h : p.effort = 0 <;> simp [h]
  · unfold Crud.Priority.computed specPriorityFormula
    simp [hp]
  · unfold Crud.Priority.computed specPriorityFormula
    simp

/-- Witness for C4 at a concrete priority with nonzero effort. -/
theorem C4_priority_computed_witness :
    Crud.Priority.computed ⟨8, 12, 1⟩ = some (specPriorityFormula 8 12 1) :=
  C4_priority_computed.2.1 ⟨8, 12, 1⟩ (by decide)

end Kantui

namespace Kantui

open Kantui.Models Kantui.Input

/-! ## Order lemmas for the board scan -/

theorem strLe_nil (b : Str) : strLe [] b = true := rfl

theorem strLe_total : ∀ a b : Str, strLe a b = true ∨ strLe b a = true := by
  intro a
  induction a with
  | nil => intro b; left; rfl
  | cons x as ih =>
    intro b
    cases b with
    | nil => right; rfl
    | cons y bs =>
      rcases lt_trichotomy x y with h | h | h
      · left; simp [strLe, h]
      · subst h
        rcases ih bs with h2 | h2
        · left; simp [strLe, lt_irrefl, h2]
        · right; simp [strLe, lt_irrefl, h2]
      · right; simp [strLe, h]

theorem strLe_trans : ∀ a b c : Str, strLe a b = true → strLe b c = true → strLe a c = true := by
  intro a
  induction a with
  | nil => intro b c _ _; rfl
  | cons x as ih =>
    intro b c hab hbc
    cases b with
    | nil => simp [strLe] at hab
    | cons y bs =>
      cases c with
      | nil => simp [strLe] at hbc
      | cons z cs =>
        by_cases hxy : x < y
        · by_cases hyz : y < z
          · simp [strLe, lt_trans hxy hyz]
          · by_cases hzy : z < y
            · simp [strLe, hyz, hzy] at hbc
            · have hyzeq : y = z := le_antisymm (not_lt.mp hzy) (not_lt.mp hyz)
              subst hyzeq
              simp [strLe, hxy]
        · by_cases hyx : y < x
          · simp [strLe, hxy, hyx] at hab
          · have hxyeq : x = y := le_antisymm (not_lt.mp hyx) (not_lt.mp hxy)
            subst hxyeq
            simp only [strLe, lt_irrefl, if_false] at hab
            by_cases hyz : x < z
            · simp [strLe, hyz]
            · by_cases hzy : z < x
              · simp [strLe, hyz, hzy] at hbc
              · have hyzeq : x = z := le_antisymm (not_lt.mp hzy) (not_lt.mp hyz)
                subst hyzeq
                simp only [strLe, lt_irrefl, if_false] at hbc ⊢
                exact ih bs cs hab hbc

theorem insertSorted_perm (x : Str) (l : List Str) : (insertSorted x l).Perm (x :: l) := by
  induction l with
  | nil => exact List.Perm.refl _
  | cons y ys ih =>
    cases hb : strLe x y with
    | true => simp [insertSorted, hb]
    | false =>
      simp only [insertSorted, hb, Bool.false_eq_true, if_false]
      exact ((ih.cons y).trans (List.Perm.swap x y ys))

theorem sortStrs_perm (l : List Str) : (sortStrs l).Perm l := by
  induction l with
  | nil => exact List.Perm.refl _
  | cons x xs ih => exact (insertSorted_perm x (sortStrs xs)).trans (ih.cons x)

theorem insertSorted_pairwise (x : Str) (l : List Str)
    (h : l.Pairwise (fun a b => strLe a b = true)) :
    (insertSorted x l).Pairwise (fun a b => strLe a b = true) := by
  induction l with
  | nil => simp [insertSorted]
  | cons y ys ih =>
    rcases List.pairwise_cons.mp h with ⟨hy, hys⟩
    cases hb : strLe x y with
    | true =>
      simp only [insertSorted, hb, if_true]
      refine List.pairwise_cons.mpr ⟨?_, h⟩
      intro z hz
      rcases List.mem_cons.mp hz with rfl | hz
      · exact hb
      · exact strLe_trans x y z hb (hy z hz)
    | false =>
      simp only [insertSorted, hb, Bool.false_eq_true, if_false]
      refine List.pairwise_cons.mpr ⟨?_, ih hys⟩
      intro z hz
      have hz' : z ∈ x :: ys := (insertSorted_perm x ys).mem_iff.mp hz
      rcases List.mem_cons.mp hz' with rfl | hz'
      · rcases strLe_total z y with h1 | h1
        · rw [hb] at h1; exact absurd h1 (by simp)
        · exact h1
      · exact hy z hz'

theorem sortStrs_pairwise (l : List Str) :
    (sortStrs l).Pairwise (fun a b => strLe a b = true) := by
  induction l with
  | nil => simp [sortStrs]
  | cons x xs ih => exact insertSorted_pairwise x (sortStrs xs) ih

end Kantui

namespace Kantui

open Kantui.Models Kantui.Input

/-- C5: evaluation of the loader at the failing input.  A task line with no
`]` at all makes `load_from_file` panic (the slice `first_part[id_end + 1..]`
with `id_end = first_part.len()` is out of bounds), modelled as `none`; with
a `]` present but no `[ID:` marker, the id parses as `0` and the parse
succeeds, as the claim describes. -/
theorem C5_task_line_no_bracket :
    Crud.Board.loadFromFile [("* hello").data] = none
    ∧ Crud.Board.loadFromFile [("== C ==").data, ("* junk] title").data]
        = some ⟨[], [], [], [⟨("C").data, [⟨0, ("title").data, none, [], none⟩]⟩]⟩ := by
  decide

/-- C10: the reachable failing state and the underflow.  With no base
directory configured, `App::new` leaves `available_boards` empty and
`selected_board_index = Some(0)`; `select_next_board` then compares against
the wrapping `0 - 1 = 2^64 - 1` (a panic in debug builds) and moves the
selection to `Some(1)`, which is not below the list length `0`. -/
theorem C10_select_next_board_underflow :
    (appNew envNoDir (("Kanban Board").data)).available_boards = []
    ∧ (appNew envNoDir (("Kanban Board").data)).selected_board_index = some 0
    ∧ (selectNextBoard (appNew envNoDir (("Kanban Board").data))).selected_board_index = some 1
    ∧ ¬(1 < (selectNextBoard (appNew envNoDir (("Kanban Board").data))).available_boards.length) := by
  decide

/-- C8 counterexample: when no base directory is configured the scan fails
with `NotFound`, but the available-boards list is left empty — it does not
contain the sentinel entry. -/
theorem C8_counterexample :
    (scanAvailableBoards envNoDir (appNew envNoDir (("K").data))).2 = some ScanErr.NotFound
    ∧ (scanAvailableBoards envNoDir (appNew envNoDir (("K").data))).1.available_boards = []
    ∧ (scanAvailableBoards envNoDir (appNew envNoDir (("K").data))).1.available_boards
        ≠ [sentinel] := by
  decide

/-- C8 (amended): with a base directory, the scan produces the
underscore-to-space display names of the `.txt` stems, sorted, with the
sentinel appended last, no error, and the selection reset; the two-file
scenario evaluates as the spec says; without a base directory the scan
fails with `NotFound` and leaves the list empty. -/
theorem C8_scan_boards :
    (∀ env app dir, env.kanbanDir = some dir →
      ∃ sorted,
        (scanAvailableBoards env app).1.available_boards = sorted ++ [sentinel]
        ∧ sorted.Pairwise (fun a b => strLe a b = true)
        ∧ sorted.Perm ((env.dirFiles.filterMap fun name =>
            if extOf name = some (("txt").data) then some (stemOf name) else none).map
              (replaceCh '_' ' '))
        ∧ (scanAvailableBoards env app).2 = none
        ∧ (scanAvailableBoards env app).1.selected_board_index = some 0)
    ∧ (∀ env app, env.kanbanDir = none →
        (scanAvailableBoards env app).2 = some ScanErr.NotFound
        ∧ (scanAvailableBoards env app).1.available_boards = [])
    ∧ (scanAvailableBoards envTwoBoards (appNew envNoDir (("K").data))).1.available_boards
        = [("home board").data, ("work board").data, sentinel] := by
  refine ⟨fun env app dir hdir => ?_, fun env app hdir => ?_, by decide⟩
  · refine ⟨sortStrs ((env.dirFiles.filterMap fun name =>
        if extOf name = some (("txt").data) then some (stemOf name) else none).map
          (replaceCh '_' ' ')), ?_, ?_, ?_, ?_, ?_⟩ <;>
      simp only [scanAvailableBoards, hdir] <;>
      first
        | rfl
        | exact sortStrs_pairwise _
        | exact sortStrs_perm _
        | simp
  · constructor <;> simp [scanAvailableBoards, hdir]

/-- Witness for C8: the hypothesis-bearing parts applied at concrete
environments. -/
theorem C8_scan_boards_witness :
    (∃ sorted,
      (scanAvailableBoards envTwoBoards (appNew envNoDir (("K").data))).1.available_boards
          = sorted ++ [sentinel]
      ∧ sorted.Pairwise (fun a b => strLe a b = true)
      ∧ sorted.Perm ((envTwoBoards.dirFiles.filterMap fun name =>
          if extOf name = some (("txt").data) then some (stemOf name) else none).map
            (replaceCh '_' ' '))
      ∧ (scanAvailableBoards envTwoBoards (appNew envNoDir (("K").data))).2 = none
      ∧ (scanAvailableBoards envTwoBoards (appNew envNoDir (("K").data))).1.selected_board_index
          = some 0)
    ∧ ((scanAvailableBoards envNoDir (appNew envNoDir (("K").data))).2 = some ScanErr.NotFound
      ∧ (scanAvailableBoards envNoDir (appNew envNoDir (("K").data))).1.available_boards = []) :=
  ⟨C8_scan_boards.1 envTwoBoards (appNew envNoDir (("K").data)) (("/k").data) rfl,
   C8_scan_boards.2.1 envNoDir (appNew envNoDir (("K").data)) rfl⟩

end Kantui

namespace Kantui

open Kantui.Models Kantui.Input

/-! ## C3: which operations save -/

theorem updAt_map_colData (f : Column → Column)
    (hf : ∀ c, colData (f c) = colData c) :
    ∀ (i : Nat) (cols : List Column), (updAt i f cols).map colData = cols.map colData := by
  intro i cols
  induction cols generalizing i with
  | nil => simp [updAt]
  | cons c rest ih =>
    cases i with
    | zero => simp [updAt, hf]
    | succ n => simp [updAt, ih]

/-- C3 counterexample: `jump_to_column` is pure navigation (it changes only
the active column and the selections, leaving every column's title and task
list unchanged) on a state with a backing file, yet it invokes
`save_board`, rewriting the file. -/
theorem C3_counterexample :
    (jumpToColumn 2 appTwoCols).2 = true
    ∧ (jumpToColumn 2 appTwoCols).1.columns.map colData = appTwoCols.columns.map colData
    ∧ saveBoardOk appTwoCols = true := by
  decide

/-- C3 (amended): the structural mutations save exactly when they mutate
(`add_column` always, `add_task` when the active column exists,
`delete_current_task` / `move_task_to_column` when a valid selected task is
involved, `delete_current_column` on an empty board not at all and for an
in-range active column always — the in-range hypothesis keeps the statement
inside the domain where `Vec::remove` does not panic), and
`jump_to_column` / `jump_to_task` also save whenever their target is valid —
although they are pure navigation; the four `select_*` operations contain no
save call at all and also preserve every column's title and task list and
the backing path. -/
theorem C3_save_effects :
    (∀ t app, (addColumn t app).2 = true)
    ∧ (∀ t app, (addTask t app).2 = true ↔ app.active_column < app.columns.length)
    ∧ (∀ app, (deleteCurrentTask app).2 = true ↔
        ∃ col, app.columns.get? app.active_column = some col
          ∧ ∃ ti, col.selected_task = some ti ∧ ti < col.tasks.length)
    ∧ (∀ app, app.columns.isEmpty = true → (deleteCurrentColumn app).2 = false)
    ∧ (∀ app, app.active_column < app.columns.length →
        (deleteCurrentColumn app).2 = true)
    ∧ (∀ tgt app, (moveTaskToColumn tgt app).2 = true ↔
        tgt < app.columns.length ∧ tgt ≠ app.active_column
          ∧ ∃ col, app.columns.get? app.active_column = some col
          ∧ ∃ ti, col.selected_task = some ti ∧ ti < col.tasks.length)
    ∧ (∀ i app, (jumpToColumn i app).2 = true ↔ (if i = 0 then 0 else i - 1) < app.columns.length)
    ∧ (∀ c t app, (jumpToTask c t app).2 = true ↔ c < app.columns.length)
    ∧ (∀ app, (selectPrevTask app).columns.map colData = app.columns.map colData
        ∧ (selectPrevTask app).file_path = app.file_path
        ∧ (selectPrevTask app).active_column = app.active_column)
    ∧ (∀ app, (selectNextTask app).columns.map colData = app.columns.map colData
        ∧ (selectNextTask app).file_path = app.file_path
        ∧ (selectNextTask app).active_column = app.active_column)
    ∧ (∀ app, (selectPrevColumn app).columns.map colData = app.columns.map colData
        ∧ (selectPrevColumn app).file_path = app.file_path)
    ∧ (∀ app, (selectNextColumn app).columns.map colData = app.columns.map colData
        ∧ (selectNextColumn app).file_path = app.file_path) := by
  have hclear : ∀ a i cols, (clearNonActiveFrom a i cols).map colData = cols.map colData := by
    intro a i cols
    induction cols generalizing i with
    | nil => rfl
    | cons c rest ih =>
      by_cases h : i ≠ a <;> simp [clearNonActiveFrom, h, colData, ih]
  refine ⟨fun t app => rfl, fun t app => ?_, fun app => ?_, fun app he => ?_,
    fun app hlt => ?_, fun tgt app => ?_, fun i app => ?_, fun c t app => ?_,
    fun app => ?_, fun app => ?_, fun app => ?_, fun app => ?_⟩
  · unfold addTask
    cases hg : app.columns.get? app.active_column with
    | none =>
      rw [List.get?_eq_none] at hg
      simp [hg, Nat.not_lt.mpr hg]
    | some col =>
      have : app.active_column < app.columns.length := by
        by_contra hge
        rw [List.get?_eq_none.mpr (Nat.not_lt.mp hge)] at hg
        exact Option.noConfusion hg
      simp [hg, this]
  · unfold deleteCurrentTask
    cases hg : app.columns.get? app.active_column with
    | none => simp [hg]
    | some col =>
      cases hs : col.selected_task with
      | none => simp [hg, hs]
      | some ti => by_cases hlt : ti < col.tasks.length <;> simp [hg, hs, hlt]
  · unfold deleteCurrentColumn
    rw [if_pos he]
  · unfold deleteCurrentColumn
    have hne : app.columns.isEmpty = false := by
      cases hc : app.columns with
      | nil =>
        rw [hc] at hlt
        simp at hlt
      | cons a r => rfl
    rw [if_neg (by simp [hne])]
  · unfold moveTaskToColumn
    by_cases hguard : tgt ≥ app.columns.length ∨ tgt = app.active_column
    · rcases hguard with h | h
      · simp [h, Nat.not_lt.mpr h]
      · simp [h]
    · push_neg at hguard
      have hlt1 : tgt < app.columns.length := hguard.1
      have hnle : ¬app.columns.length ≤ tgt := Nat.not_le.mpr hlt1
      have hguard' : ¬(tgt ≥ app.columns.length ∨ tgt = app.active_column) := by
        push_neg
        exact hguard
      cases hg : app.columns.get? app.active_column with
      | none => simp [hguard', hg, hlt1, hnle, hguard.2]
      | some col =>
        cases hs : col.selected_task with
        | none => simp [hguard', hg, hs, hlt1, hnle, hguard.2]
        | some ti =>
          by_cases hti : ti < col.tasks.length <;>
            simp [hguard', hg, hs, hti, hlt1, hnle, hguard.2]
  · unfold jumpToColumn
    by_cases h : (if i = 0 then 0 else i - 1) < app.columns.length <;> simp [h]
  · unfold jumpToTask
    by_cases h : c < app.columns.length <;> simp [h]
  · unfold selectPrevTask
    cases hg : app.columns.get? app.active_column with
    | none => exact ⟨rfl, rfl, rfl⟩
    | some col =>
      refine ⟨?_, ?_, ?_⟩ <;> (repeat' split) <;>
        first
          | rfl
          | (apply updAt_map_colData
             intro c
             rfl)
  · unfold selectNextTask
    cases hg : app.columns.get? app.active_column with
    | none => exact ⟨rfl, rfl, rfl⟩
    | some col =>
      refine ⟨?_, ?_, ?_⟩ <;> (repeat' split) <;>
        first
          | rfl
          | (apply updAt_map_colData
             intro c
             rfl)
  · unfold selectPrevColumn
    refine ⟨?_, ?_⟩ <;> split <;>
      first
        | rfl
        | exact hclear _ _ _
  · unfold selectNextColumn
    refine ⟨?_, ?_⟩ <;> split <;>
      first
        | rfl
        | exact hclear _ _ _

/-- C3 witness: the two delete-column conjuncts of `C3_save_effects`
applied at concrete states — an empty board (no save) and the two-column
state with its in-range active column (save). -/
theorem C3_save_effects_witness :
    ({ appTwoCols with columns := [] } : App).columns.isEmpty = true
      ∧ (deleteCurrentColumn { appTwoCols with columns := [] }).2 = false
      ∧ appTwoCols.active_column < appTwoCols.columns.length
      ∧ (deleteCurrentColumn appTwoCols).2 = true :=
  ⟨by decide,
    C3_save_effects.2.2.2.1 { appTwoCols with columns := [] } (by decide),
    by decide,
    C3_save_effects.2.2.2.2.1 appTwoCols (by decide)⟩

end Kantui

namespace Kantui

open Kantui.Models Kantui.Input

/-! ## C2: selection scoping -/

theorem scopeAllFrom_clear (a : Nat) :
    ∀ (i : Nat) (cols : List Column), scopeAllFrom a i (clearNonActiveFrom a i cols) = true := by
  intro i cols
  induction cols generalizing i with
  | nil => rfl
  | cons c rest ih =>
    by_cases h : i ≠ a
    · simp [clearNonActiveFrom, scopeAllFrom, h, ih]
    · push_neg at h
      simp [clearNonActiveFrom, scopeAllFrom, h, ih]

theorem scopeAllFrom_of_allNone (a : Nat) :
    ∀ (i : Nat) (cols : List Column),
      (∀ c ∈ cols, c.selected_task = none) → scopeAllFrom a i cols = true := by
  intro i cols
  induction cols generalizing i with
  | nil => intro; rfl
  | cons c rest ih =>
    intro h
    simp only [scopeAllFrom, Bool.and_eq_true, Bool.or_eq_true, decide_eq_true_eq]
    exact ⟨Or.inr (h c (by simp)), ih (i + 1) fun x hx => h x (by simp [hx])⟩

theorem scopeAllFrom_tail (a : Nat) :
    ∀ (i : Nat) (cols : List Column), scopeAllFrom a i cols = true → a < i →
      ∀ c ∈ cols, c.selected_task = none := by
  intro i cols
  induction cols generalizing i with
  | nil => intro _ _ c hc; cases hc
  | cons c rest ih =>
    intro h hai x hx
    simp only [scopeAllFrom, Bool.and_eq_true, Bool.or_eq_true, decide_eq_true_eq] at h
    rcases List.mem_cons.mp hx with rfl | hx
    · rcases h.1 with h1 | h1
      · exact absurd h1.symm (Nat.ne_of_lt hai)
      · exact h1
    · exact ih (i + 1) h.2 (Nat.lt_succ_of_lt hai) x hx

theorem allNone_erase :
    ∀ (cols : List Column) (a i : Nat), scopeAllFrom (i + a) i cols = true →
      a < cols.length → ∀ c ∈ cols.eraseIdx a, c.selected_task = none := by
  intro cols
  induction cols with
  | nil => intro a i _ ha; cases (Nat.not_lt_zero a) ha
  | cons c rest ih =>
    intro a i h ha x hx
    simp only [scopeAllFrom, Bool.and_eq_true, Bool.or_eq_true, decide_eq_true_eq] at h
    cases a with
    | zero =>
      simp only [List.eraseIdx] at hx
      exact scopeAllFrom_tail (i + 0) (i + 1) rest h.2 (by omega) x hx
    | succ a' =>
      simp only [List.eraseIdx] at hx
      rcases List.mem_cons.mp hx with rfl | hx
      · rcases h.1 with h1 | h1
        · exact absurd h1 (by omega)
        · exact h1
      · refine ih a' (i + 1) ?_ (by simpa using ha) x hx
        have : i + 1 + a' = i + (a' + 1) := by omega
        rw [this]
        exact h.2

theorem scopeAllFrom_updAt (f : Column → Column) :
    ∀ (cols : List Column) (i j : Nat), scopeAllFrom (i + j) i cols = true →
      scopeAllFrom (i + j) i (updAt j f cols) = true := by
  intro cols
  induction cols with
  | nil => intro i j h; simpa [updAt] using h
  | cons c rest ih =>
    intro i j h
    simp only [scopeAllFrom, Bool.and_eq_true, Bool.or_eq_true, decide_eq_true_eq] at h
    cases j with
    | zero =>
      simp only [updAt, scopeAllFrom, Bool.and_eq_true, Bool.or_eq_true, decide_eq_true_eq]
      exact ⟨Or.inl (by omega), h.2⟩
    | succ j' =>
      simp only [updAt, scopeAllFrom, Bool.and_eq_true, Bool.or_eq_true, decide_eq_true_eq]
      refine ⟨h.1, ?_⟩
      have heq : i + (j' + 1) = (i + 1) + j' := by omega
      rw [heq] at h ⊢
      exact ih (i + 1) j' h.2

theorem scopeAllFrom_selectOnly (ac : Nat) :
    ∀ (i : Nat) (cols : List Column), scopeAllFrom ac i (selectOnlyFrom ac i cols) = true := by
  intro i cols
  induction cols generalizing i with
  | nil => rfl
  | cons c rest ih =>
    simp only [selectOnlyFrom, scopeAllFrom, Bool.and_eq_true, Bool.or_eq_true,
      decide_eq_true_eq]
    refine ⟨?_, ih (i + 1)⟩
    by_cases h : i = ac
    · exact Or.inl h
    · refine Or.inr ?_
      rw [if_neg]
      rintro ⟨h1, _⟩
      exact h h1

theorem scopeAll_updAt_clear (a : Nat) (f : Column → Column) (cols : List Column) :
    scopeAllFrom a 0 (updAt a f (clearNonActiveFrom a 0 cols)) = true := by
  have h2 := scopeAllFrom_updAt f (clearNonActiveFrom a 0 cols) 0 a
  rw [Nat.zero_add] at h2
  exact h2 (scopeAllFrom_clear a 0 cols)

theorem selectOnlyFrom_get? (ac : Nat) :
    ∀ (i j : Nat) (cols : List Column),
      (selectOnlyFrom ac i cols).get? j = (cols.get? j).map fun c =>
        if i + j = ac ∧ c.tasks.isEmpty = false then { c with selected_task := some 0 }
        else { c with selected_task := none } := by
  intro i j cols
  induction cols generalizing i j with
  | nil => simp [selectOnlyFrom]
  | cons c rest ih =>
    cases j with
    | zero => simp [selectOnlyFrom]
    | succ j' =>
      simp only [selectOnlyFrom, List.get?]
      rw [ih (i + 1) j']
      have : i + 1 + j' = i + (j' + 1) := by omega
      rw [this]

theorem activeSel_selectOnly (ac : Nat) (cols : List Column) (app : App) :
    activeSelB { app with columns := selectOnlyFrom ac 0 cols, active_column := ac } = true := by
  unfold activeSelB
  dsimp only
  rw [selectOnlyFrom_get?]
  cases hg : cols.get? ac with
  | none => simp [hg]
  | some c =>
    simp only [hg, Option.map_some', Nat.zero_add]
    by_cases he : c.tasks.isEmpty = false
    · have hlen : 0 < c.tasks.length := by
        cases hc : c.tasks with
        | nil => rw [hc] at he; simp [List.isEmpty] at he
        | cons x xs => simp
      simp [he, hlen]
    · have he' : c.tasks.isEmpty = true := by
        cases hb : c.tasks.isEmpty
        · exact absurd hb he
        · rfl
      simp [he, he']

/-- C2 counterexample: a state satisfying both claimed invariants, on which
`select_prev_column` moves to a column with tasks but leaves no task
selected there — the "exactly one task selected" half fails. -/
theorem C2_counterexample :
    scopeInvB appTwoCols = true ∧ activeSelB appTwoCols = true
    ∧ (selectPrevColumn appTwoCols).active_column = 0
    ∧ scopeInvB (selectPrevColumn appTwoCols) = true
    ∧ activeSelB (selectPrevColumn appTwoCols) = false := by
  decide

/-- C2 (amended): every listed operation preserves the scoping invariant
(all non-active columns unselected) — unconditionally when it acts, under
the invariant when it is a no-op (for `delete_current_column`, with the
active index in range, as `Vec::remove` demands) — and a board load
additionally establishes that the first task of the non-empty active column
is selected; but the column-changing navigation operations do not select a
task in the newly active column. -/
theorem C2_selection_scoping :
    (∀ app, scopeInvB app = true → scopeInvB (selectPrevColumn app) = true)
    ∧ (∀ app, scopeInvB app = true → scopeInvB (selectNextColumn app) = true)
    ∧ (∀ i app, scopeInvB app = true → scopeInvB (jumpToColumn i app).1 = true)
    ∧ (∀ c t app, scopeInvB app = true → scopeInvB (jumpToTask c t app).1 = true)
    ∧ (∀ app, scopeInvB app = true → app.active_column < app.columns.length →
        scopeInvB (deleteCurrentColumn app).1 = true)
    ∧ (∀ app b, scopeInvB (updateFromBackendBoard app b) = true
        ∧ activeSelB (updateFromBackendBoard app b) = true) := by
  refine ⟨fun app h => ?_, fun app h => ?_, fun i app h => ?_, fun c t app h => ?_,
    fun app h hlt => ?_, fun app b => ⟨?_, ?_⟩⟩
  · unfold selectPrevColumn
    split
    · exact scopeAllFrom_clear _ 0 _
    · exact h
  · unfold selectNextColumn
    split
    · exact scopeAllFrom_clear _ 0 _
    · exact h
  · unfold jumpToColumn
    dsimp only
    repeat' split
    all_goals first | exact scopeAllFrom_clear _ 0 _ | exact h
  · unfold jumpToTask
    dsimp only
    repeat' split
    all_goals
      first
        | exact scopeAll_updAt_clear _ _ _
        | exact scopeAllFrom_clear _ 0 _
        | exact h
  · unfold deleteCurrentColumn
    dsimp only
    split
    · rename_i hemp
      cases hcl : app.columns with
      | nil => rw [hcl] at hlt; exact absurd hlt (by simp)
      | cons a b => rw [hcl] at hemp; simp [List.isEmpty] at hemp
    · exact scopeAllFrom_of_allNone _ 0 _
        (allNone_erase app.columns app.active_column 0 (by simpa using h) hlt)
  · exact scopeAllFrom_selectOnly _ 0 _
  · exact activeSel_selectOnly _ _ _

end Kantui

namespace Kantui

open Kantui.Models

/-- Witness for C2: the preservation statements applied at the concrete
two-column state, with the invariant hypotheses checked by `decide`. -/
theorem C2_selection_scoping_witness :
    scopeInvB (Models.selectPrevColumn appTwoCols) = true
    ∧ scopeInvB (Models.deleteCurrentColumn appTwoCols).1 = true :=
  ⟨C2_selection_scoping.1 appTwoCols (by decide),
   C2_selection_scoping.2.2.2.2.1 appTwoCols (by decide) (by decide)⟩

end Kantui

namespace Kantui

open Kantui.Models Kantui.Input

/-! ## C7: the input modes and the text-entry behaviour -/

/-- C7 counterexample: the input state machine's mode space is exactly the
ten variants declared in `models.rs` — there is no `RenamingColumn` and no
`RenamingTask` mode (and `run_app` has no arm or transition for renaming). -/
theorem C7_counterexample :
    (Finset.univ : Finset InputMode) =
      {InputMode.Normal, InputMode.AddingColumn, InputMode.AddingTask, InputMode.MoveMode,
       InputMode.ConfirmDeleteColumn, InputMode.BoardSelection, InputMode.AddingBoard,
       InputMode.ColumnSelectionMode, InputMode.JumpToColumnMode, InputMode.JumpToTaskMode} := by
  decide

/-- C7 (amended): there are no renaming modes; in the text-entry modes that
do exist (`AddingColumn`, `AddingTask`), character keys append to the
scratch buffer, backspace removes the last character, escape discards the
buffer and returns to `Normal`, and enter commits the add — using the fixed
default names `"New Column"` / `"New Task"` when the buffer is empty — and
returns to `Normal` (for `AddingTask`, whenever the active column exists). -/
theorem C7_no_renaming_modes :
    (∀ m : InputMode,
      m = InputMode.Normal ∨ m = InputMode.AddingColumn ∨ m = InputMode.AddingTask
      ∨ m = InputMode.MoveMode ∨ m = InputMode.ConfirmDeleteColumn
      ∨ m = InputMode.BoardSelection ∨ m = InputMode.AddingBoard
      ∨ m = InputMode.ColumnSelectionMode ∨ m = InputMode.JumpToColumnMode
      ∨ m = InputMode.JumpToTaskMode)
    ∧ (∀ env app lk sc c ct, app.input_mode = InputMode.AddingColumn →
        (runApp env ⟨app, lk, sc⟩ [⟨KeyCode.Char c, ct⟩]).app =
          { app with input_text := app.input_text ++ [c] }
        ∧ (runApp env ⟨app, lk, sc⟩ [⟨KeyCode.Backspace, ct⟩]).app =
          { app with input_text := app.input_text.dropLast }
        ∧ (runApp env ⟨app, lk, sc⟩ [⟨KeyCode.Esc, ct⟩]).app =
          { app with input_mode := InputMode.Normal, input_text := [] }
        ∧ (runApp env ⟨app, lk, sc⟩ [⟨KeyCode.Enter, ct⟩]).app =
          (addColumn (if app.input_text.isEmpty then ("New Column").data else app.input_text)
            app).1)
    ∧ (∀ env app lk sc c ct, app.input_mode = InputMode.AddingTask →
        (runApp env ⟨app, lk, sc⟩ [⟨KeyCode.Char c, ct⟩]).app =
          { app with input_text := app.input_text ++ [c] }
        ∧ (runApp env ⟨app, lk, sc⟩ [⟨KeyCode.Backspace, ct⟩]).app =
          { app with input_text := app.input_text.dropLast }
        ∧ (runApp env ⟨app, lk, sc⟩ [⟨KeyCode.Esc, ct⟩]).app =
          { app with input_mode := InputMode.Normal, input_text := [] }
        ∧ (runApp env ⟨app, lk, sc⟩ [⟨KeyCode.Enter, ct⟩]).app =
          (addTask (if app.input_text.isEmpty then ("New Task").data else app.input_text)
            app).1)
    ∧ (∀ t app, (addColumn t app).1.input_mode = InputMode.Normal
        ∧ (addColumn t app).1.input_text = [])
    ∧ (∀ t app, app.active_column < app.columns.length →
        (addTask t app).1.input_mode = InputMode.Normal
        ∧ (addTask t app).1.input_text = []) := by
  refine ⟨fun m => by cases m <;> simp,
    fun env app lk sc c ct hm => ?_, fun env app lk sc c ct hm => ?_,
    fun t app => ⟨rfl, rfl⟩, fun t app hlt => ?_⟩
  · exact ⟨by simp [runApp, runAppAux, hm], by simp [runApp, runAppAux, hm],
      by simp [runApp, runAppAux, hm], by simp [runApp, runAppAux, hm]⟩
  · exact ⟨by simp [runApp, runAppAux, hm], by simp [runApp, runAppAux, hm],
      by simp [runApp, runAppAux, hm], by simp [runApp, runAppAux, hm]⟩
  · unfold addTask
    cases hg : app.columns.get? app.active_column with
    | none =>
      rw [List.get?_eq_none] at hg
      exact absurd hlt (Nat.not_lt.mpr hg)
    | some col => exact ⟨rfl, rfl⟩

/-- Witness for C7: the text-entry equations evaluated in a concrete
`AddingColumn` state. -/
theorem C7_no_renaming_modes_witness :
    (runApp envNoDir ⟨{ appTwoCols with input_mode := InputMode.AddingColumn }, none, none⟩
        [⟨KeyCode.Char 'x', false⟩]).app =
      { { appTwoCols with input_mode := InputMode.AddingColumn } with
        input_text := ({ appTwoCols with input_mode := InputMode.AddingColumn }).input_text ++ ['x'] }
    ∧ (addTask (("T").data) appTwoCols).1.input_mode = InputMode.Normal
      ∧ (addTask (("T").data) appTwoCols).1.input_text = [] :=
  ⟨(C7_no_renaming_modes.2.1 envNoDir { appTwoCols with input_mode := InputMode.AddingColumn }
      none none 'x' false rfl).1,
   C7_no_renaming_modes.2.2.2.2 (("T").data) appTwoCols (by decide)⟩

end Kantui

namespace Kantui

open Kantui.Models Kantui.Input

/-! ## C9: `MoveMode` is unreachable -/

theorem input_mode_selectPrevBoard (app : App) :
    (selectPrevBoard app).input_mode = app.input_mode := by
  unfold selectPrevBoard; (try dsimp only); (repeat' split) <;> rfl

theorem input_mode_selectNextBoard (app : App) :
    (selectNextBoard app).input_mode = app.input_mode := by
  unfold selectNextBoard; (try dsimp only); (repeat' split) <;> rfl

theorem input_mode_scan (env : Env) (app : App) :
    (scanAvailableBoards env app).1.input_mode = app.input_mode := by
  unfold scanAvailableBoards; (try dsimp only); (repeat' split) <;> rfl

theorem input_mode_updateFromBackendBoard (app : App) (b : Crud.Board) :
    (updateFromBackendBoard app b).input_mode = app.input_mode := rfl

theorem input_mode_loadBoard (env : Env) (app : App) :
    (loadBoard env app).1.input_mode = app.input_mode := by
  unfold loadBoard; (try dsimp only); (repeat' split) <;> rfl

theorem input_mode_createNewBoard (env : Env) (t : Str) (app : App) :
    (createNewBoard env t app).1.input_mode = app.input_mode := by
  unfold createNewBoard; (try dsimp only); (repeat' split) <;> rfl

theorem input_mode_deleteCurrentTask (app : App) :
    (deleteCurrentTask app).1.input_mode = app.input_mode := by
  unfold deleteCurrentTask; (try dsimp only); (repeat' split) <;> rfl

theorem input_mode_deleteCurrentColumn (app : App) :
    (deleteCurrentColumn app).1.input_mode = app.input_mode := by
  unfold deleteCurrentColumn; (try dsimp only); (repeat' split) <;> rfl

theorem input_mode_moveTaskToColumn (tgt : Nat) (app : App) :
    (moveTaskToColumn tgt app).1.input_mode = app.input_mode := by
  unfold moveTaskToColumn; (try dsimp only); (repeat' split) <;> rfl

theorem input_mode_selectPrevColumn (app : App) :
    (selectPrevColumn app).input_mode = app.input_mode := by
  unfold selectPrevColumn; (try dsimp only); (repeat' split) <;> rfl

theorem input_mode_selectNextColumn (app : App) :
    (selectNextColumn app).input_mode = app.input_mode := by
  unfold selectNextColumn; (try dsimp only); (repeat' split) <;> rfl

theorem input_mode_selectPrevTask (app : App) :
    (selectPrevTask app).input_mode = app.input_mode := by
  unfold selectPrevTask; (try dsimp only); (repeat' split) <;> rfl

theorem input_mode_selectNextTask (app : App) :
    (selectNextTask app).input_mode = app.input_mode := by
  unfold selectNextTask; (try dsimp only); (repeat' split) <;> rfl

theorem input_mode_addColumn (t : Str) (app : App) :
    (addColumn t app).1.input_mode = InputMode.Normal := rfl

theorem input_mode_addTask (t : Str) (app : App) :
    (addTask t app).1.input_mode = InputMode.Normal
    ∨ (addTask t app).1.input_mode = app.input_mode := by
  unfold addTask
  cases app.columns.get? app.active_column
  · exact Or.inr rfl
  · exact Or.inl rfl

theorem input_mode_jumpToColumn (i : Nat) (app : App) :
    (jumpToColumn i app).1.input_mode = InputMode.Normal
    ∨ (jumpToColumn i app).1.input_mode = app.input_mode := by
  unfold jumpToColumn
  (try dsimp only)
  repeat' split
  all_goals first | exact Or.inl rfl | exact Or.inr rfl

theorem input_mode_jumpToTask (c t : Nat) (app : App) :
    (jumpToTask c t app).1.input_mode = InputMode.Normal
    ∨ (jumpToTask c t app).1.input_mode = app.input_mode := by
  unfold jumpToTask
  (try dsimp only)
  repeat' split
  all_goals first | exact Or.inl rfl | exact Or.inr rfl

theorem input_mode_loadSelectedBoard (env : Env) (app : App) :
    (loadSelectedBoard env app).1.input_mode = InputMode.AddingBoard
    ∨ (loadSelectedBoard env app).1.input_mode = InputMode.Normal
    ∨ (loadSelectedBoard env app).1.input_mode = app.input_mode := by
  unfold loadSelectedBoard
  (try dsimp only)
  repeat' split
  all_goals
    first
      | exact Or.inl rfl
      | exact Or.inr (Or.inl rfl)
      | exact Or.inr (Or.inr rfl)
      | (rename_i happ
         refine Or.inr (Or.inr ?_)
         have hl := congrArg (fun p : App × Bool => p.1.input_mode) happ
         simp only [input_mode_loadBoard] at hl
         exact hl.symm)

end Kantui

namespace Kantui

open Kantui.Models Kantui.Input

theorem no_move_jumpToColumn (i : Nat) (app : App)
    (h : app.input_mode ≠ InputMode.MoveMode) :
    (jumpToColumn i app).1.input_mode ≠ InputMode.MoveMode := by
  rcases input_mode_jumpToColumn i app with h1 | h1 <;> rw [h1] <;> simp_all

theorem no_move_jumpToTask (c t : Nat) (app : App)
    (h : app.input_mode ≠ InputMode.MoveMode) :
    (jumpToTask c t app).1.input_mode ≠ InputMode.MoveMode := by
  rcases input_mode_jumpToTask c t app with h1 | h1 <;> rw [h1] <;> simp_all

theorem no_move_addTask (t : Str) (app : App)
    (h : app.input_mode ≠ InputMode.MoveMode) :
    (addTask t app).1.input_mode ≠ InputMode.MoveMode := by
  rcases input_mode_addTask t app with h1 | h1 <;> rw [h1] <;> simp_all

theorem no_move_loadSelectedBoard (env : Env) (app : App)
    (h : app.input_mode ≠ InputMode.MoveMode) :
    (loadSelectedBoard env app).1.input_mode ≠ InputMode.MoveMode := by
  rcases input_mode_loadSelectedBoard env app with h1 | h1 | h1 <;> rw [h1] <;> simp_all

set_option maxHeartbeats 3000000 in
theorem runAppAux_no_move (env : Env) :
    ∀ (fuel : Nat) (st : LoopState) (evs : List KeyEvent),
      st.app.input_mode ≠ InputMode.MoveMode →
      (runAppAux env fuel st evs).app.input_mode ≠ InputMode.MoveMode := by
  intro fuel
  induction fuel with
  | zero => exact fun st evs h => h
  | succ fuel ih =>
    intro st evs h
    match evs with
    | [] => exact h
    | e :: rest =>
      cases hm : st.app.input_mode with
      | MoveMode => exact absurd hm h
      | BoardSelection =>
        simp only [runAppAux, hm]
        intro hmv
        repeat'
          first
            | (split at hmv)
            | (rename _ = InputMode.MoveMode => hmv
               split at hmv)
        all_goals try (rename _ = InputMode.MoveMode => hmv)
        all_goals try (exact h hmv)
        all_goals refine ih _ _ ?_ hmv
        all_goals
          first
            | exact h
            | exact no_move_loadSelectedBoard env st.app h
            | simp_all [input_mode_selectPrevBoard, input_mode_selectNextBoard]
      | AddingBoard =>
        simp only [runAppAux, hm]
        intro hmv
        repeat'
          first
            | (split at hmv)
            | (rename _ = InputMode.MoveMode => hmv
               split at hmv)
        all_goals try (rename _ = InputMode.MoveMode => hmv)
        all_goals try (exact h hmv)
        all_goals refine ih _ _ ?_ hmv
        all_goals simp_all [input_mode_createNewBoard]
      | Normal =>
        simp only [runAppAux, hm]
        intro hmv
        by_cases hd : st.app.space_pressed = false ∧ e.ctrl = false ∧ e.code = KeyCode.Char 'd'
        · rw [if_pos hd] at hmv
          by_cases hlk : st.lastKey = some (KeyCode.Char 'd')
          · rw [if_pos hlk] at hmv
            exact ih _ _ (by simp) hmv
          · rw [if_neg hlk] at hmv
            exact ih _ _ (by simp [hm]) hmv
        · rw [if_neg hd] at hmv
          split at hmv
          · rename_i c2 heq
            by_cases h1 : c2 = 'q'
            · rw [if_pos h1] at hmv
              exact h hmv
            rw [if_neg h1] at hmv
            by_cases h2 : c2 = ' '
            · rw [if_pos h2] at hmv
              exact ih _ _ (by simp) hmv
            rw [if_neg h2] at hmv
            by_cases h3 : st.app.space_pressed = true
            · rw [if_pos h3] at hmv
              cases hsc : st.spaceCombo with
              | none =>
                rw [hsc] at hmv
                dsimp only at hmv
                exact ih _ _ (by simp [hm]) hmv
              | some combo0 =>
                rw [hsc] at hmv
                dsimp only at hmv
                by_cases hc1 : combo0 ++ [c2] = ('b' :: [])
                · rw [if_pos hc1] at hmv
                  exact ih _ _ (by simp) hmv
                rw [if_neg hc1] at hmv
                by_cases hc2 : combo0 ++ [c2] = ('g' :: 'c' :: [])
                · rw [if_pos hc2] at hmv
                  exact ih _ _ (by simp) hmv
                rw [if_neg hc2] at hmv
                by_cases hc3 : combo0 ++ [c2] = ('g' :: 't' :: [])
                · rw [if_pos hc3] at hmv
                  exact ih _ _ (by simp) hmv
                rw [if_neg hc3] at hmv
                by_cases hc4 : combo0 ++ [c2] = ('a' :: 'c' :: [])
                · rw [if_pos hc4] at hmv
                  exact ih _ _ (by simp) hmv
                rw [if_neg hc4] at hmv
                by_cases hc5 : combo0 ++ [c2] = ('a' :: 't' :: [])
                · rw [if_pos hc5] at hmv
                  exact ih _ _ (by simp) hmv
                rw [if_neg hc5] at hmv
                by_cases hc6 : combo0 ++ [c2] = ('d' :: 't' :: [])
                · rw [if_pos hc6] at hmv
                  refine ih _ _ ?_ hmv
                  cases hg : st.app.columns.get? st.app.active_column with
                  | none => simp [hm]
                  | some col =>
                    by_cases hsel : col.selected_task.isSome <;>
                      simp [hsel, input_mode_deleteCurrentTask, hm]
                rw [if_neg hc6] at hmv
                by_cases hc7 : combo0 ++ [c2] = ('d' :: 'c' :: [])
                · rw [if_pos hc7] at hmv
                  refine ih _ _ ?_ hmv
                  by_cases hne : st.app.columns.isEmpty = false <;> simp [hne, hm]
                rw [if_neg hc7] at hmv
                by_cases hlen : 2 ≤ (combo0 ++ [c2]).length
                · rw [if_pos hlen] at hmv
                  exact ih _ _ (by simp [hm]) hmv
                · rw [if_neg hlen] at hmv
                  exact ih _ _ (by simp [hm]) hmv
            · rw [if_neg h3] at hmv
              by_cases h4 : c2 = 'g'
              · rw [if_pos h4] at hmv
                cases rest with
                | nil => exact h hmv
                | cons e2 rest2 =>
                  cases e2 with
                  | mk code2 ctrl2 =>
                    cases code2 with
                    | Char c3 =>
                      dsimp only at hmv
                      by_cases h5 : c3 = 'c'
                      · rw [if_pos h5] at hmv
                        exact ih _ _ (by simp) hmv
                      rw [if_neg h5] at hmv
                      by_cases h6 : c3 = 't'
                      · rw [if_pos h6] at hmv
                        exact ih _ _ (by simp) hmv
                      · rw [if_neg h6] at hmv
                        exact ih _ _ (by simp [hm]) hmv
                    | Esc => exact ih _ _ (by simp [hm]) hmv
                    | Enter => exact ih _ _ (by simp [hm]) hmv
                    | Backspace => exact ih _ _ (by simp [hm]) hmv
                    | Up => exact ih _ _ (by simp [hm]) hmv
                    | Down => exact ih _ _ (by simp [hm]) hmv
              rw [if_neg h4] at hmv
              by_cases h7 : c2 = 'm'
              · rw [if_pos h7] at hmv
                refine ih _ _ ?_ hmv
                cases hg : st.app.columns.get? st.app.active_column with
                | none => simp [hm]
                | some col =>
                  by_cases hsel : col.selected_task.isSome <;> simp [hsel, hm]
              rw [if_neg h7] at hmv
              by_cases h8 : c2 = 'h'
              · rw [if_pos h8] at hmv
                exact ih _ _ (by simp [input_mode_selectPrevColumn, hm]) hmv
              rw [if_neg h8] at hmv
              by_cases h9 : c2 = 'l'
              · rw [if_pos h9] at hmv
                exact ih _ _ (by simp [input_mode_selectNextColumn, hm]) hmv
              rw [if_neg h9] at hmv
              by_cases h10 : c2 = 'j'
              · rw [if_pos h10] at hmv
                exact ih _ _ (by simp [input_mode_selectNextTask, hm]) hmv
              rw [if_neg h10] at hmv
              by_cases h11 : c2 = 'k'
              · rw [if_pos h11] at hmv
                exact ih _ _ (by simp [input_mode_selectPrevTask, hm]) hmv
              rw [if_neg h11] at hmv
              by_cases h12 : c2 = 's' ∧ e.ctrl = true
              · rw [if_pos h12] at hmv
                exact ih _ _ (by simp [hm]) hmv
              · rw [if_neg h12] at hmv
                exact ih _ _ (by simp [hm]) hmv
          · exact ih _ _ (by simp [hm]) hmv
      | AddingColumn =>
        simp only [runAppAux, hm]
        intro hmv
        repeat'
          first
            | (split at hmv)
            | (rename _ = InputMode.MoveMode => hmv
               split at hmv)
        all_goals try (rename _ = InputMode.MoveMode => hmv)
        all_goals try (exact h hmv)
        all_goals refine ih _ _ ?_ hmv
        all_goals simp_all [input_mode_addColumn]
      | AddingTask =>
        simp only [runAppAux, hm]
        intro hmv
        repeat'
          first
            | (split at hmv)
            | (rename _ = InputMode.MoveMode => hmv
               split at hmv)
        all_goals try (rename _ = InputMode.MoveMode => hmv)
        all_goals try (exact h hmv)
        all_goals refine ih _ _ ?_ hmv
        all_goals
          first
            | (exact no_move_addTask _ st.app h)
            | simp_all
      | ConfirmDeleteColumn =>
        simp only [runAppAux, hm]
        intro hmv
        repeat'
          first
            | (split at hmv)
            | (rename _ = InputMode.MoveMode => hmv
               split at hmv)
        all_goals try (rename _ = InputMode.MoveMode => hmv)
        all_goals try (exact h hmv)
        all_goals refine ih _ _ ?_ hmv
        all_goals simp_all [input_mode_deleteCurrentColumn]
      | ColumnSelectionMode =>
        simp only [runAppAux, hm]
        intro hmv
        repeat'
          first
            | (split at hmv)
            | (rename _ = InputMode.MoveMode => hmv
               split at hmv)
        all_goals try (rename _ = InputMode.MoveMode => hmv)
        all_goals try (exact h hmv)
        all_goals refine ih _ _ ?_ hmv
        all_goals simp_all [input_mode_moveTaskToColumn]
      | JumpToColumnMode =>
        simp only [runAppAux, hm]
        intro hmv
        repeat'
          first
            | (split at hmv)
            | (rename _ = InputMode.MoveMode => hmv
               split at hmv)
        all_goals try (rename _ = InputMode.MoveMode => hmv)
        all_goals try (exact h hmv)
        all_goals refine ih _ _ ?_ hmv
        all_goals simp_all
      | JumpToTaskMode =>
        simp only [runAppAux, hm]
        intro hmv
        repeat'
          first
            | (split at hmv)
            | (rename _ = InputMode.MoveMode => hmv
               split at hmv)
        all_goals try (rename _ = InputMode.MoveMode => hmv)
        all_goals try (exact h hmv)
        all_goals refine ih _ _ ?_ hmv
        all_goals
          first
            | (exact no_move_jumpToTask _ _ st.app h)
            | simp_all

end Kantui

namespace Kantui

open Kantui.Models Kantui.Input

/-- C9: starting from the initial `BoardSelection` state, no sequence of key
events ever makes `input_mode` equal `MoveMode`: the handler has an arm for
that mode, but no transition in the event loop and no model operation ever
assigns it. -/
theorem C9_move_mode_unreachable :
    ∀ (env : Env) (events : List KeyEvent),
      (initState env).app.input_mode = InputMode.BoardSelection
      ∧ (runApp env (initState env) events).app.input_mode ≠ InputMode.MoveMode := by
  intro env events
  have hinit : (initState env).app.input_mode = InputMode.BoardSelection := by
    simp [initState, appNew, input_mode_scan]
  exact ⟨hinit, runAppAux_no_move env events.length (initState env) events (by simp [hinit])⟩

end Kantui

namespace Kantui

open Kantui.Models Kantui.Input

/-! ## C6: jump labels -/

theorem labelScanTasks_spec (cIdx colIdx taskIdx : Nat) :
    ∀ (n tIdx g : Nat),
      labelScanTasks n cIdx colIdx tIdx taskIdx g =
        if cIdx = colIdx ∧ tIdx ≤ taskIdx ∧ taskIdx < tIdx + n
        then (some (g + (taskIdx - tIdx)), g + (taskIdx - tIdx))
        else (none, g + n) := by
  intro n
  induction n with
  | zero =>
    intro tIdx g
    rw [if_neg (by omega)]
    simp [labelScanTasks]
  | succ n ihn =>
    intro tIdx g
    simp only [labelScanTasks]
    by_cases hc : cIdx = colIdx ∧ tIdx = taskIdx
    · rw [if_pos hc, if_pos (by omega)]
      have : taskIdx - tIdx = 0 := by omega
      simp [this]
    · rw [if_neg hc, ihn (tIdx + 1) (g + 1)]
      by_cases hcond : cIdx = colIdx ∧ tIdx ≤ taskIdx ∧ taskIdx < tIdx + (n + 1)
      · have hinner : cIdx = colIdx ∧ tIdx + 1 ≤ taskIdx ∧ taskIdx < (tIdx + 1) + n := by
          refine ⟨hcond.1, ?_, by omega⟩
          rcases Nat.lt_or_ge tIdx taskIdx with hlt | hge
          · omega
          · exact absurd ⟨hcond.1, by omega⟩ hc
        rw [if_pos hinner, if_pos hcond]
        have : g + 1 + (taskIdx - (tIdx + 1)) = g + (taskIdx - tIdx) := by omega
        rw [this]
      · have hinner : ¬(cIdx = colIdx ∧ tIdx + 1 ≤ taskIdx ∧ taskIdx < (tIdx + 1) + n) := by
          rintro ⟨ha, hb, hcc⟩
          exact hcond ⟨ha, by omega, by omega⟩
        rw [if_neg hinner, if_neg hcond]
        have : g + 1 + n = g + (n + 1) := by omega
        rw [this]

theorem labelScanCols_past :
    ∀ (cols : List Column) (cIdx colIdx taskIdx g : Nat), colIdx < cIdx →
      labelScanCols cols cIdx colIdx taskIdx g = none := by
  intro cols
  induction cols with
  | nil => intro cIdx colIdx taskIdx g _; rfl
  | cons c rest ih =>
    intro cIdx colIdx taskIdx g hlt
    simp only [labelScanCols]
    rw [labelScanTasks_spec, if_neg (by omega)]
    exact ih (cIdx + 1) colIdx taskIdx _ (by omega)

theorem labelScanCols_spec :
    ∀ (cols : List Column) (k cIdx taskIdx g : Nat),
      labelScanCols cols cIdx (cIdx + k) taskIdx g =
        match cols.get? k with
        | none => none
        | some col =>
          if taskIdx < col.tasks.length then some (g + sumLen (cols.take k) + taskIdx)
          else none := by
  intro cols
  induction cols with
  | nil => intro k cIdx taskIdx g; simp [labelScanCols]
  | cons c rest ih =>
    intro k cIdx taskIdx g
    cases k with
    | zero =>
      simp only [labelScanCols, Nat.add_zero]
      rw [labelScanTasks_spec]
      by_cases ht : taskIdx < c.tasks.length
      · rw [if_pos ⟨rfl, by omega, by omega⟩]
        simp [sumLen, List.take, ht]
      · rw [if_neg (by omega)]
        dsimp only
        rw [labelScanCols_past rest (cIdx + 1) cIdx taskIdx _ (by omega)]
        simp [ht]
    | succ k' =>
      simp only [labelScanCols]
      rw [labelScanTasks_spec, if_neg (by omega)]
      dsimp only
      have heq : cIdx + (k' + 1) = (cIdx + 1) + k' := by omega
      rw [heq, ih k' (cIdx + 1) taskIdx (g + c.tasks.length)]
      have hcons : ((c :: rest).get? (k' + 1) : Option Column) = rest.get? k' := rfl
      rw [hcons]
      cases hg : rest.get? k' with
      | none => rfl
      | some col =>
        dsimp only
        by_cases ht : taskIdx < col.tasks.length
        · rw [if_pos ht, if_pos ht]
          have hsl : sumLen ((c :: rest).take (k' + 1))
              = c.tasks.length + sumLen (rest.take k') := rfl
          rw [hsl]
          have : g + c.tasks.length + sumLen (rest.take k') + taskIdx
              = g + (c.tasks.length + sumLen (rest.take k')) + taskIdx := by omega
          rw [this]
        · rw [if_neg ht, if_neg ht]

theorem taskScanTasks_spec (colIdx li : Nat) :
    ∀ (n tIdx g : Nat),
      taskScanTasks n colIdx tIdx g li =
        if g ≤ li ∧ li < g + n then (some (colIdx, tIdx + (li - g)), li)
        else (none, g + n) := by
  intro n
  induction n with
  | zero =>
    intro tIdx g
    rw [if_neg (by omega)]
    simp [taskScanTasks]
  | succ n ihn =>
    intro tIdx g
    simp only [taskScanTasks]
    by_cases hg : g = li
    · rw [if_pos hg, if_pos (by omega)]
      subst hg
      simp
    · rw [if_neg hg, ihn (tIdx + 1) (g + 1)]
      by_cases hcond : g ≤ li ∧ li < g + (n + 1)
      · rw [if_pos (by omega), if_pos hcond]
        have : tIdx + 1 + (li - (g + 1)) = tIdx + (li - g) := by omega
        rw [this]
      · rw [if_neg (by omega), if_neg hcond]
        have : g + 1 + n = g + (n + 1) := by omega
        rw [this]

theorem taskScanCols_hit :
    ∀ (cols : List Column) (c : Nat) (col : Column) (t cIdx g : Nat),
      cols.get? c = some col → t < col.tasks.length →
      taskScanCols cols cIdx g (g + sumLen (cols.take c) + t) = some (cIdx + c, t) := by
  intro cols
  induction cols with
  | nil => intro c col t cIdx g hget; cases hget
  | cons c0 rest ih =>
    intro c col t cIdx g hget ht
    cases c with
    | zero =>
      simp only [List.get?] at hget
      cases hget
      simp only [taskScanCols]
      rw [taskScanTasks_spec]
      have hsum : sumLen ((c0 :: rest).take 0) = 0 := rfl
      rw [hsum]
      rw [if_pos (by omega)]
      have : 0 + (g + 0 + t - g) = t := by omega
      simp [this]
    | succ c' =>
      simp only [List.get?] at hget
      simp only [taskScanCols]
      rw [taskScanTasks_spec]
      have hsum : sumLen ((c0 :: rest).take (c' + 1))
          = c0.tasks.length + sumLen (rest.take c') := by
        simp [sumLen, List.take]
      rw [hsum]
      rw [if_neg (by omega)]
      dsimp only
      have harg : g + (c0.tasks.length + sumLen (rest.take c')) + t
          = (g + c0.tasks.length) + sumLen (rest.take c') + t := by omega
      rw [harg, ih c' col t (cIdx + 1) (g + c0.tasks.length) hget ht]
      have : cIdx + 1 + c' = cIdx + (c' + 1) := by omega
      rw [this]

theorem posOf_get? :
    ∀ (l : List Char) (n : Nat) (c : Char), l.get? n = some c → l.Nodup →
      posOf c l = some n := by
  intro l
  induction l with
  | nil => intro n c hget; cases hget
  | cons a rest ih =>
    intro n c hget hnd
    rcases List.nodup_cons.mp hnd with ⟨hna, hnd'⟩
    cases n with
    | zero =>
      simp only [List.get?] at hget
      cases hget
      simp [posOf]
    | succ n' =>
      simp only [List.get?] at hget
      have hmem : c ∈ rest := List.get?_mem hget
      have hne : ¬a = c := fun hac => hna (hac ▸ hmem)
      simp only [posOf, if_neg hne, ih n' c hget hnd']
      rfl

theorem nodup_lowerLabels : lowerLabels.Nodup := by decide

theorem nodup_allLabels : (lowerLabels ++ upperLabels).Nodup := by decide

end Kantui

namespace Kantui

open Kantui.Models Kantui.Input

theorem nodup_getJumpLabels (app : App) : (getJumpLabels app).Nodup := by
  unfold getJumpLabels
  dsimp only
  split
  · exact nodup_allLabels
  · exact nodup_lowerLabels

/-- Claim C6: `get_jump_labels` returns the 24 unambiguous lowercase letters
when the total task count is at most 24 and appends the 26 uppercase letters
when it exceeds 24; on the 30-task board the task at global column-major
index 24 gets the label `A`; and whenever `get_jump_label_for_task` assigns
a label to a position, `get_task_by_jump_label` maps that label back to the
same `(column, task)` position. -/
theorem C6_jump_labels :
    (∀ app : App, totalTaskCount app ≤ 24 → getJumpLabels app = lowerLabels) ∧
    (∀ app : App, 24 < totalTaskCount app →
      getJumpLabels app = lowerLabels ++ upperLabels) ∧
    getJumpLabelForTask app30 0 24 = some 'A' ∧
    (∀ (app : App) (c t : Nat) (ch : Char),
      getJumpLabelForTask app c t = some ch →
      getTaskByJumpLabel app ch = some (c, t)) := by
  refine ⟨?_, ?_, ?_, ?_⟩
  · intro app h
    unfold getJumpLabels
    dsimp only
    have hlen : lowerLabels.length = 24 := rfl
    rw [if_neg (by omega)]
  · intro app h
    unfold getJumpLabels
    dsimp only
    have hlen : lowerLabels.length = 24 := rfl
    rw [if_pos (by omega)]
  · decide
  · intro app c t ch hlab
    unfold getJumpLabelForTask at hlab
    dsimp only at hlab
    have hscan := labelScanCols_spec app.columns c 0 t 0
    rw [Nat.zero_add] at hscan
    rw [hscan] at hlab
    cases hget : app.columns.get? c with
    | none =>
      rw [hget] at hlab
      dsimp only at hlab
      cases hlab
    | some col =>
      rw [hget] at hlab
      dsimp only at hlab
      by_cases ht : t < col.tasks.length
      · rw [if_pos ht] at hlab
        dsimp only at hlab
        by_cases hg : 0 + sumLen (app.columns.take c) + t
            < (getJumpLabels app).length
        · rw [if_pos hg] at hlab
          unfold getTaskByJumpLabel
          dsimp only
          rw [posOf_get? _ _ _ hlab (nodup_getJumpLabels app)]
          dsimp only
          simpa using taskScanCols_hit app.columns c col t 0 0 hget ht
        · rw [if_neg hg] at hlab
          cases hlab
      · rw [if_neg ht] at hlab
        dsimp only at hlab
        cases hlab

theorem C6_jump_labels_witness :
    getJumpLabels app30 = lowerLabels ++ upperLabels ∧
    getTaskByJumpLabel app30 'A' = some (0, 24) :=
  ⟨C6_jump_labels.2.1 app30 (by decide),
   C6_jump_labels.2.2.2 app30 0 24 'A' C6_jump_labels.2.2.1⟩

end Kantui

namespace Kantui

/-! ## Toolkit for the round-trip proof: whitespace, trimming, splitting -/

theorem ne_true_of_eq_false {b : Bool} (h : b = false) : ¬(b = true) := by
  simp [h]

theorem dropWhile_all {p : Char → Bool} {w : Str} (h : ∀ c ∈ w, p c = true) :
    w.dropWhile p = [] := by
  induction w with
  | nil => rfl
  | cons a r ih =>
    rw [List.dropWhile_cons, if_pos (h a (by simp))]
    exact ih (fun c hc => h c (by simp [hc]))

theorem dropWhile_append_all {p : Char → Bool} :
    ∀ (w v : Str), (∀ c ∈ w, p c = true) → (w ++ v).dropWhile p = v.dropWhile p := by
  intro w
  induction w with
  | nil => intro v _; rfl
  | cons a r ih =>
    intro v h
    rw [List.cons_append, List.dropWhile_cons, if_pos (h a (by simp))]
    exact ih v (fun c hc => h c (by simp [hc]))

theorem dropWhile_append_cases {p : Char → Bool} :
    ∀ (u v : Str), (u ++ v).dropWhile p
      = if u.dropWhile p = [] then v.dropWhile p else u.dropWhile p ++ v := by
  intro u v
  induction u with
  | nil => simp
  | cons a r ih =>
    rw [List.cons_append, List.dropWhile_cons, List.dropWhile_cons]
    by_cases ha : p a = true
    · rw [if_pos ha, if_pos ha]
      exact ih
    · rw [if_neg ha, if_neg ha, if_neg (List.cons_ne_nil a r)]
      rfl

theorem dropWhile_head_false {p : Char → Bool} :
    ∀ (l : Str) (a : Char) (t : Str), l.dropWhile p = a :: t → p a = false := by
  intro l
  induction l with
  | nil => intro a t h; cases h
  | cons x r ih =>
    intro a t h
    rw [List.dropWhile_cons] at h
    by_cases hx : p x = true
    · rw [if_pos hx] at h
      exact ih a t h
    · rw [if_neg hx] at h
      cases h
      simpa using hx

theorem trimRight_append_ws (u w : Str) (h : ∀ c ∈ w, isWs c = true) :
    trimRight (u ++ w) = trimRight u := by
  unfold trimRight
  rw [List.reverse_append,
    dropWhile_append_all _ _ (fun c hc => h c (List.mem_reverse.mp hc))]

theorem trimLeft_cons_nonws (a : Char) (s : Str) (h : isWs a = false) :
    trimLeft (a :: s) = a :: s := by
  unfold trimLeft
  rw [List.dropWhile_cons, if_neg (ne_true_of_eq_false h)]

theorem trimLeft_cons_ws (a : Char) (s : Str) (h : isWs a = true) :
    trimLeft (a :: s) = trimLeft s := by
  unfold trimLeft
  rw [List.dropWhile_cons, if_pos h]

theorem trim_cons_ws (a : Char) (s : Str) (h : isWs a = true) :
    trim (a :: s) = trim s := by
  unfold trim
  rw [trimLeft_cons_ws a s h]

theorem trimRight_decomp (s : Str) :
    ∃ w, s = trimRight s ++ w ∧ ∀ c ∈ w, isWs c = true := by
  refine ⟨(s.reverse.takeWhile isWs).reverse, ?_, ?_⟩
  · have h := @List.takeWhile_append_dropWhile _ isWs s.reverse
    calc s = s.reverse.reverse := (List.reverse_reverse s).symm
    _ = (s.reverse.takeWhile isWs ++ s.reverse.dropWhile isWs).reverse := by rw [h]
    _ = trimRight s ++ (s.reverse.takeWhile isWs).reverse := by
        rw [List.reverse_append]
        rfl
  · intro c hc
    exact List.mem_takeWhile_imp (List.mem_reverse.mp hc)

theorem trimRight_concat_nonws (x : Str) (b : Char) (h : isWs b = false) :
    trimRight (x ++ [b]) = x ++ [b] := by
  unfold trimRight
  rw [List.reverse_append]
  show ((b :: x.reverse).dropWhile isWs).reverse = _
  rw [List.dropWhile_cons, if_neg (ne_true_of_eq_false h)]
  simp

theorem trimRight_ends (y : Str) (h : trimRight y ≠ []) :
    ∃ z b, trimRight y = z ++ [b] ∧ isWs b = false := by
  unfold trimRight at h ⊢
  cases hd : y.reverse.dropWhile isWs with
  | nil => rw [hd] at h; simp at h
  | cons a t =>
    refine ⟨t.reverse, a, by simp, ?_⟩
    exact dropWhile_head_false y.reverse a t hd

theorem trimRight_append_after_nonws (x : Str) (b : Char) (y : Str)
    (h : isWs b = false) :
    trimRight ((x ++ [b]) ++ y) = (x ++ [b]) ++ trimRight y := by
  obtain ⟨w, hy, hw⟩ := trimRight_decomp y
  by_cases hz : trimRight y = []
  · conv_lhs => rw [hy, hz]
    rw [hz, List.append_nil, List.nil_append]
    rw [trimRight_append_ws _ _ hw]
    exact trimRight_concat_nonws x b h
  · obtain ⟨z, b', hzb, hb'⟩ := trimRight_ends y hz
    conv_lhs => rw [hy, hzb]
    rw [show (x ++ [b]) ++ ((z ++ [b']) ++ w) = ((x ++ [b]) ++ (z ++ [b'])) ++ w by
      simp [List.append_assoc]]
    rw [trimRight_append_ws _ _ hw]
    rw [show (x ++ [b]) ++ (z ++ [b']) = ((x ++ [b]) ++ z) ++ [b'] by
      simp [List.append_assoc]]
    rw [trimRight_concat_nonws _ _ hb']
    rw [hzb]
    simp [List.append_assoc]

theorem trim_append_ws (u w : Str) (h : ∀ c ∈ w, isWs c = true) :
    trim (u ++ w) = trim u := by
  unfold trim trimLeft
  rw [dropWhile_append_cases]
  by_cases hu : u.dropWhile isWs = []
  · rw [if_pos hu, hu, dropWhile_all h]
  · rw [if_neg hu]
    exact trimRight_append_ws _ _ h

theorem trim_trimRight (z : Str) : trim (trimRight z) = trim z := by
  obtain ⟨w, hz, hw⟩ := trimRight_decomp z
  conv_rhs => rw [hz]
  rw [trim_append_ws _ _ hw]

theorem length_dropWhile_le {p : Char → Bool} :
    ∀ (l : Str), (l.dropWhile p).length ≤ l.length := by
  intro l
  induction l with
  | nil => exact Nat.le_refl 0
  | cons a r ih =>
    rw [List.dropWhile_cons]
    by_cases ha : p a = true
    · rw [if_pos ha]
      exact Nat.le_succ_of_le ih
    · rw [if_neg ha]

theorem trimLeft_length_le (x : Str) : (trimLeft x).length ≤ x.length :=
  length_dropWhile_le x

theorem trimRight_length_le (x : Str) : (trimRight x).length ≤ x.length := by
  unfold trimRight
  rw [List.length_reverse]
  calc (x.reverse.dropWhile isWs).length ≤ x.reverse.length :=
    length_dropWhile_le x.reverse
  _ = x.length := List.length_reverse x

theorem dropWhile_eq_self_of_length {p : Char → Bool} {l : Str}
    (h : (l.dropWhile p).length = l.length) : l.dropWhile p = l := by
  have ht := @List.takeWhile_append_dropWhile _ p l
  have hlen : (l.takeWhile p).length + (l.dropWhile p).length = l.length := by
    rw [← List.length_append, ht]
  have h0 : l.takeWhile p = [] := List.length_eq_zero.mp (by omega)
  calc l.dropWhile p = l.takeWhile p ++ l.dropWhile p := by rw [h0]; rfl
  _ = l := ht

theorem trim_eq_parts {s : Str} (h : trim s = s) :
    trimLeft s = s ∧ trimRight s = s := by
  have hL : trimLeft s = s := by
    have h2 : (trim s).length ≤ (trimLeft s).length := trimRight_length_le _
    rw [h] at h2
    exact dropWhile_eq_self_of_length
      (Nat.le_antisymm (trimLeft_length_le s) h2)
  refine ⟨hL, ?_⟩
  have h3 : trim s = trimRight s := by
    unfold trim
    rw [hL]
  rw [← h3, h]

theorem exists_concat_nonws {s : Str} (h : trimRight s = s) (hne : s ≠ []) :
    ∃ z b, s = z ++ [b] ∧ isWs b = false := by
  rcases s.eq_nil_or_concat with h0 | ⟨z, b, hzb⟩
  · exact absurd h0 hne
  rw [List.concat_eq_append] at hzb
  refine ⟨z, b, hzb, ?_⟩
  by_contra hb
  have hb' : isWs b = true := by simpa using hb
  have heq : trimRight s = trimRight z := by
    conv_lhs => rw [hzb]
    exact trimRight_append_ws z [b] (by intro c hc; simp at hc; subst hc; exact hb')
  rw [h, hzb] at heq
  have h1 := congrArg List.length heq
  have h2 := trimRight_length_le z
  simp at h1
  omega

theorem head_nonws {a : Char} {r : Str} (h : trimLeft (a :: r) = a :: r) :
    isWs a = false := by
  by_contra hb
  have hb' : isWs a = true := by simpa using hb
  have heq : trimLeft (a :: r) = trimLeft r := trimLeft_cons_ws a r hb'
  rw [h] at heq
  have h1 := congrArg List.length heq
  have h2 := trimLeft_length_le r
  simp at h1
  omega

theorem trim_eq_self_of_ends {a : Char} {mid : Str} {b : Char}
    (ha : isWs a = false) (hb : isWs b = false) :
    trim (a :: (mid ++ [b])) = a :: (mid ++ [b]) := by
  unfold trim
  rw [trimLeft_cons_nonws _ _ ha]
  rw [show a :: (mid ++ [b]) = (a :: mid) ++ [b] from rfl]
  exact trimRight_concat_nonws _ _ hb

theorem seg_part_shape (a : Char) (ha : isWs a = false) (mid : Str) (b : Char)
    (hb : isWs b = false) (content : Str) :
    trim ((a :: (mid ++ [b])) ++ content)
      = (a :: (mid ++ [b])) ++ trimRight content := by
  unfold trim
  rw [List.cons_append, trimLeft_cons_nonws _ _ ha]
  rw [show a :: ((mid ++ [b]) ++ content) = ((a :: mid) ++ [b]) ++ content by simp]
  rw [trimRight_append_after_nonws _ _ _ hb]
  simp

theorem splitOnChar_cons (sep a : Char) (rest : Str) :
    splitOnChar sep (a :: rest)
      = if a = sep then [] :: splitOnChar sep rest
        else match splitOnChar sep rest with
          | h :: t => (a :: h) :: t
          | [] => [[a]] := rfl

theorem splitOnChar_ne_nil (sep : Char) : ∀ s, splitOnChar sep s ≠ [] := by
  intro s
  cases s with
  | nil => exact List.cons_ne_nil _ _
  | cons a rest =>
    rw [splitOnChar_cons]
    by_cases ha : a = sep
    · rw [if_pos ha]
      exact List.cons_ne_nil _ _
    · rw [if_neg ha]
      cases splitOnChar sep rest with
      | nil => exact List.cons_ne_nil _ _
      | cons h t => exact List.cons_ne_nil _ _

theorem splitOnChar_noSep {sep : Char} :
    ∀ {s : Str}, (∀ a ∈ s, a ≠ sep) → splitOnChar sep s = [s] := by
  intro s
  induction s with
  | nil => intro _; rfl
  | cons a r ih =>
    intro h
    rw [splitOnChar_cons, if_neg (h a (by simp))]
    rw [ih (fun c hc => h c (by simp [hc]))]

theorem splitOnChar_append_sep {sep : Char} :
    ∀ (x y : Str), (∀ a ∈ x, a ≠ sep) →
      splitOnChar sep (x ++ sep :: y) = x :: splitOnChar sep y := by
  intro x
  induction x with
  | nil =>
    intro y _
    show splitOnChar sep (sep :: y) = [] :: splitOnChar sep y
    rw [splitOnChar_cons, if_pos rfl]
  | cons a x' ih =>
    intro y h
    show splitOnChar sep (a :: (x' ++ sep :: y)) = (a :: x') :: splitOnChar sep y
    rw [splitOnChar_cons, if_neg (h a (by simp))]
    rw [ih y (fun c hc => h c (by simp [hc]))]

theorem splitOnChar_append_last {sep : Char} :
    ∀ (u w : Str), (∀ a ∈ w, a ≠ sep) →
      splitOnChar sep (u ++ w) = appLast w (splitOnChar sep u) := by
  intro u
  induction u with
  | nil =>
    intro w h
    rw [List.nil_append, splitOnChar_noSep h]
    rfl
  | cons a u' ih =>
    intro w h
    show splitOnChar sep (a :: (u' ++ w)) = appLast w (splitOnChar sep (a :: u'))
    rw [splitOnChar_cons, splitOnChar_cons]
    by_cases ha : a = sep
    · rw [if_pos ha, if_pos ha, ih w h]
      cases hs : splitOnChar sep u' with
      | nil => exact absurd hs (splitOnChar_ne_nil sep u')
      | cons p ps => rfl
    · rw [if_neg ha, if_neg ha, ih w h]
      cases hs : splitOnChar sep u' with
      | nil => exact absurd hs (splitOnChar_ne_nil sep u')
      | cons p ps =>
        cases ps with
        | nil => rfl
        | cons q qs => rfl

theorem appLast_map_trim (w : Str) (h : ∀ c ∈ w, isWs c = true) :
    ∀ (ps : List Str), ps ≠ [] → (appLast w ps).map trim = ps.map trim := by
  intro ps
  induction ps with
  | nil => intro h0; exact absurd rfl h0
  | cons p ps' ih =>
    intro _
    cases ps' with
    | nil =>
      show [trim (p ++ w)] = [trim p]
      rw [trim_append_ws p w h]
    | cons q qs =>
      show trim p :: (appLast w (q :: qs)).map trim = trim p :: (q :: qs).map trim
      rw [ih (List.cons_ne_nil q qs)]

theorem splitTrimRight_eq (sep : Char) (hsep : isWs sep = false) (s : Str) :
    (splitOnChar sep (trimRight s)).map trim = (splitOnChar sep s).map trim := by
  obtain ⟨w, hs, hw⟩ := trimRight_decomp s
  conv_rhs => rw [hs]
  rw [splitOnChar_append_last _ _
    (fun a ha heq => absurd hsep (by rw [← heq]; simp [hw a ha]))]
  rw [appLast_map_trim w hw _ (splitOnChar_ne_nil sep _)]

theorem map_eq_self_of_mem {f : Str → Str} :
    ∀ {l : List Str}, (∀ t ∈ l, f t = t) → l.map f = l := by
  intro l
  induction l with
  | nil => intro _; rfl
  | cons t ts ih =>
    intro h
    rw [List.map_cons, h t (by simp), ih (fun u hu => h u (by simp [hu]))]

theorem isPre_self_append : ∀ (p x : Str), isPre p (p ++ x) = true := by
  intro p
  induction p with
  | nil => intro x; rfl
  | cons c cs ih =>
    intro x
    show (decide (c = c) && isPre cs (cs ++ x)) = true
    rw [ih x]
    simp

end Kantui

namespace Kantui

/-! ## Toolkit for the round-trip proof: digits, numbers, character classes -/

theorem digitChar_toNat {m : Nat} (h : m < 10) : (digitChar m).toNat = 48 + m := by
  interval_cases m <;> decide

theorem isDigitCh_digitChar {m : Nat} (h : m < 10) : isDigitCh (digitChar m) = true := by
  interval_cases m <;> decide

theorem isDigitCh_toNat {c : Char} (h : isDigitCh c = true) :
    48 ≤ c.toNat ∧ c.toNat ≤ 57 := by
  unfold isDigitCh at h
  simp [Bool.and_eq_true, decide_eq_true_eq] at h
  exact h

theorem digit_not_ws {c : Char} (h : isDigitCh c = true) : isWs c = false := by
  obtain ⟨h1, h2⟩ := isDigitCh_toNat h
  have w1 : ¬(c = ' ') := fun he => by rw [he] at h; exact absurd h (by decide)
  have w2 : ¬(c = '\t') := fun he => by rw [he] at h; exact absurd h (by decide)
  have w3 : ¬(c = '\n') := fun he => by rw [he] at h; exact absurd h (by decide)
  have w4 : ¬(c = '\r') := fun he => by rw [he] at h; exact absurd h (by decide)
  unfold isWs
  simp [w1, w2, w3, w4]

theorem digit_ne {c : Char} (h : isDigitCh c = true) {x : Char}
    (hx : x.toNat < 48 ∨ 57 < x.toNat) : c ≠ x := by
  intro he
  subst he
  obtain ⟨h1, h2⟩ := isDigitCh_toNat h
  omega

theorem digitsVal_concat (x : Str) (d : Char) :
    digitsVal (x ++ [d]) = digitsVal x * 10 + (d.toNat - 48) := by
  unfold digitsVal
  rw [List.foldl_append]
  rfl

theorem natReprAux_spec : ∀ (fuel n : Nat), n < fuel →
    natReprAux fuel n ≠ []
      ∧ (∀ c ∈ natReprAux fuel n, isDigitCh c = true)
      ∧ digitsVal (natReprAux fuel n) = n := by
  intro fuel
  induction fuel with
  | zero => intro n h; omega
  | succ f ih =>
    intro n h
    unfold natReprAux
    by_cases h10 : n < 10
    · rw [if_pos h10]
      refine ⟨List.cons_ne_nil _ _, ?_, ?_⟩
      · intro c hc
        simp at hc
        subst hc
        exact isDigitCh_digitChar h10
      · show digitsVal ([] ++ [digitChar n]) = n
        rw [digitsVal_concat, digitChar_toNat h10]
        show 0 * 10 + (48 + n - 48) = n
        omega
    · rw [if_neg h10]
      have hlt : n / 10 < n := Nat.div_lt_self (by omega) (by omega)
      obtain ⟨hne, hdig, hval⟩ := ih (n / 10) (by omega)
      refine ⟨by simp, ?_, ?_⟩
      · intro c hc
        rcases List.mem_append.mp hc with h1 | h2
        · exact hdig c h1
        · simp at h2
          subst h2
          exact isDigitCh_digitChar (Nat.mod_lt n (by omega))
      · rw [digitsVal_concat, hval, digitChar_toNat (Nat.mod_lt n (by omega))]
        have := Nat.div_add_mod n 10
        omega

theorem natRepr_ne_nil (n : Nat) : natRepr n ≠ [] :=
  (natReprAux_spec (n + 1) n (Nat.lt_succ_self n)).1

theorem natRepr_digits (n : Nat) : ∀ c ∈ natRepr n, isDigitCh c = true :=
  (natReprAux_spec (n + 1) n (Nat.lt_succ_self n)).2.1

theorem digitsVal_natRepr (n : Nat) : digitsVal (natRepr n) = n :=
  (natReprAux_spec (n + 1) n (Nat.lt_succ_self n)).2.2

theorem parseDigits_natRepr (n : Nat) : parseDigits (natRepr n) = some n := by
  unfold parseDigits
  rw [if_pos ⟨natRepr_ne_nil n, List.all_eq_true.mpr (natRepr_digits n)⟩]
  rw [digitsVal_natRepr]

theorem natRepr_head (n : Nat) :
    ∃ c r, natRepr n = c :: r ∧ isDigitCh c = true := by
  cases hc : natRepr n with
  | nil => exact absurd hc (natRepr_ne_nil n)
  | cons c r =>
    exact ⟨c, r, rfl, natRepr_digits n c (by rw [hc]; simp)⟩

theorem natRepr_concat (n : Nat) :
    ∃ z b, natRepr n = z ++ [b] ∧ isDigitCh b = true := by
  rcases (natRepr n).eq_nil_or_concat with h0 | ⟨z, b, hzb⟩
  · exact absurd h0 (natRepr_ne_nil n)
  rw [List.concat_eq_append] at hzb
  exact ⟨z, b, hzb, natRepr_digits n b (by rw [hzb]; simp)⟩

theorem parseUnsigned_cons_ne (c : Char) (r : Str) (h : ¬ c = '+') :
    parseUnsigned (c :: r) = parseDigits (c :: r) := by
  unfold parseUnsigned
  split
  · rename_i heq
    injection heq with h1 h2
    exact absurd h1 h
  · rfl

theorem parseUnsigned_natRepr (n : Nat) : parseUnsigned (natRepr n) = some n := by
  obtain ⟨c, r, hcr, hc⟩ := natRepr_head n
  rw [hcr, parseUnsigned_cons_ne c r (digit_ne hc (by decide)), ← hcr]
  exact parseDigits_natRepr n

theorem parseUsize_natRepr {n : Nat} (h : n < 2 ^ 64) :
    parseUsize (natRepr n) = some n := by
  unfold parseUsize
  rw [parseUnsigned_natRepr]
  simp [Option.filter]
  omega

theorem parseU8_natRepr {n : Nat} (h : n < 2 ^ 8) :
    parseU8 (natRepr n) = some n := by
  unfold parseU8
  rw [parseUnsigned_natRepr]
  simp [Option.filter]
  omega

theorem trim_eq_self_nonws {s : Str} (hne : s ≠ [])
    (h : ∀ c ∈ s, isWs c = false) : trim s = s := by
  unfold trim
  have hL : trimLeft s = s := by
    cases s with
    | nil => rfl
    | cons a r => exact trimLeft_cons_nonws a r (h a (by simp))
  rw [hL]
  rcases s.eq_nil_or_concat with h0 | ⟨z, b, hzb⟩
  · exact absurd h0 hne
  rw [List.concat_eq_append] at hzb
  rw [hzb]
  exact trimRight_concat_nonws z b (h b (by rw [hzb]; simp))

theorem natRepr_trim (n : Nat) : trim (natRepr n) = natRepr n :=
  trim_eq_self_nonws (natRepr_ne_nil n)
    (fun c hc => digit_not_ws (natRepr_digits n c hc))

theorem pad2_chars (n : Nat) : ∀ c ∈ pad2 n, isDigitCh c = true := by
  unfold pad2
  split
  · intro c hc
    rcases List.mem_cons.mp hc with h1 | h2
    · subst h1; decide
    · exact natRepr_digits n c h2
  · exact natRepr_digits n

theorem pad2_concat (n : Nat) : ∃ z b, pad2 n = z ++ [b] ∧ isDigitCh b = true := by
  unfold pad2
  obtain ⟨z, b, hzb, hb⟩ := natRepr_concat n
  split
  · exact ⟨'0' :: z, b, by rw [hzb]; rfl, hb⟩
  · exact ⟨z, b, hzb, hb⟩

theorem fmtHundredths_chars (n : Nat) :
    ∀ c ∈ fmtHundredths n, isDigitCh c = true ∨ c = '.' := by
  unfold fmtHundredths
  intro c hc
  rcases List.mem_append.mp hc with h1 | h2
  · exact Or.inl (natRepr_digits _ c h1)
  · rcases List.mem_cons.mp h2 with h3 | h4
    · exact Or.inr h3
    · exact Or.inl (pad2_chars _ c h4)

theorem fmtHundredths_concat (n : Nat) :
    ∃ z b, fmtHundredths n = z ++ [b] ∧ isDigitCh b = true := by
  unfold fmtHundredths
  obtain ⟨z, b, hzb, hb⟩ := pad2_concat (n % 100)
  exact ⟨natRepr (n / 100) ++ '.' :: z, b, by rw [hzb]; simp, hb⟩

theorem fmtF2_chars (x : F32) :
    ∀ c ∈ fmtF2 x, isDigitCh c = true ∨ c = '.' ∨ c = '-' := by
  unfold fmtF2
  intro c hc
  dsimp only at hc
  split at hc
  · rcases List.mem_cons.mp hc with h1 | h2
    · exact Or.inr (Or.inr h1)
    · rcases fmtHundredths_chars _ c h2 with h3 | h4
      · exact Or.inl h3
      · exact Or.inr (Or.inl h4)
  · rcases fmtHundredths_chars _ c hc with h3 | h4
    · exact Or.inl h3
    · exact Or.inr (Or.inl h4)

theorem fmtF2_concat (x : F32) :
    ∃ z b, fmtF2 x = z ++ [b] ∧ isDigitCh b = true := by
  unfold fmtF2
  dsimp only
  split
  · obtain ⟨z, b, hzb, hb⟩ := fmtHundredths_concat _
    exact ⟨'-' :: z, b, by rw [hzb]; rfl, hb⟩
  · exact fmtHundredths_concat _

theorem joinComma_chars : ∀ (l : List Str) (c : Char), c ∈ joinComma l →
    c = ',' ∨ ∃ t ∈ l, c ∈ t := by
  intro l
  induction l with
  | nil => intro c hc; cases hc
  | cons t rest ih =>
    intro c hc
    cases rest with
    | nil => exact Or.inr ⟨t, by simp, hc⟩
    | cons r rs =>
      rw [show joinComma (t :: r :: rs) = t ++ ',' :: joinComma (r :: rs) from rfl] at hc
      rcases List.mem_append.mp hc with h1 | h2
      · exact Or.inr ⟨t, by simp, h1⟩
      · rcases List.mem_cons.mp h2 with h3 | h4
        · exact Or.inl h3
        · rcases ih c h4 with h5 | ⟨u, hu, hcu⟩
          · exact Or.inl h5
          · exact Or.inr ⟨u, by simp [hu], hcu⟩

theorem findChar_isSome_of_mem {c : Char} :
    ∀ {s : Str}, c ∈ s → (findChar c s).isSome = true := by
  intro s
  induction s with
  | nil => intro h; cases h
  | cons a r ih =>
    intro h
    unfold findChar
    by_cases ha : a = c
    · rw [if_pos ha]; rfl
    · rw [if_neg ha]
      rcases List.mem_cons.mp h with h1 | h2
      · exact absurd h1.symm ha
      · simp [Option.isSome_map]
        have := ih h2
        simpa [Option.isSome] using this

theorem not_mem_of_hasChar_false {c : Char} {s : Str}
    (h : hasChar c s = false) : ∀ a ∈ s, a ≠ c := by
  intro a ha heq
  subst heq
  unfold hasChar at h
  rw [findChar_isSome_of_mem ha] at h
  cases h

theorem goodStr_spec {s : Str} (h : goodStr s = true) :
    trim s = s ∧ ∀ a ∈ s, a ≠ '|' := by
  unfold goodStr at h
  simp only [Bool.and_eq_true, Bool.not_eq_true', decide_eq_true_eq] at h
  exact ⟨h.1.1, not_mem_of_hasChar_false h.1.2⟩

end Kantui

namespace Kantui

/-! ## Round trip: the task-line segments and the segment loop -/

theorem trimLeft_eq_self_head {s : Str}
    (h : ∀ c, s.head? = some c → isWs c = false) : trimLeft s = s := by
  cases s with
  | nil => rfl
  | cons a r => exact trimLeft_cons_nonws a r (h a rfl)

theorem trimRight_eq_self_last {s : Str}
    (h : ∀ c, s.getLast? = some c → isWs c = false) : trimRight s = s := by
  rcases s.eq_nil_or_concat with h0 | ⟨z, b, hzb⟩
  · subst h0; rfl
  rw [List.concat_eq_append] at hzb
  subst hzb
  exact trimRight_concat_nonws z b (h b (List.getLast?_concat z))

theorem trim_eq_self_hl {s : Str}
    (hh : ∀ c, s.head? = some c → isWs c = false)
    (hl : ∀ c, s.getLast? = some c → isWs c = false) : trim s = s := by
  unfold trim
  rw [trimLeft_eq_self_head hh, trimRight_eq_self_last hl]

theorem trim_append_concatEnd {s y z : Str} {b : Char} (hs : s = y ++ (z ++ [b]))
    (hb : isWs b = false)
    (hh : ∀ c, s.head? = some c → isWs c = false) : trim s = s := by
  apply trim_eq_self_hl hh
  intro c hc
  have h0 : s.getLast? = some b := by
    rw [hs, show y ++ (z ++ [b]) = (y ++ z) ++ [b] by simp]
    exact List.getLast?_concat _
  rw [h0] at hc
  injection hc with hcb
  subst hcb
  exact hb

theorem trim_append_digitEnd {s y : Str} {n : Nat} (hs : s = y ++ natRepr n)
    (hh : ∀ c, s.head? = some c → isWs c = false) : trim s = s := by
  obtain ⟨z, b, hzb, hb⟩ := natRepr_concat n
  rw [hzb] at hs
  exact trim_append_concatEnd hs (digit_not_ws hb) hh

theorem splitTaskSegs :
    ∀ (segs : List Str) (first : Str), (∀ a ∈ first, a ≠ '|') →
      (∀ s ∈ segs, ∀ a ∈ s, a ≠ '|') →
      (splitOnChar '|' (first ++ segs.flatMap (fun s => ' ' :: '|' :: ' ' :: s))).map trim
        = trim first :: segs.map trim := by
  intro segs
  induction segs with
  | nil =>
    intro first h1 _
    rw [List.flatMap_nil, List.append_nil, splitOnChar_noSep h1]
    rfl
  | cons s rest ih =>
    intro first h1 h2
    rw [show first ++ ((s :: rest).flatMap (fun s => ' ' :: '|' :: ' ' :: s))
        = (first ++ [' ']) ++ '|'
            :: ((' ' :: s) ++ rest.flatMap (fun s => ' ' :: '|' :: ' ' :: s)) by
      simp [List.flatMap_cons, List.append_assoc]]
    rw [splitOnChar_append_sep _ _ (fun a ha => by
      rcases List.mem_append.mp ha with hf | hsp
      · exact h1 a hf
      · simp at hsp
        subst hsp
        decide)]
    rw [List.map_cons]
    rw [ih (' ' :: s) (fun a ha => by
      rcases List.mem_cons.mp ha with h3 | h4
      · subst h3; decide
      · exact h2 s (by simp) a h4)
      (fun u hu => h2 u (by simp [hu]))]
    rw [trim_append_ws first [' '] (by intro c hcx; simp at hcx; subst hcx; rfl)]
    rw [trim_cons_ws ' ' s (by decide), List.map_cons]

theorem splitComma_join_core :
    ∀ (tags : List Str), tags ≠ [] → (∀ t ∈ tags, ∀ a ∈ t, a ≠ ',') →
      splitOnChar ',' (joinComma tags) = tags := by
  intro tags
  induction tags with
  | nil => intro h _; exact absurd rfl h
  | cons t rest ih =>
    intro _ hcl
    cases rest with
    | nil =>
      show splitOnChar ',' (joinComma [t]) = [t]
      exact splitOnChar_noSep (hcl t (by simp))
    | cons r rs =>
      rw [show joinComma (t :: r :: rs) = t ++ ',' :: joinComma (r :: rs) from rfl]
      rw [splitOnChar_append_sep _ _ (hcl t (by simp))]
      rw [ih (by simp) (fun u hu => hcl u (by simp [hu]))]

theorem tags_roundTrip (tags : List Str) (hne : tags ≠ [])
    (hg : ∀ t ∈ tags, trim t = t ∧ ∀ a ∈ t, a ≠ ',') :
    (splitOnChar ',' (trim (joinComma tags))).map trim = tags := by
  have hL : trimLeft (joinComma tags) = joinComma tags := by
    cases tags with
    | nil => rfl
    | cons t rest =>
      cases t with
      | nil =>
        cases rest with
        | nil => rfl
        | cons r rs => exact trimLeft_cons_nonws ',' _ (by decide)
      | cons a t' =>
        have ha := head_nonws (trim_eq_parts (hg (a :: t') (by simp)).1).1
        cases rest with
        | nil => exact trimLeft_cons_nonws a t' ha
        | cons r rs => exact trimLeft_cons_nonws a _ ha
  rw [show trim (joinComma tags) = trimRight (joinComma tags) by unfold trim; rw [hL]]
  rw [splitTrimRight_eq ',' (by decide)]
  rw [splitComma_join_core tags hne (fun t ht => (hg t ht).2)]
  exact map_eq_self_of_mem (fun t ht => (hg t ht).1)

theorem segStep_impact (acc : Crud.SegAcc) {i : Nat} (hi : i < 2 ^ 8) :
    Crud.segStep acc (trim (("Impact: ").data ++ natRepr i))
      = { acc with impact := some i } := by
  have ht : trim (("Impact: ").data ++ natRepr i) = ("Impact: ").data ++ natRepr i :=
    trim_append_digitEnd rfl (fun c hc => by
      have h0 : ((("Impact: ").data ++ natRepr i)).head? = some 'I' := rfl
      rw [h0] at hc
      injection hc with h1
      subst h1
      decide)
  rw [ht]
  unfold Crud.segStep
  rw [if_pos (show isPre (("Impact:").data) (("Impact: ").data ++ natRepr i) = true
    from isPre_self_append (("Impact:").data) (' ' :: natRepr i))]
  rw [show ((("Impact: ").data ++ natRepr i).drop 7) = ' ' :: natRepr i from rfl]
  rw [trim_cons_ws _ _ (by decide), natRepr_trim, parseU8_natRepr hi]

theorem segStep_urgency (acc : Crud.SegAcc) {u : Nat} (hu : u < 2 ^ 8) :
    Crud.segStep acc (trim (("Urgency: ").data ++ natRepr u))
      = { acc with urgency := some u } := by
  have ht : trim (("Urgency: ").data ++ natRepr u) = ("Urgency: ").data ++ natRepr u :=
    trim_append_digitEnd rfl (fun c hc => by
      have h0 : ((("Urgency: ").data ++ natRepr u)).head? = some 'U' := rfl
      rw [h0] at hc
      injection hc with h1
      subst h1
      decide)
  rw [ht]
  unfold Crud.segStep
  have c1 : isPre (("Impact:").data) (("Urgency: ").data ++ natRepr u) = false := rfl
  rw [if_neg (ne_true_of_eq_false c1)]
  rw [if_pos (show isPre (("Urgency:").data) (("Urgency: ").data ++ natRepr u) = true
    from isPre_self_append (("Urgency:").data) (' ' :: natRepr u))]
  rw [show ((("Urgency: ").data ++ natRepr u).drop 8) = ' ' :: natRepr u from rfl]
  rw [trim_cons_ws _ _ (by decide), natRepr_trim, parseU8_natRepr hu]

theorem segStep_effort (acc : Crud.SegAcc) {e : Nat} (he : e < 2 ^ 8) :
    Crud.segStep acc (trim (("Effort: ").data ++ natRepr e))
      = { acc with effort := some e } := by
  have ht : trim (("Effort: ").data ++ natRepr e) = ("Effort: ").data ++ natRepr e :=
    trim_append_digitEnd rfl (fun c hc => by
      have h0 : ((("Effort: ").data ++ natRepr e)).head? = some 'E' := rfl
      rw [h0] at hc
      injection hc with h1
      subst h1
      decide)
  rw [ht]
  unfold Crud.segStep
  have c1 : isPre (("Impact:").data) (("Effort: ").data ++ natRepr e) = false := rfl
  have c2 : isPre (("Urgency:").data) (("Effort: ").data ++ natRepr e) = false := rfl
  rw [if_neg (ne_true_of_eq_false c1), if_neg (ne_true_of_eq_false c2)]
  rw [if_pos (show isPre (("Effort:").data) (("Effort: ").data ++ natRepr e) = true
    from isPre_self_append (("Effort:").data) (' ' :: natRepr e))]
  rw [show ((("Effort: ").data ++ natRepr e).drop 7) = ' ' :: natRepr e from rfl]
  rw [trim_cons_ws _ _ (by decide), natRepr_trim, parseU8_natRepr he]

theorem segStep_computed (acc : Crud.SegAcc) (f : F32) :
    Crud.segStep acc (trim (("Computed: ").data ++ fmtF2 f)) = acc := by
  obtain ⟨z, b, hzb, hb⟩ := fmtF2_concat f
  have ht : trim (("Computed: ").data ++ fmtF2 f) = ("Computed: ").data ++ fmtF2 f :=
    trim_append_concatEnd (by rw [hzb]) (digit_not_ws hb) (fun c hc => by
      have h0 : ((("Computed: ").data ++ fmtF2 f)).head? = some 'C' := rfl
      rw [h0] at hc
      injection hc with h1
      subst h1
      decide)
  rw [ht]
  unfold Crud.segStep
  have c1 : isPre (("Impact:").data) (("Computed: ").data ++ fmtF2 f) = false := rfl
  have c2 : isPre (("Urgency:").data) (("Computed: ").data ++ fmtF2 f) = false := rfl
  have c3 : isPre (("Effort:").data) (("Computed: ").data ++ fmtF2 f) = false := rfl
  have c4 : isPre (("Tags:").data) (("Computed: ").data ++ fmtF2 f) = false := rfl
  have c5 : isPre (("Created:").data) (("Computed: ").data ++ fmtF2 f) = false := rfl
  rw [if_neg (ne_true_of_eq_false c1), if_neg (ne_true_of_eq_false c2),
    if_neg (ne_true_of_eq_false c3), if_neg (ne_true_of_eq_false c4),
    if_neg (ne_true_of_eq_false c5)]

theorem segStep_tags (acc : Crud.SegAcc) {tags : List Str} (hne : tags ≠ [])
    (hg : ∀ t ∈ tags, trim t = t ∧ ∀ a ∈ t, a ≠ ',') :
    Crud.segStep acc (trim (("Tags: ").data ++ joinComma tags))
      = { acc with tags := tags } := by
  have hshape : trim (("Tags: ").data ++ joinComma tags)
      = ("Tags:").data ++ trimRight (' ' :: joinComma tags) :=
    seg_part_shape 'T' (by decide) (("ags").data) ':' (by decide)
      (' ' :: joinComma tags)
  rw [hshape]
  unfold Crud.segStep
  have c1 : isPre (("Impact:").data)
    (("Tags:").data ++ trimRight (' ' :: joinComma tags)) = false := rfl
  have c2 : isPre (("Urgency:").data)
    (("Tags:").data ++ trimRight (' ' :: joinComma tags)) = false := rfl
  have c3 : isPre (("Effort:").data)
    (("Tags:").data ++ trimRight (' ' :: joinComma tags)) = false := rfl
  rw [if_neg (ne_true_of_eq_false c1), if_neg (ne_true_of_eq_false c2),
    if_neg (ne_true_of_eq_false c3)]
  rw [if_pos (isPre_self_append (("Tags:").data) _)]
  rw [show ((("Tags:").data ++ trimRight (' ' :: joinComma tags)).drop 5)
      = trimRight (' ' :: joinComma tags) from rfl]
  rw [trim_trimRight, trim_cons_ws _ _ (by decide)]
  rw [tags_roundTrip tags hne hg]

theorem segStep_created (acc : Crud.SegAcc) {c : Str} (hc : trim c = c) :
    Crud.segStep acc (trim (("Created: ").data ++ c))
      = { acc with created := some c } := by
  have hshape : trim (("Created: ").data ++ c)
      = ("Created:").data ++ trimRight (' ' :: c) :=
    seg_part_shape 'C' (by decide) (("reated").data) ':' (by decide) (' ' :: c)
  rw [hshape]
  unfold Crud.segStep
  have c1 : isPre (("Impact:").data) (("Created:").data ++ trimRight (' ' :: c)) = false := rfl
  have c2 : isPre (("Urgency:").data) (("Created:").data ++ trimRight (' ' :: c)) = false := rfl
  have c3 : isPre (("Effort:").data) (("Created:").data ++ trimRight (' ' :: c)) = false := rfl
  have c4 : isPre (("Tags:").data) (("Created:").data ++ trimRight (' ' :: c)) = false := rfl
  rw [if_neg (ne_true_of_eq_false c1), if_neg (ne_true_of_eq_false c2),
    if_neg (ne_true_of_eq_false c3), if_neg (ne_true_of_eq_false c4)]
  rw [if_pos (isPre_self_append (("Created:").data) _)]
  rw [show ((("Created:").data ++ trimRight (' ' :: c)).drop 8)
      = trimRight (' ' :: c) from rfl]
  rw [trim_trimRight, trim_cons_ws _ _ (by decide), hc]

end Kantui

namespace Kantui

/-! ## Round trip: the first part of a task line -/

theorem findSub_cons_neg (pat : Str) (c : Char) (s : Str)
    (h : isPre pat (c :: s) = false) :
    findSub pat (c :: s) = (findSub pat s).map (· + 1) := by
  show (if isPre pat (c :: s) then some 0 else (findSub pat s).map (· + 1)) = _
  rw [if_neg (ne_true_of_eq_false h)]

theorem findSub_cons_pos (pat : Str) (c : Char) (s : Str)
    (h : isPre pat (c :: s) = true) :
    findSub pat (c :: s) = some 0 := by
  show (if isPre pat (c :: s) then some 0 else (findSub pat s).map (· + 1)) = _
  rw [if_pos h]

theorem findChar_append_first (x : Char) :
    ∀ (a : Str), (∀ c ∈ a, c ≠ x) → ∀ (b : Str),
      findChar x (a ++ x :: b) = some a.length := by
  intro a
  induction a with
  | nil =>
    intro _ b
    show (if x = x then some 0 else (findChar x b).map (· + 1)) = some 0
    rw [if_pos rfl]
  | cons c a' ih =>
    intro h b
    show (if c = x then some 0 else (findChar x (a' ++ x :: b)).map (· + 1))
      = some ((c :: a').length)
    rw [if_neg (h c (by simp)), ih (fun u hu => h u (by simp [hu])) b]
    rfl

theorem slice_mid (pre mid post : Str) :
    slice pre.length (pre.length + mid.length) (pre ++ mid ++ post) = some mid := by
  unfold slice
  rw [if_pos ⟨Nat.le_add_right _ _, by simp [List.length_append]⟩]
  congr 1
  rw [Nat.add_sub_cancel_left]
  rw [show pre ++ mid ++ post = pre ++ (mid ++ post) by simp]
  rw [List.drop_left]
  exact List.take_left mid post

theorem sliceFrom_after (A : Str) (c : Char) (tail : Str) :
    sliceFrom (A.length + 1) (A ++ c :: tail) = some tail := by
  unfold sliceFrom
  rw [if_pos (by simp [List.length_append])]
  congr 1
  rw [show A ++ c :: tail = (A ++ [c]) ++ tail by simp]
  rw [show A.length + 1 = (A ++ [c]).length by simp]
  exact List.drop_left _ _

theorem trim_taskHead_eq (idn : Nat) {title : Str} (ht : trim title = title) :
    trim (("* [ID:").data ++ natRepr idn ++ ("] ").data ++ title)
      = (("* [ID:").data ++ natRepr idn)
          ++ (']' :: (if title = [] then [] else ' ' :: title)) := by
  by_cases h0 : title = []
  · subst h0
    rw [if_pos rfl]
    rw [show ("* [ID:").data ++ natRepr idn ++ ("] ").data ++ ([] : Str)
        = (("* [ID:").data ++ natRepr idn ++ [']']) ++ [' '] by simp]
    rw [trim_append_ws _ [' '] (by intro c hcx; simp at hcx; subst hcx; rfl)]
    exact @trim_append_concatEnd (("* [ID:").data ++ natRepr idn ++ [']'])
      (("* [ID:").data ++ natRepr idn) [] ']' rfl (by decide) (fun c hc => by
        have hh0 : ((("* [ID:").data ++ natRepr idn ++ [']'])).head? = some '*' := rfl
        rw [hh0] at hc
        injection hc with h1
        subst h1
        decide)
  · rw [if_neg h0]
    obtain ⟨hL, hR⟩ := trim_eq_parts ht
    obtain ⟨z, b, hzb, hb⟩ := exists_concat_nonws hR h0
    rw [show ("* [ID:").data ++ natRepr idn ++ ("] ").data ++ title
        = (("* [ID:").data ++ natRepr idn) ++ (']' :: ' ' :: title) by simp]
    rw [hzb]
    exact @trim_append_concatEnd
      ((("* [ID:").data ++ natRepr idn) ++ (']' :: ' ' :: (z ++ [b])))
      (("* [ID:").data ++ natRepr idn) (']' :: ' ' :: z) b rfl hb (fun c hc => by
        have hh0 : (((("* [ID:").data ++ natRepr idn)
            ++ (']' :: ' ' :: (z ++ [b])))).head? = some '*' := rfl
        rw [hh0] at hc
        injection hc with h1
        subst h1
        decide)

theorem findSub_self_append (pat y : Str) (hne : pat ≠ []) :
    findSub pat (pat ++ y) = some 0 := by
  cases pat with
  | nil => exact absurd rfl hne
  | cons p ps =>
    show (if isPre (p :: ps) (p :: (ps ++ y)) then some 0
      else (findSub (p :: ps) (ps ++ y)).map (· + 1)) = some 0
    have hcond : isPre (p :: ps) (p :: (ps ++ y)) = true := isPre_self_append (p :: ps) y
    rw [if_pos hcond]

theorem firstPart_findSub (idn : Nat) (rest : Str) :
    findSub (("[ID:").data) ((("* [ID:").data ++ natRepr idn) ++ (']' :: rest))
      = some 2 := by
  show findSub (("[ID:").data)
    ('*' :: ' ' :: ((("[ID:").data) ++ (natRepr idn ++ (']' :: rest)))) = some 2
  have e1 : isPre (("[ID:").data)
    ('*' :: ' ' :: ((("[ID:").data) ++ (natRepr idn ++ (']' :: rest)))) = false := rfl
  have e2 : isPre (("[ID:").data)
    (' ' :: ((("[ID:").data) ++ (natRepr idn ++ (']' :: rest)))) = false := rfl
  rw [findSub_cons_neg _ _ _ e1, findSub_cons_neg _ _ _ e2,
    findSub_self_append _ _ (by decide)]
  rfl

theorem firstPart_noRB (idn : Nat) : ∀ c ∈ ("* [ID:").data ++ natRepr idn, c ≠ ']' := by
  intro c hc
  rcases List.mem_append.mp hc with h1 | h2
  · exact (by decide : ∀ x ∈ ("* [ID:").data, x ≠ ']') c h1
  · exact digit_ne (natRepr_digits _ c h2) (by decide)

theorem firstPart_findChar (idn : Nat) (rest : Str) :
    findChar ']' ((("* [ID:").data ++ natRepr idn) ++ (']' :: rest))
      = some ((("* [ID:").data ++ natRepr idn).length) :=
  findChar_append_first ']' _ (firstPart_noRB idn) rest

theorem firstPart_slice (idn : Nat) (rest : Str) :
    slice (2 + 4) ((("* [ID:").data ++ natRepr idn).length)
      ((("* [ID:").data ++ natRepr idn) ++ (']' :: rest)) = some (natRepr idn) := by
  have h1 := slice_mid (("* [ID:").data) (natRepr idn) (']' :: rest)
  rw [List.length_append]
  exact h1

theorem firstPart_sliceFrom (idn : Nat) (rest : Str) :
    sliceFrom ((("* [ID:").data ++ natRepr idn).length + 1)
      ((("* [ID:").data ++ natRepr idn) ++ (']' :: rest)) = some rest :=
  sliceFrom_after _ ']' rest

theorem taskHead_noBar (t : Crud.Task) (ht : ∀ a ∈ t.title, a ≠ '|') :
    ∀ a ∈ taskHead t, a ≠ '|' := by
  intro a ha
  unfold taskHead at ha
  rcases List.mem_append.mp ha with h1 | h2
  · rcases List.mem_append.mp h1 with h3 | h4
    · rcases List.mem_append.mp h3 with h5 | h6
      · exact (by decide : ∀ x ∈ ("* [ID:").data, x ≠ '|') a h5
      · exact digit_ne (natRepr_digits _ a h6) (by decide)
    · exact (by decide : ∀ x ∈ ("] ").data, x ≠ '|') a h4
  · exact ht a h2

theorem segsOf_noBar (t : Crud.Task)
    (htags : ∀ s ∈ t.tags, ∀ a ∈ s, a ≠ '|')
    (hcr : ∀ c, t.created = some c → ∀ a ∈ c, a ≠ '|') :
    ∀ s ∈ segsOf t, ∀ a ∈ s, a ≠ '|' := by
  intro s hs a ha
  unfold segsOf at hs
  rcases List.mem_append.mp hs with h1 | h2
  · rcases List.mem_append.mp h1 with h3 | h4
    · cases hp : t.priority with
      | none => rw [hp] at h3; cases h3
      | some p =>
        rw [hp] at h3
        rcases List.mem_cons.mp h3 with h5 | h6
        · subst h5
          rcases List.mem_append.mp ha with g1 | g2
          · exact (by decide : ∀ x ∈ ("Impact: ").data, x ≠ '|') a g1
          · exact digit_ne (natRepr_digits _ a g2) (by decide)
        rcases List.mem_cons.mp h6 with h7 | h8
        · subst h7
          rcases List.mem_append.mp ha with g1 | g2
          · exact (by decide : ∀ x ∈ ("Urgency: ").data, x ≠ '|') a g1
          · exact digit_ne (natRepr_digits _ a g2) (by decide)
        rcases List.mem_cons.mp h8 with h9 | h10
        · subst h9
          rcases List.mem_append.mp ha with g1 | g2
          · exact (by decide : ∀ x ∈ ("Effort: ").data, x ≠ '|') a g1
          · exact digit_ne (natRepr_digits _ a g2) (by decide)
        cases hcm : p.computed with
        | none => rw [hcm] at h10; cases h10
        | some f =>
          rw [hcm] at h10
          rcases List.mem_cons.mp h10 with h11 | h12
          · subst h11
            rcases List.mem_append.mp ha with g1 | g2
            · exact (by decide : ∀ x ∈ ("Computed: ").data, x ≠ '|') a g1
            · rcases fmtF2_chars f a g2 with g3 | g4 | g5
              · exact digit_ne g3 (by decide)
              · subst g4; decide
              · subst g5; decide
          · cases h12
    · by_cases htg : t.tags = []
      · rw [if_pos htg] at h4
        cases h4
      · rw [if_neg htg] at h4
        rcases List.mem_cons.mp h4 with h5 | h6
        · subst h5
          rcases List.mem_append.mp ha with g1 | g2
          · exact (by decide : ∀ x ∈ ("Tags: ").data, x ≠ '|') a g1
          · rcases joinComma_chars t.tags a g2 with g3 | ⟨u, hu, hau⟩
            · subst g3; decide
            · exact htags u hu a hau
        · cases h6
  · cases hc : t.created with
    | none => rw [hc] at h2; cases h2
    | some c =>
      rw [hc] at h2
      rcases List.mem_cons.mp h2 with h5 | h6
      · subst h5
        rcases List.mem_append.mp ha with g1 | g2
        · exact (by decide : ∀ x ∈ ("Created: ").data, x ≠ '|') a g1
        · exact hcr c hc a g2
      · cases h6

theorem taskLine_eq (t : Crud.Task) :
    Crud.taskLine t = taskHead t ++ (segsOf t).flatMap (fun s => ' ' :: '|' :: ' ' :: s) := by
  obtain ⟨idn, title, priority, tags, created⟩ := t
  unfold Crud.taskLine taskHead segsOf
  dsimp only
  cases priority with
  | none =>
    cases created with
    | none => by_cases htg : tags = [] <;> simp [htg, List.append_assoc]
    | some c => by_cases htg : tags = [] <;> simp [htg, List.append_assoc]
  | some p =>
    cases hcm : p.computed with
    | none =>
      cases created with
      | none => by_cases htg : tags = [] <;> simp [hcm, htg, List.append_assoc]
      | some c => by_cases htg : tags = [] <;> simp [hcm, htg, List.append_assoc]
    | some f =>
      cases created with
      | none => by_cases htg : tags = [] <;> simp [hcm, htg, List.append_assoc]
      | some c => by_cases htg : tags = [] <;> simp [hcm, htg, List.append_assoc]

end Kantui

namespace Kantui

/-! ## Round trip: parsing a saved task line recovers the task -/

theorem goodTask_parts {t : Crud.Task} (h : goodTask t = true) :
    goodStr t.title = true
      ∧ (∀ s ∈ t.tags, goodStr s = true ∧ hasChar ',' s = false)
      ∧ (∀ c, t.created = some c → goodStr c = true)
      ∧ t.id < 2 ^ 64
      ∧ (∀ p, t.priority = some p →
          p.impact < 2 ^ 8 ∧ p.urgency < 2 ^ 8 ∧ p.effort < 2 ^ 8) := by
  unfold goodTask at h
  simp only [Bool.and_eq_true, Bool.not_eq_true', List.all_eq_true,
    decide_eq_true_eq] at h
  obtain ⟨⟨⟨⟨h1, h2⟩, h3⟩, h4⟩, h5⟩ := h
  refine ⟨h1, ?_, ?_, h4, ?_⟩
  · intro s hs
    exact h2 s hs
  · intro c hceq
    rw [hceq] at h3
    exact h3
  · intro p hpeq
    rw [hpeq] at h5
    simp only [Bool.and_eq_true, decide_eq_true_eq] at h5
    exact ⟨h5.1.1, h5.1.2, h5.2⟩

theorem foldSegs (idn : Nat) (title : Str) (priority : Option Crud.Priority)
    (tags : List Str) (created : Option Str)
    (hprio : ∀ p, priority = some p →
      p.impact < 2 ^ 8 ∧ p.urgency < 2 ^ 8 ∧ p.effort < 2 ^ 8)
    (htags : ∀ s ∈ tags, trim s = s ∧ ∀ a ∈ s, a ≠ ',')
    (hcr : ∀ c, created = some c → trim c = c) :
    List.foldl Crud.segStep ⟨none, none, none, [], none⟩
      ((segsOf ⟨idn, title, priority, tags, created⟩).map trim)
      = ⟨priority.map (fun p => p.impact), priority.map (fun p => p.urgency),
          priority.map (fun p => p.effort), tags, created⟩ := by
  cases priority with
  | none =>
    cases created with
    | none =>
      by_cases htg : tags = []
      · subst htg
        rfl
      · have hsegs : segsOf ⟨idn, title, none, tags, none⟩
            = [("Tags: ").data ++ joinComma tags] := by
          simp [segsOf, htg]
        rw [hsegs, List.map_cons, List.map_nil, List.foldl_cons,
          segStep_tags _ htg htags, List.foldl_nil]
        rfl
    | some c =>
      by_cases htg : tags = []
      · subst htg
        have hsegs : segsOf ⟨idn, title, none, [], some c⟩
            = [("Created: ").data ++ c] := by
          simp [segsOf]
        rw [hsegs, List.map_cons, List.map_nil, List.foldl_cons,
          segStep_created _ (hcr c rfl), List.foldl_nil]
        rfl
      · have hsegs : segsOf ⟨idn, title, none, tags, some c⟩
            = [("Tags: ").data ++ joinComma tags, ("Created: ").data ++ c] := by
          simp [segsOf, htg]
        rw [hsegs, List.map_cons, List.map_cons, List.map_nil, List.foldl_cons,
          segStep_tags _ htg htags, List.foldl_cons,
          segStep_created _ (hcr c rfl), List.foldl_nil]
        rfl
  | some p =>
    obtain ⟨i, u, e⟩ := p
    obtain ⟨hi, hu, he⟩ := hprio ⟨i, u, e⟩ rfl
    cases hcm : Crud.Priority.computed ⟨i, u, e⟩ with
    | none =>
      cases created with
      | none =>
        by_cases htg : tags = []
        · have hsegs : segsOf ⟨idn, title, some ⟨i, u, e⟩, tags, none⟩
              = [("Impact: ").data ++ natRepr i, ("Urgency: ").data ++ natRepr u,
                  ("Effort: ").data ++ natRepr e] := by
            simp [segsOf, hcm, htg]
          rw [hsegs, List.map_cons, List.map_cons, List.map_cons, List.map_nil,
            List.foldl_cons, segStep_impact _ hi, List.foldl_cons,
            segStep_urgency _ hu, List.foldl_cons, segStep_effort _ he,
            List.foldl_nil]
          subst htg
          rfl
        · have hsegs : segsOf ⟨idn, title, some ⟨i, u, e⟩, tags, none⟩
              = [("Impact: ").data ++ natRepr i, ("Urgency: ").data ++ natRepr u,
                  ("Effort: ").data ++ natRepr e,
                  ("Tags: ").data ++ joinComma tags] := by
            simp [segsOf, hcm, htg]
          rw [hsegs, List.map_cons, List.map_cons, List.map_cons, List.map_cons,
            List.map_nil, List.foldl_cons, segStep_impact _ hi, List.foldl_cons,
            segStep_urgency _ hu, List.foldl_cons, segStep_effort _ he,
            List.foldl_cons, segStep_tags _ htg htags, List.foldl_nil]
          rfl
      | some c =>
        by_cases htg : tags = []
        · have hsegs : segsOf ⟨idn, title, some ⟨i, u, e⟩, tags, some c⟩
              = [("Impact: ").data ++ natRepr i, ("Urgency: ").data ++ natRepr u,
                  ("Effort: ").data ++ natRepr e, ("Created: ").data ++ c] := by
            simp [segsOf, hcm, htg]
          rw [hsegs, List.map_cons, List.map_cons, List.map_cons, List.map_cons,
            List.map_nil, List.foldl_cons, segStep_impact _ hi, List.foldl_cons,
            segStep_urgency _ hu, List.foldl_cons, segStep_effort _ he,
            List.foldl_cons, segStep_created _ (hcr c rfl), List.foldl_nil]
          subst htg
          rfl
        · have hsegs : segsOf ⟨idn, title, some ⟨i, u, e⟩, tags, some c⟩
              = [("Impact: ").data ++ natRepr i, ("Urgency: ").data ++ natRepr u,
                  ("Effort: ").data ++ natRepr e,
                  ("Tags: ").data ++ joinComma tags, ("Created: ").data ++ c] := by
            simp [segsOf, hcm, htg]
          rw [hsegs, List.map_cons, List.map_cons, List.map_cons, List.map_cons,
            List.map_cons, List.map_nil, List.foldl_cons, segStep_impact _ hi,
            List.foldl_cons, segStep_urgency _ hu, List.foldl_cons,
            segStep_effort _ he, List.foldl_cons, segStep_tags _ htg htags,
            List.foldl_cons, segStep_created _ (hcr c rfl), List.foldl_nil]
          rfl
    | some f =>
      cases created with
      | none =>
        by_cases htg : tags = []
        · have hsegs : segsOf ⟨idn, title, some ⟨i, u, e⟩, tags, none⟩
              = [("Impact: ").data ++ natRepr i, ("Urgency: ").data ++ natRepr u,
                  ("Effort: ").data ++ natRepr e, ("Computed: ").data ++ fmtF2 f] := by
            simp [segsOf, hcm, htg]
          rw [hsegs, List.map_cons, List.map_cons, List.map_cons, List.map_cons,
            List.map_nil, List.foldl_cons, segStep_impact _ hi, List.foldl_cons,
            segStep_urgency _ hu, List.foldl_cons, segStep_effort _ he,
            List.foldl_cons, segStep_computed _ f, List.foldl_nil]
          subst htg
          rfl
        · have hsegs : segsOf ⟨idn, title, some ⟨i, u, e⟩, tags, none⟩
              = [("Impact: ").data ++ natRepr i, ("Urgency: ").data ++ natRepr u,
                  ("Effort: ").data ++ natRepr e, ("Computed: ").data ++ fmtF2 f,
                  ("Tags: ").data ++ joinComma tags] := by
            simp [segsOf, hcm, htg]
          rw [hsegs, List.map_cons, List.map_cons, List.map_cons, List.map_cons,
            List.map_cons, List.map_nil, List.foldl_cons, segStep_impact _ hi,
            List.foldl_cons, segStep_urgency _ hu, List.foldl_cons,
            segStep_effort _ he, List.foldl_cons, segStep_computed _ f,
            List.foldl_cons, segStep_tags _ htg htags, List.foldl_nil]
          rfl
      | some c =>
        by_cases htg : tags = []
        · have hsegs : segsOf ⟨idn, title, some ⟨i, u, e⟩, tags, some c⟩
              = [("Impact: ").data ++ natRepr i, ("Urgency: ").data ++ natRepr u,
                  ("Effort: ").data ++ natRepr e, ("Computed: ").data ++ fmtF2 f,
                  ("Created: ").data ++ c] := by
            simp [segsOf, hcm, htg]
          rw [hsegs, List.map_cons, List.map_cons, List.map_cons, List.map_cons,
            List.map_cons, List.map_nil, List.foldl_cons, segStep_impact _ hi,
            List.foldl_cons, segStep_urgency _ hu, List.foldl_cons,
            segStep_effort _ he, List.foldl_cons, segStep_computed _ f,
            List.foldl_cons, segStep_created _ (hcr c rfl), List.foldl_nil]
          subst htg
          rfl
        · have hsegs : segsOf ⟨idn, title, some ⟨i, u, e⟩, tags, some c⟩
              = [("Impact: ").data ++ natRepr i, ("Urgency: ").data ++ natRepr u,
                  ("Effort: ").data ++ natRepr e, ("Computed: ").data ++ fmtF2 f,
                  ("Tags: ").data ++ joinComma tags, ("Created: ").data ++ c] := by
            simp [segsOf, hcm, htg]
          rw [hsegs, List.map_cons, List.map_cons, List.map_cons, List.map_cons,
            List.map_cons, List.map_cons, List.map_nil, List.foldl_cons,
            segStep_impact _ hi, List.foldl_cons, segStep_urgency _ hu,
            List.foldl_cons, segStep_effort _ he, List.foldl_cons,
            segStep_computed _ f, List.foldl_cons, segStep_tags _ htg htags,
            List.foldl_cons, segStep_created _ (hcr c rfl), List.foldl_nil]
          rfl

theorem parseTaskLine_taskLine (t : Crud.Task) (h : goodTask t = true) :
    Crud.parseTaskLine (trim (Crud.taskLine t)) = some t := by
  obtain ⟨idn, title, priority, tags, created⟩ := t
  obtain ⟨htitle, htags, hcr, hid, hprio⟩ := goodTask_parts h
  have htitle' := goodStr_spec htitle
  have hL0 : trimLeft (Crud.taskLine ⟨idn, title, priority, tags, created⟩)
      = Crud.taskLine ⟨idn, title, priority, tags, created⟩ :=
    trimLeft_eq_self_head (fun c hc => by
      have h0 : (Crud.taskLine ⟨idn, title, priority, tags, created⟩).head?
          = some '*' := rfl
      rw [h0] at hc
      injection hc with h1
      subst h1
      decide)
  have hparts : (splitOnChar '|'
        (trim (Crud.taskLine ⟨idn, title, priority, tags, created⟩))).map trim
      = trim (taskHead ⟨idn, title, priority, tags, created⟩)
          :: (segsOf ⟨idn, title, priority, tags, created⟩).map trim := by
    rw [show trim (Crud.taskLine ⟨idn, title, priority, tags, created⟩)
        = trimRight (Crud.taskLine ⟨idn, title, priority, tags, created⟩) by
      unfold trim
      rw [hL0]]
    rw [splitTrimRight_eq '|' (by decide)]
    rw [taskLine_eq]
    exact splitTaskSegs _ _ (taskHead_noBar _ htitle'.2)
      (segsOf_noBar _ (fun s hs => (goodStr_spec (htags s hs).1).2)
        (fun c hceq => (goodStr_spec (hcr c hceq)).2))
  have hth : taskHead ⟨idn, title, priority, tags, created⟩
      = ("* [ID:").data ++ natRepr idn ++ ("] ").data ++ title := rfl
  have hfp := trim_taskHead_eq idn htitle'.1
  have htr : trim (if title = [] then [] else ' ' :: title) = title := by
    by_cases h0 : title = []
    · rw [if_pos h0, h0]
      rfl
    · rw [if_neg h0, trim_cons_ws _ _ (by decide), htitle'.1]
  unfold Crud.parseTaskLine
  dsimp only
  rw [hparts]
  simp only [List.headD_cons, List.tail_cons]
  rw [hth, hfp]
  rw [firstPart_findSub idn (if title = [] then [] else ' ' :: title)]
  dsimp only
  rw [firstPart_findChar idn (if title = [] then [] else ' ' :: title)]
  dsimp only
  rw [firstPart_slice idn (if title = [] then [] else ' ' :: title)]
  dsimp only
  rw [parseUsize_natRepr hid]
  rw [firstPart_sliceFrom idn (if title = [] then [] else ' ' :: title)]
  dsimp only
  rw [htr]
  rw [foldSegs idn title priority tags created hprio
    (fun s hs => ⟨(goodStr_spec (htags s hs).1).1,
      not_mem_of_hasChar_false (htags s hs).2⟩)
    (fun c hceq => (goodStr_spec (hcr c hceq)).1)]
  cases priority with
  | none => rfl
  | some p => rfl

end Kantui

namespace Kantui

/-! ## Round trip: the line loop of the loader on a saved file -/

theorem runLines_cons (st : Crud.LoadSt) (l : Str) (ls : List Str) :
    Crud.runLines st (l :: ls)
      = match Crud.processLine st l with
        | none => none
        | some st' => Crud.runLines st' ls := rfl

theorem processLine_blank (st : Crud.LoadSt) : Crud.processLine st [] = some st := rfl

theorem runLines_blank (st : Crud.LoadSt) (rest : List Str) :
    Crud.runLines st ([] :: rest) = Crud.runLines st rest := by
  rw [runLines_cons, processLine_blank]

theorem processLine_header (st : Crud.LoadSt) {name : Str} (hn : trim name = name) :
    Crud.processLine st ((("# TUI Kanban Board: ").data) ++ name)
      = some { st with board := { st.board with name := name } } := by
  have hshape : trim ((("# TUI Kanban Board: ").data) ++ name)
      = (("# TUI Kanban Board:").data) ++ trimRight (' ' :: name) :=
    seg_part_shape '#' (by decide) ((" TUI Kanban Board").data) ':' (by decide)
      (' ' :: name)
  unfold Crud.processLine
  dsimp only
  rw [hshape]
  have hne : ((("# TUI Kanban Board:").data) ++ trimRight (' ' :: name)) ≠ [] :=
    List.cons_ne_nil _ _
  rw [if_neg hne]
  have c1 : isPre (("#").data)
      ((("# TUI Kanban Board:").data) ++ trimRight (' ' :: name)) = true := rfl
  rw [if_pos c1]
  have hfs : findSub (("TUI Kanban Board:").data)
      ((("# TUI Kanban Board:").data) ++ trimRight (' ' :: name)) = some 2 := by
    show findSub (("TUI Kanban Board:").data)
      ('#' :: ' ' :: ((("TUI Kanban Board:").data) ++ trimRight (' ' :: name)))
      = some 2
    have e1 : isPre (("TUI Kanban Board:").data)
      ('#' :: ' ' :: ((("TUI Kanban Board:").data) ++ trimRight (' ' :: name)))
        = false := rfl
    have e2 : isPre (("TUI Kanban Board:").data)
      (' ' :: ((("TUI Kanban Board:").data) ++ trimRight (' ' :: name)))
        = false := rfl
    rw [findSub_cons_neg _ _ _ e1, findSub_cons_neg _ _ _ e2,
      findSub_self_append _ _ (by decide)]
    rfl
  have hcs : containsSub (("TUI Kanban Board:").data)
      ((("# TUI Kanban Board:").data) ++ trimRight (' ' :: name)) = true := by
    unfold containsSub
    rw [hfs]
    rfl
  rw [if_pos hcs, hfs]
  dsimp only
  rw [show (((("# TUI Kanban Board:").data) ++ trimRight (' ' :: name)).drop (2 + 17))
      = trimRight (' ' :: name) from rfl]
  rw [trim_trimRight, trim_cons_ws _ _ (by decide), hn]

theorem processLine_date (st : Crud.LoadSt) {d : Str} (hd : trim d = d) :
    Crud.processLine st ((("Date: ").data) ++ d)
      = some { st with board := { st.board with date := d } } := by
  have hshape : trim ((("Date: ").data) ++ d)
      = (("Date:").data) ++ trimRight (' ' :: d) :=
    seg_part_shape 'D' (by decide) (("ate").data) ':' (by decide) (' ' :: d)
  unfold Crud.processLine
  dsimp only
  rw [hshape]
  have hne : ((("Date:").data) ++ trimRight (' ' :: d)) ≠ [] := List.cons_ne_nil _ _
  rw [if_neg hne]
  have c1 : isPre (("#").data) ((("Date:").data) ++ trimRight (' ' :: d)) = false := rfl
  rw [if_neg (ne_true_of_eq_false c1)]
  have c2 : isPre (("Date:").data) ((("Date:").data) ++ trimRight (' ' :: d)) = true :=
    isPre_self_append _ _
  rw [if_pos c2]
  rw [show (((("Date:").data) ++ trimRight (' ' :: d)).drop 5)
      = trimRight (' ' :: d) from rfl]
  rw [trim_trimRight, trim_cons_ws _ _ (by decide), hd]

theorem processLine_desc (st : Crud.LoadSt) {d : Str} (hd : trim d = d) :
    Crud.processLine st ((("Description: ").data) ++ d)
      = some { st with board := { st.board with description := d } } := by
  have hshape : trim ((("Description: ").data) ++ d)
      = (("Description:").data) ++ trimRight (' ' :: d) :=
    seg_part_shape 'D' (by decide) (("escription").data) ':' (by decide) (' ' :: d)
  unfold Crud.processLine
  dsimp only
  rw [hshape]
  have hne : ((("Description:").data) ++ trimRight (' ' :: d)) ≠ [] :=
    List.cons_ne_nil _ _
  rw [if_neg hne]
  have c1 : isPre (("#").data)
      ((("Description:").data) ++ trimRight (' ' :: d)) = false := rfl
  rw [if_neg (ne_true_of_eq_false c1)]
  have c2 : isPre (("Date:").data)
      ((("Description:").data) ++ trimRight (' ' :: d)) = false := rfl
  rw [if_neg (ne_true_of_eq_false c2)]
  have c3 : isPre (("Description:").data)
      ((("Description:").data) ++ trimRight (' ' :: d)) = true :=
    isPre_self_append _ _
  rw [if_pos c3]
  rw [show (((("Description:").data) ++ trimRight (' ' :: d)).drop 12)
      = trimRight (' ' :: d) from rfl]
  rw [trim_trimRight, trim_cons_ws _ _ (by decide), hd]

theorem processLine_colLine (st : Crud.LoadSt) {name : Str} (hn : trim name = name) :
    Crud.processLine st ((("== ").data) ++ name ++ ((" ==").data))
      = some ⟨flushCur st.board st.current, some ⟨name, []⟩⟩ := by
  have htrim : trim ((("== ").data) ++ name ++ ((" ==").data))
      = (("== ").data) ++ name ++ ((" ==").data) :=
    @trim_append_concatEnd ((("== ").data) ++ name ++ ((" ==").data))
      ((("== ").data) ++ name) ((" =").data) '=' rfl (by decide) (fun c hc => by
        have h0 : (((("== ").data) ++ name ++ ((" ==").data))).head? = some '=' := rfl
        rw [h0] at hc
        injection hc with h1
        subst h1
        decide)
  unfold Crud.processLine
  dsimp only
  rw [htrim]
  have hne : ((("== ").data) ++ name ++ ((" ==").data)) ≠ [] := List.cons_ne_nil _ _
  rw [if_neg hne]
  have c1 : isPre (("#").data) ((("== ").data) ++ name ++ ((" ==").data)) = false := rfl
  rw [if_neg (ne_true_of_eq_false c1)]
  have c2 : isPre (("Date:").data)
      ((("== ").data) ++ name ++ ((" ==").data)) = false := rfl
  rw [if_neg (ne_true_of_eq_false c2)]
  have c3 : isPre (("Description:").data)
      ((("== ").data) ++ name ++ ((" ==").data)) = false := rfl
  rw [if_neg (ne_true_of_eq_false c3)]
  have hpre : isPre (("==").data) ((("== ").data) ++ name ++ ((" ==").data)) = true := rfl
  have hsuf : isSuf (("==").data) ((("== ").data) ++ name ++ ((" ==").data)) = true := by
    unfold isSuf
    rw [show ((("== ").data) ++ name ++ ((" ==").data)).reverse
        = '=' :: '=' :: ' ' :: (name.reverse ++ (' ' :: '=' :: '=' :: [])) by
      simp]
    rfl
  have hcond : (isPre (("==").data) ((("== ").data) ++ name ++ ((" ==").data))
      && isSuf (("==").data) ((("== ").data) ++ name ++ ((" ==").data))) = true := by
    rw [hpre, hsuf]
    rfl
  rw [if_pos hcond]
  have htq : trimEq ((("== ").data) ++ name ++ ((" ==").data))
      = ' ' :: (name ++ [' ']) := by
    unfold trimEq
    rw [show ((("== ").data) ++ name ++ ((" ==").data))
        = '=' :: '=' :: ' ' :: (name ++ ((" ==").data)) from rfl]
    rw [List.dropWhile_cons, if_pos (by decide), List.dropWhile_cons,
      if_pos (by decide), List.dropWhile_cons, if_neg (by decide)]
    rw [show (' ' :: (name ++ ((" ==").data))).reverse
        = '=' :: '=' :: ' ' :: (name.reverse ++ [' ']) by simp]
    rw [List.dropWhile_cons, if_pos (by decide), List.dropWhile_cons,
      if_pos (by decide), List.dropWhile_cons, if_neg (by decide)]
    rw [show (' ' :: (name.reverse ++ [' '])).reverse = ' ' :: (name ++ [' ']) by simp]
  rw [htq]
  rw [trim_cons_ws _ _ (by decide), trim_append_ws name [' ']
    (by intro c hcx; simp at hcx; subst hcx; rfl), hn]
  cases hcur : st.current with
  | none => rfl
  | some col => rfl

theorem trim_taskShape (idn : Nat) (content : Str) :
    trim ((("* [ID:").data ++ natRepr idn ++ [']']) ++ content)
      = (("* [ID:").data ++ natRepr idn ++ [']']) ++ trimRight content := by
  unfold trim
  rw [trimLeft_eq_self_head (fun c hc => by
    have h0 : (((("* [ID:").data ++ natRepr idn ++ [']']) ++ content)).head?
        = some '*' := rfl
    rw [h0] at hc
    injection hc with h1
    subst h1
    decide)]
  exact trimRight_append_after_nonws _ ']' content (by decide)

theorem processLine_task (st : Crud.LoadSt) {col : Crud.Column}
    (hcur : st.current = some col) (t : Crud.Task) (h : goodTask t = true) :
    Crud.processLine st (Crud.taskLine t)
      = some { st with current := some { col with tasks := col.tasks ++ [t] } } := by
  have hshape : trim (Crud.taskLine t)
      = ((("* [ID:").data ++ natRepr t.id ++ [']'])
          ++ trimRight (' ' :: (t.title
              ++ (segsOf t).flatMap (fun s => ' ' :: '|' :: ' ' :: s)))) := by
    rw [taskLine_eq t]
    rw [show taskHead t ++ (segsOf t).flatMap (fun s => ' ' :: '|' :: ' ' :: s)
        = (("* [ID:").data ++ natRepr t.id ++ [']'])
            ++ (' ' :: (t.title
                ++ (segsOf t).flatMap (fun s => ' ' :: '|' :: ' ' :: s))) by
      unfold taskHead
      simp [List.append_assoc]]
    exact trim_taskShape t.id _
  unfold Crud.processLine
  dsimp only
  rw [if_neg (show ¬(trim (Crud.taskLine t) = []) from by
    rw [hshape]
    exact List.cons_ne_nil '*' _)]
  rw [if_neg (ne_true_of_eq_false
    (show isPre (("#").data) (trim (Crud.taskLine t)) = false from by rw [hshape]; rfl))]
  rw [if_neg (ne_true_of_eq_false
    (show isPre (("Date:").data) (trim (Crud.taskLine t)) = false from by
      rw [hshape]; rfl))]
  rw [if_neg (ne_true_of_eq_false
    (show isPre (("Description:").data) (trim (Crud.taskLine t)) = false from by
      rw [hshape]; rfl))]
  rw [if_neg (ne_true_of_eq_false
    (show (isPre (("==").data) (trim (Crud.taskLine t))
        && isSuf (("==").data) (trim (Crud.taskLine t))) = false from by
      rw [hshape]; rfl))]
  rw [if_pos
    (show isPre (("*").data) (trim (Crud.taskLine t)) = true from by rw [hshape]; rfl)]
  rw [parseTaskLine_taskLine t h]
  dsimp only
  rw [hcur]

theorem runLines_tasks (b : Crud.Board) (nm : Str) :
    ∀ (ts : List Crud.Task) (acc : List Crud.Task) (rest : List Str),
      (∀ t ∈ ts, goodTask t = true) →
      Crud.runLines ⟨b, some ⟨nm, acc⟩⟩ (ts.map Crud.taskLine ++ rest)
        = Crud.runLines ⟨b, some ⟨nm, acc ++ ts⟩⟩ rest := by
  intro ts
  induction ts with
  | nil =>
    intro acc rest _
    rw [List.map_nil, List.nil_append, List.append_nil]
  | cons t ts' ih =>
    intro acc rest hg
    rw [List.map_cons, List.cons_append, runLines_cons]
    rw [processLine_task _ rfl t (hg t (by simp))]
    dsimp only
    have hnext := ih (acc ++ [t]) rest (fun u hu => hg u (by simp [hu]))
    rw [show (acc ++ [t]) ++ ts' = acc ++ (t :: ts') by simp] at hnext
    exact hnext

theorem runLines_block (c : Crud.Column) (hgood : goodColumn c = true)
    (b : Crud.Board) (cur : Option Crud.Column) (rest : List Str) :
    Crud.runLines ⟨b, cur⟩ (colBlock c ++ rest)
      = Crud.runLines ⟨flushCur b cur, some c⟩ rest := by
  obtain ⟨nm, ts⟩ := c
  unfold goodColumn at hgood
  simp only [Bool.and_eq_true, List.all_eq_true] at hgood
  obtain ⟨hnm, hts⟩ := hgood
  rw [show colBlock ⟨nm, ts⟩ ++ rest
      = ((("== ").data) ++ nm ++ ((" ==").data))
          :: (ts.map Crud.taskLine ++ ([] :: rest)) by
    unfold colBlock
    simp]
  rw [runLines_cons, processLine_colLine _ (goodStr_spec hnm).1]
  dsimp only
  have h1 := runLines_tasks (flushCur b cur) nm ts [] ([] :: rest) hts
  rw [List.nil_append] at h1
  rw [h1, runLines_blank]

theorem runLines_blocks :
    ∀ (cols : List Crud.Column), (∀ c ∈ cols, goodColumn c = true) →
      ∀ (b : Crud.Board) (cur : Option Crud.Column),
      (Crud.runLines ⟨b, cur⟩ (cols.flatMap colBlock)).map
          (fun st => match st.current with
            | some col => { st.board with columns := st.board.columns ++ [col] }
            | none => st.board)
        = some { flushCur b cur with columns := (flushCur b cur).columns ++ cols } := by
  intro cols
  induction cols with
  | nil =>
    intro _ b cur
    rw [List.flatMap_nil]
    rw [show Crud.runLines ⟨b, cur⟩ [] = some ⟨b, cur⟩ from rfl]
    cases cur with
    | none => simp [flushCur]
    | some col => simp [flushCur]
  | cons c cs ih =>
    intro hg b cur
    rw [show (c :: cs).flatMap colBlock = colBlock c ++ cs.flatMap colBlock from rfl]
    rw [runLines_block c (hg c (by simp)) b cur]
    rw [ih (fun u hu => hg u (by simp [hu])) (flushCur b cur) (some c)]
    rw [show flushCur (flushCur b cur) (some c)
        = { flushCur b cur with columns := (flushCur b cur).columns ++ [c] } from rfl]
    dsimp only
    rw [show ((flushCur b cur).columns ++ [c]) ++ cs
        = (flushCur b cur).columns ++ (c :: cs) by simp]

theorem saveToFile_eq (b : Crud.Board) :
    Crud.Board.saveToFile b
      = ((("# TUI Kanban Board: ").data) ++ b.name)
        :: ((("Date: ").data) ++ b.date)
          :: ((("Description: ").data) ++ b.description)
            :: [] :: b.columns.flatMap colBlock := rfl

end Kantui

namespace Kantui

/-! ## C1: the board-file round trip -/

/-- C1 counterexample: the board `cexBoard` satisfies the original
precondition of the claim (no `|`, `==` or newline in any field), yet
loading the saved file does not return the original board: its single tag
`x,y` contains a comma, the tag list is joined with an unescaped `,` on
save, and the loader splits it back into the two tags `x` and `y`. -/
theorem C1_counterexample :
    specCleanBoard cexBoard = true
      ∧ Crud.Board.loadFromFile (Crud.Board.saveToFile cexBoard) ≠ some cexBoard := by
  constructor
  · decide
  · decide

/-- C1 (amended): the round trip `load_from_file (save_to_file b) = b` holds
for every board whose string fields are trim-invariant (no leading or
trailing whitespace, as the loader trims every field), free of `|` and of
newlines, whose tags are additionally comma-free, and whose numeric fields
fit their Rust types (`id` in `usize`, the three priority fields in `u8`,
automatic in Rust).  The original claim is both too strong — it allows
commas in tags and surrounding whitespace, which do not survive — and too
weak: `==` inside a field is harmless, because the column-header branch of
the loader is only reached by lines starting with `==`. -/
theorem C1_round_trip (b : Crud.Board) (h : goodBoard b = true) :
    Crud.Board.loadFromFile (Crud.Board.saveToFile b) = some b := by
  obtain ⟨nm, dt, ds, cols⟩ := b
  unfold goodBoard at h
  simp only [Bool.and_eq_true, List.all_eq_true] at h
  obtain ⟨⟨⟨hnm, hdt⟩, hds⟩, hcols⟩ := h
  unfold Crud.Board.loadFromFile
  rw [saveToFile_eq]
  rw [runLines_cons, processLine_header _ (goodStr_spec hnm).1]
  dsimp only
  rw [runLines_cons, processLine_date _ (goodStr_spec hdt).1]
  dsimp only
  rw [runLines_cons, processLine_desc _ (goodStr_spec hds).1]
  dsimp only
  rw [runLines_blank]
  have hb := runLines_blocks cols hcols ⟨nm, dt, ds, []⟩ none
  rw [hb]
  simp [flushCur]

/-- C1 witness: a representative board exercising every optional field
(priority with a defined computed score, two tags, a created date, and an
empty second column) satisfies the amended conditions and round-trips. -/
theorem C1_round_trip_witness :
    goodBoard rtBoard = true
      ∧ Crud.Board.loadFromFile (Crud.Board.saveToFile rtBoard) = some rtBoard :=
  ⟨by decide, C1_round_trip rtBoard (by decide)⟩

end Kantui
